import Mathlib

/-!
A verification development for the ccGains capital-gains engine
(`ccgains/bags.py`, `ccgains/relations.py`, `ccgains/trades.py`).

Modelling conventions (shallow embedding):

* Python `decimal.Decimal` values are modelled by `Rat` (exact rational
  arithmetic; the engine only adds, subtracts, multiplies and divides
  exact decimals, and the properties considered here do not depend on the
  28-significant-digit context rounding of `decimal`).  Division by zero,
  which raises in `decimal`, is the total `Rat` division (`x / 0 = 0`);
  every place where the sources can divide by zero is noted.
* Python `dict`s are modelled by association lists without duplicate
  keys, with insertion-order-preserving update (`dset`) mirroring CPython
  semantics, since `relations.update_available_pairs` iterates over a
  dict in insertion order.
* Timezone-aware `datetime`/`pd.Timestamp` values are modelled by `DT`:
  an absolute UTC time in seconds since the epoch together with a civil
  offset in minutes (sub-second resolution is not needed by any claim).
  Naive datetimes carry `aware = false` and are rejected by the engine's
  order check exactly as in the source.
* Raising an exception (`ValueError`, `KeyError`, ...) is modelled with
  `Except String`; the `BagFIFO._abort` dump-to-file side effect is not
  observable in the state and is dropped.
-/

/-- Python `str.upper` restricted to ASCII characters (all currency and
exchange names in the repository are ASCII). -/
def pyUpperChar (c : Char) : Char :=
  if 'a' ≤ c ∧ c ≤ 'z' then Char.ofNat (c.toNat - 32) else c

/-- Python `str.lower` restricted to ASCII characters. -/
def pyLowerChar (c : Char) : Char :=
  if 'A' ≤ c ∧ c ≤ 'Z' then Char.ofNat (c.toNat + 32) else c

/-- Python `str.upper` for ASCII strings. -/
def pyUpper (s : String) : String :=
  String.mk (s.data.map pyUpperChar)

/-- Python `str.capitalize` for ASCII strings: first character
upper-cased, the rest lower-cased. -/
def pyCapitalize (s : String) : String :=
  match s.data with
  | [] => ""
  | c :: cs => String.mk (pyUpperChar c :: cs.map pyLowerChar)

/-- Association-list model of a Python `dict` (keys unique, insertion
order preserved).  `dget` is `d.get(k)` / `d[k]`. -/
def dget {κ α : Type} [DecidableEq κ] : List (κ × α) → κ → Option α
  | [], _ => none
  | (k', v) :: t, k => if k' = k then some v else dget t k

/-- `d.get(k, dflt)`. -/
def dgetD {κ α : Type} [DecidableEq κ] (d : List (κ × α)) (k : κ) (dflt : α) : α :=
  (dget d k).getD dflt

/-- `d[k] = v`: replace the binding in place if the key is present,
otherwise append it (CPython insertion-order semantics). -/
def dset {κ α : Type} [DecidableEq κ] : List (κ × α) → κ → α → List (κ × α)
  | [], k, v => [(k, v)]
  | (k', v') :: t, k, v => if k' = k then (k, v) :: t else (k', v') :: dset t k v

/-- `del d[k]` (total: the sources only delete keys that are present;
each call site is justified where it occurs). -/
def ddel {κ α : Type} [DecidableEq κ] : List (κ × α) → κ → List (κ × α)
  | [], _ => []
  | (k', v') :: t, k => if k' = k then t else (k', v') :: ddel t k

/-- `k in d`. -/
def dmem {κ α : Type} [DecidableEq κ] (d : List (κ × α)) (k : κ) : Bool :=
  (dget d k).isSome

/-- A timezone-aware instant: `utc` is seconds since the epoch, `off` is
the civil offset of its timezone in minutes.  `aware = false` models a
naive datetime (the `utc`/`off` fields are then ignored by the engine,
which rejects naive datetimes up front). -/
structure DT where
  utc : Int
  off : Int
  aware : Bool
deriving DecidableEq, Repr

/-- `pd.Timestamp.tz_convert('UTC')` (absolute instant unchanged). -/
def DT.toUTC (d : DT) : DT :=
  { utc := d.utc, off := 0, aware := true }

/-- `dt.astimezone(tzinfo)`: same absolute instant, civil fields read in
the timezone with offset `off` minutes. -/
def DT.astimezone (d : DT) (off : Int) : DT :=
  { utc := d.utc, off := off, aware := true }

/-- Comparison of two aware datetimes is comparison of absolute times. -/
def DT.lt (a b : DT) : Prop := a.utc < b.utc

instance : LT DT := ⟨DT.lt⟩

instance (a b : DT) : Decidable (a < b) := by
  unfold instLTDT DT.lt; infer_instance

/-- `ccgains.bags.Bag` (the `price=None` constructor path; `price` is
`cost / amount`, set once and never mutated). -/
structure Bag where
  id : Int
  dtime : DT
  currency : String
  amount : Rat
  cost_currency : String
  cost : Rat
  price : Rat
deriving DecidableEq, Repr

/-- `Bag.__init__` with `price=None`: uppercases the currencies, converts
the purchase time to UTC and derives the immutable unit price
`cost / amount`.  (In `decimal`, `cost / amount` with `amount = 0` would
raise; the engine only constructs bags with positive `amount`.) -/
def mkBag (id : Int) (dtime : DT) (currency : String) (amount : Rat)
    (cost_currency : String) (cost : Rat) : Bag :=
  { id := id
    amount := amount
    currency := pyUpper currency
    dtime := dtime.toUTC
    cost_currency := pyUpper cost_currency
    cost := cost
    price := cost / amount }

/-- `Bag.spend`: returns `((spent_amount, bcost, remainder), updated bag)`. -/
def Bag.spend (b : Bag) (amount : Rat) : (Rat × Rat × Rat) × Bag :=
  if amount ≥ b.amount then
    ((b.amount, b.cost, amount - b.amount), { b with amount := 0, cost := 0 })
  else
    ((amount, amount * b.price, 0),
     { b with amount := b.amount - amount, cost := b.cost - amount * b.price })

/-- `Bag.is_empty`. -/
def Bag.isEmpty (b : Bag) : Bool := b.amount == 0

/-- `ccgains.trades.Trade` after construction (normalised fields). -/
structure Trade where
  kind : String
  dtime : DT
  buycur : String
  buyval : Rat
  sellcur : String
  sellval : Rat
  feecur : String
  feeval : Rat
  exchange : String
  mark : String
  comment : String
deriving DecidableEq, Repr

/-! Proleptic Gregorian calendar, as implemented by Python's `datetime`
and `calendar` modules.  `daysFromCivil`/`civilFromDays` convert between
a civil date `(year, month, day)` and the number of days since
1970-01-01 (standard exact integer algorithms; `/` and `%` on `Int` are
floor division and modulus, matching Python). -/

/-- Days since 1970-01-01 of the civil date `(y, m, d)`. -/
def daysFromCivil (y m d : Int) : Int :=
  let y' := if m ≤ 2 then y - 1 else y
  let era := y' / 400
  let yoe := y' - era * 400
  let mp := (m + 9) % 12
  let doy := (153 * mp + 2) / 5 + d - 1
  let doe := yoe * 365 + yoe / 4 - yoe / 100 + doy
  era * 146097 + doe - 719468

/-- Civil date `(y, m, d)` of the day `z` (days since 1970-01-01). -/
def civilFromDays (z : Int) : Int × Int × Int :=
  let z' := z + 719468
  let era := z' / 146097
  let doe := z' - era * 146097
  let yoe := (doe - doe / 1460 + doe / 36524 - doe / 146096) / 365
  let y := yoe + era * 400
  let doy := doe - (365 * yoe + yoe / 4 - yoe / 100)
  let mp := (5 * doy + 2) / 153
  let d := doy - (153 * mp + 2) / 5 + 1
  let m := if mp < 10 then mp + 3 else mp - 9
  (if m ≤ 2 then y + 1 else y, m, d)

/-- `calendar.isleap`. -/
def isleap (y : Int) : Bool := y % 4 = 0 ∧ (y % 100 ≠ 0 ∨ y % 400 = 0)

/-- `calendar.monthrange(y, m)[1]`: the number of days of month `m` of
year `y`. -/
def monthLen (y m : Int) : Int :=
  if m = 2 then (if isleap y then 29 else 28)
  else if m = 4 ∨ m = 6 ∨ m = 9 ∨ m = 11 then 30 else 31

/-- Local civil seconds of an aware datetime (seconds since the epoch in
its own timezone's civil timeline). -/
def DT.localSec (dt : DT) : Int := dt.utc + dt.off * 60

/-- Civil `(year, month, day)` of an aware datetime in its timezone. -/
def DT.civil (dt : DT) : Int × Int × Int := civilFromDays (dt.localSec / 86400)

/-- Seconds since local midnight. -/
def DT.sod (dt : DT) : Int := dt.localSec % 86400

/-! `dateutil.relativedelta` — the part used by `bags.is_short_term`:
for two aware datetimes, `relativedelta(dt1, dt2)` computes a months
count `m` with `dt2 + m months ≤ dt1 < dt2 + (m+1) months` (signs
mirrored when `dt1 < dt2`) starting from the civil year/month difference
and adjusting with a `while` loop, then splits it into years and months.
The loop is modelled with fuel; `rdLoop_two_steps` below shows two steps
always suffice, so the fuel never runs out. -/

/-- `dt + relativedelta(months=n)` (with a zero time component):
year/month arithmetic with the day clamped to the target month's length
(`relativedelta.__radd__`). -/
def rdRadd (dt : DT) (months : Int) : DT :=
  let c := dt.civil
  let total := 12 * c.1 + (c.2.1 - 1) + months
  let y' := total / 12
  let m' := total % 12 + 1
  let d' := min c.2.2 (monthLen y' m')
  { utc := daysFromCivil y' m' d' * 86400 + dt.sod - dt.off * 60,
    off := dt.off, aware := true }

/-- The `while compare(dt1, dtm)` adjustment loop of
`relativedelta.__init__` for the `dt1 >= dt2` case (decrementing). -/
def rdLoopDown (dt1 dt2 : DT) : Nat → Int → Int
  | 0, months => months
  | fuel + 1, months =>
      if dt1 < rdRadd dt2 months then rdLoopDown dt1 dt2 fuel (months - 1)
      else months

/-- The adjustment loop for the `dt1 < dt2` case (incrementing). -/
def rdLoopUp (dt1 dt2 : DT) : Nat → Int → Int
  | 0, months => months
  | fuel + 1, months =>
      if rdRadd dt2 months < dt1 then rdLoopUp dt1 dt2 fuel (months + 1)
      else months

/-- The adjusted total months difference computed by
`relativedelta(dt1, dt2)`. -/
def rdMonths (dt1 dt2 : DT) : Int :=
  let c1 := dt1.civil
  let c2 := dt2.civil
  let m0 := (c1.1 - c2.1) * 12 + (c1.2.1 - c2.2.1)
  if dt1 < dt2 then rdLoopUp dt1 dt2 24 m0 else rdLoopDown dt1 dt2 24 m0

/-- `relativedelta(dt1, dt2).years`: the total months difference
normalised by `_set_months` (sign-preserving truncated division). -/
def rdYears (dt1 dt2 : DT) : Int :=
  let m := rdMonths dt1 dt2
  if 11 < m.natAbs then
    (if m < 0 then -(↑(m.natAbs / 12) : Int) else (↑(m.natAbs / 12) : Int))
  else 0

/-- `bags.is_short_term(adate, tdate)`: whether the spent coins were
held for less than a year.  Note the source converts `tdate` into
`adate`'s timezone before taking the calendar difference. -/
def is_short_term (adate tdate : DT) : Bool :=
  |rdYears (tdate.astimezone adate.off) adate| < 1

/-! The `ccgains.relations` module. -/

/-- `relations.CurrencyPair`. -/
structure CurrencyPair where
  base : String
  quote : String
deriving DecidableEq, Repr

/-- `CurrencyPair.reversed`. -/
def CurrencyPair.reversed (p : CurrencyPair) : CurrencyPair := ⟨p.quote, p.base⟩

/-- `CurrencyPair.__add__`: `(a, b) + (b, c) = (a, c)`. -/
def CurrencyPair.app (a b : CurrencyPair) : CurrencyPair := ⟨a.base, b.quote⟩

/-- `relations.RecipeStep`. -/
structure RecipeStep where
  base : String
  quote : String
  reciprocal : Bool
deriving DecidableEq, Repr

/-- `RecipeStep.reversed`: same pair, opposite `reciprocal`. -/
def RecipeStep.reversed (s : RecipeStep) : RecipeStep :=
  ⟨s.base, s.quote, !s.reciprocal⟩

/-- `relations.Recipe` (a namedtuple `(num_steps, recipe_steps)`). -/
structure Recipe where
  num_steps : Int
  recipe_steps : List RecipeStep
deriving DecidableEq, Repr

/-- `Recipe.reversed`: steps in reversed order, each with `reciprocal`
flipped. -/
def Recipe.reversed (r : Recipe) : Recipe :=
  ⟨r.num_steps, (r.recipe_steps.reverse).map RecipeStep.reversed⟩

/-- `RecipeStep.as_recipe`. -/
def RecipeStep.asRecipe (s : RecipeStep) : Recipe := ⟨1, [s]⟩

/-- `Recipe.__add__ Recipe`: steps concatenated, step counts added. -/
def Recipe.app (a b : Recipe) : Recipe :=
  ⟨a.num_steps + b.num_steps, a.recipe_steps ++ b.recipe_steps⟩

/-- `Recipe + RecipeStep` (`Recipe.__add__` with a `RecipeStep`). -/
def Recipe.appStep (a : Recipe) (s : RecipeStep) : Recipe :=
  ⟨a.num_steps + 1, a.recipe_steps ++ [s]⟩

/-- `RecipeStep + Recipe` (`RecipeStep.__add__` with a `Recipe`). -/
def RecipeStep.appRecipe (s : RecipeStep) (b : Recipe) : Recipe :=
  ⟨b.num_steps + 1, s :: b.recipe_steps⟩

/-- Python character comparison (by code point). -/
def pyCharLt (a b : Char) : Bool := a.toNat < b.toNat

/-- Python string `<`: lexicographic on code points, a strict prefix
being smaller. -/
def pyStrLtAux : List Char → List Char → Bool
  | [], [] => false
  | [], _ :: _ => true
  | _ :: _, [] => false
  | a :: as', b :: bs => if a = b then pyStrLtAux as' bs else pyCharLt a b

/-- Python string `<` on the underlying character lists. -/
def pyStrLt (a b : String) : Bool := pyStrLtAux a.data b.data

/-- Python tuple `<` on `RecipeStep` namedtuples
(`(base, quote, reciprocal)`, with `False < True`). -/
def stepLt (a b : RecipeStep) : Bool :=
  if a.base = b.base then
    (if a.quote = b.quote then !a.reciprocal && b.reciprocal
     else pyStrLt a.quote b.quote)
  else pyStrLt a.base b.base

/-- Python list `<` on step lists (lexicographic, shorter prefix is
smaller). -/
def stepsLt : List RecipeStep → List RecipeStep → Bool
  | [], [] => false
  | [], _ :: _ => true
  | _ :: _, [] => false
  | a :: as', b :: bs => if a = b then stepsLt as' bs else stepLt a b

/-- The comparison evaluated by `recipe < self.recipes[pair]` in
`update_if_shorter`.  `Recipe` subclasses `tuple` and defines only
`__gt__`; `functools.total_ordering` keeps the inherited `tuple.__lt__`
(it only fills in `__le__`/`__ge__` because `__lt__` already differs
from `object.__lt__`), so `<` is the *lexicographic tuple order* on
`(num_steps, recipe_steps)` — not the step-count order of `__gt__`. -/
def recipeLt (a b : Recipe) : Bool :=
  if a.num_steps = b.num_steps then stepsLt a.recipe_steps b.recipe_steps
  else decide (a.num_steps < b.num_steps)

/-- The recipes dictionary `CurrencyRelation.recipes`. -/
abbrev RecipeDict := List (CurrencyPair × Recipe)

/-- `update_if_shorter` (closure inside `update_available_pairs`):
insert `recipe` for `pair` — and its reversed recipe for the reversed
pair — iff `pair` is unknown or `recipe < ` the incumbent, returning the
updated dictionary and whether an insertion happened. -/
def updateIfShorter (recipes : RecipeDict) (pair : CurrencyPair)
    (recipe : Recipe) : RecipeDict × Bool :=
  match dget recipes pair with
  | none =>
      (dset (dset recipes pair recipe) pair.reversed recipe.reversed, true)
  | some incumbent =>
      if recipeLt recipe incumbent then
        (dset (dset recipes pair recipe) pair.reversed recipe.reversed, true)
      else (recipes, false)

/-- `can_add_before(new, existing)`. -/
def canAddBefore (new' existing : CurrencyPair) : Bool :=
  new'.quote = existing.base ∧ new' ≠ existing.reversed

/-- `can_add_after(new, existing)`. -/
def canAddAfter (new' existing : CurrencyPair) : Bool :=
  new'.base = existing.quote ∧ new' ≠ existing.reversed

/-- The inner `for known_pair, known_recipe in tuple(self.recipes.items())`
loop of `update_available_pairs`, for root pair `root`: returns the
updated recipes and the `added_after`/`added_before` lists. -/
def uapKnownLoop (root : CurrencyPair) (rootStep : RecipeStep) :
    List (CurrencyPair × Recipe) → RecipeDict →
    List (CurrencyPair × Recipe) → List (CurrencyPair × Recipe) →
    RecipeDict × List (CurrencyPair × Recipe) × List (CurrencyPair × Recipe)
  | [], recipes, addedAfter, addedBefore => (recipes, addedAfter, addedBefore)
  | (knownPair, knownRecipe) :: rest, recipes, addedAfter, addedBefore =>
      if canAddBefore root knownPair then
        let beforePair := root.app knownPair
        let newRecipe := rootStep.appRecipe knownRecipe
        let res := updateIfShorter recipes beforePair newRecipe
        uapKnownLoop root rootStep rest res.1 addedAfter
          (if res.2 then addedBefore ++ [(knownPair, knownRecipe)] else addedBefore)
      else if canAddAfter root knownPair then
        let afterPair := knownPair.app root
        let newRecipe := knownRecipe.appStep rootStep
        let res := updateIfShorter recipes afterPair newRecipe
        uapKnownLoop root rootStep rest res.1
          (if res.2 then addedAfter ++ [(knownPair, knownRecipe)] else addedAfter)
          addedBefore
      else uapKnownLoop root rootStep rest recipes addedAfter addedBefore

/-- The middle-joining double loop of `update_available_pairs`:
`recipe_a + root_step + recipe_b` for every `(pair_a, recipe_a)` in
`added_after` and `(pair_b, recipe_b)` in `added_before`. -/
def uapMiddleLoop (rootStep : RecipeStep) :
    List (CurrencyPair × Recipe) → List (CurrencyPair × Recipe) →
    RecipeDict → RecipeDict
  | [], _, recipes => recipes
  | _ :: _, [], recipes => recipes
  | (pairA, recipeA) :: restA, addedBefore, recipes =>
      let inner := addedBefore.foldl
        (fun rs pb =>
          (updateIfShorter rs (pairA.app pb.1)
            ((recipeA.appStep rootStep).app pb.2)).1)
        recipes
      uapMiddleLoop rootStep restA addedBefore inner

/-- One iteration of the outer `for root_base, root_quote in to_add`
loop of `update_available_pairs`. -/
def uapProcessRoot (recipes : RecipeDict) (root : CurrencyPair) : RecipeDict :=
  let rootStep : RecipeStep := ⟨root.base, root.quote, false⟩
  let r1 := uapKnownLoop root rootStep recipes recipes [] []
  let r2 := uapMiddleLoop rootStep r1.2.1 r1.2.2 r1.1
  (updateIfShorter r2 root rootStep.asRecipe).1

/-- `update_available_pairs(None)` restricted to the recipe rebuild:
process the direct pairs in insertion order, starting from an empty
recipes dictionary. -/
def updateAvailablePairs (directPairs : List CurrencyPair) : RecipeDict :=
  directPairs.foldl uapProcessRoot []

/-- Evaluation of a recipe's steps at fixed prices
(`CurrencyRelation.get_rate`'s folding loop): multiply by the step's
price, or divide when `reciprocal` is set.  `price` abstracts
`self.historic_prices[step_key].get_price(dtime)` at the fixed query
time.  (A `KeyError` for a missing pair is not modelled here: `price` is
total, as the reversibility property is about recipes whose step pairs
are all priced.) -/
def evalSteps (price : CurrencyPair → Rat) (steps : List RecipeStep) : Rat :=
  steps.foldl
    (fun result s =>
      if s.reciprocal then result / price ⟨s.base, s.quote⟩
      else result * price ⟨s.base, s.quote⟩) 1

/-- `reports.PaymentReport` (a namedtuple; `CapitalGainsReport` is a
plain append-only list of these). -/
structure PaymentReport where
  kind : String
  exchange : String
  sell_date : DT
  currency : String
  to_pay : Rat
  fee_ratio : Rat
  bag_date : DT
  bag_amount : Rat
  bag_spent : Rat
  cost_currency : String
  spent_cost : Rat
  short_term : Bool
  ex_rate : Rat
  proceeds : Rat
  profit : Rat
  buy_currency : String
  buy_ratio : Rat
deriving DecidableEq, Repr

/-- The `CurrencyRelation.get_rate` collaborator as seen by `BagFIFO`:
`rel dtime from_c to_c` is `some rate`, or `none` for the `KeyError` of
a missing recipe/price. -/
abbrev RateRel := DT → String → String → Option Rat

/-- The state of a `ccgains.bags.BagFIFO` object (all fields of
`self.__dict__` except the external `relation` collaborator and the
`dump_file` path, whose only effect is a diagnostic file write). -/
structure BagFIFO where
  currency : String
  profit : List (String × Rat)
  bags : List (String × List Bag)
  totals : List (String × List (String × Rat))
  in_transit : List (String × List Bag)
  report : List PaymentReport
  last_date : DT
  num_created_bags : Int
deriving DecidableEq, Repr

/-- `BagFIFO.__init__`. -/
def initBagFIFO (base_currency : String) : BagFIFO :=
  { currency := pyUpper base_currency
    profit := [], bags := [], totals := [], in_transit := [], report := []
    last_date := { utc := 0, off := 0, aware := true }
    num_created_bags := 0 }

/-- `BagFIFO._check_order`: reject naive datetimes and out-of-order
trades, then advance the last-seen time (converted to UTC). -/
def checkOrder (s : BagFIFO) (dtime : DT) : Except String BagFIFO :=
  if ¬ dtime.aware then
    .error "only transactions including timezone information are allowed"
  else if dtime.utc < s.last_date.utc then
    .error "Trades must be processed in order"
  else .ok { s with last_date := dtime.toUTC }

/-- Civil year of an aware datetime (`dt.year`). -/
def DT.year (dt : DT) : Int := dt.civil.1

/-- `BagFIFO._add_profit`. -/
def addProfit (s : BagFIFO) (dtime : DT) (p : Rat) : BagFIFO :=
  let year := toString dtime.year
  { s with profit := dset s.profit year (dgetD s.profit year 0 + p) }

/-- `BagFIFO._move_bags` as a structurally recursive walk of the source
list: returns `(src', moved, remainder, num_created')` where `src'` is
what remains of `src` (skipped bags in place, a split head kept), and
`moved` are the bags appended to `dest` in order.  The loop exits with
the unspent `to_move` when the source list runs out of usable bags; the
`IndexError` raised by the source on an *initially empty* `src` with
`to_move > 0` is checked by the callers below. -/
def moveBags (currency : String) : List Bag → Rat → Int →
    List Bag × List Bag × Rat × Int
  | src, toMove, n =>
    if toMove ≤ 0 then (src, [], toMove, n)
    else match src with
      | [] => ([], [], toMove, n)
      | b :: rest =>
        if b.currency ≠ currency then
          let r := moveBags currency rest toMove n
          (b :: r.1, r.2.1, r.2.2.1, r.2.2.2)
        else if b.amount ≤ toMove then
          let r := moveBags currency rest (toMove - b.amount) n
          (r.1, b :: r.2.1, r.2.2.1, r.2.2.2)
        else
          let sp := b.spend toMove
          (sp.2 :: rest,
           [mkBag (n + 1) b.dtime b.currency sp.1.1 b.cost_currency sp.1.2.1],
           0, n + 1)

/-- Accumulators of `BagFIFO.pay`'s FIFO loop. -/
structure PayAcc where
  proc : Rat
  cost : Rat
  st_proc : Rat
  st_cost : Rat
deriving DecidableEq, Repr

/-- The FIFO draining loop of `BagFIFO.pay` (`while to_pay > 0`),
walking the exchange's bag list from the front: skips bags of other
currencies, spends from each matching bag, accumulates proceeds/costs
(splitting out the short-term part), emits one `PaymentReport` per
drained slice, deletes emptied bags and keeps a partially spent one.
Errors when the list is exhausted with `to_pay > 0` (the source raises
`Exception`, or `IndexError` straight after a deletion — both fatal). -/
def payLoop (rate fee_ratio : Rat) (dtime : DT) (currency : String)
    (repKind repBuyCur : String) (repBuyRatio : Rat) (exchange : String) :
    List Bag → Rat → PayAcc → List PaymentReport →
    Except String (List Bag × PayAcc × List PaymentReport)
  | bags, toPay, acc, reps =>
    if toPay ≤ 0 then .ok (bags, acc, reps)
    else match bags with
      | [] => .error "There are no bags left with the requested currency"
      | b :: rest =>
        if b.currency ≠ currency then
          (payLoop rate fee_ratio dtime currency repKind repBuyCur repBuyRatio
              exchange rest toPay acc reps).map
            (fun r => (b :: r.1, r.2))
        else
          let sp := b.spend toPay
          let spent := sp.1.1
          let bcost := sp.1.2.1
          let remainder := sp.1.2.2
          let thisproc := spent * rate
          let short := is_short_term b.dtime dtime
          let corrproc := thisproc * (1 - fee_ratio)
          let acc' : PayAcc :=
            { proc := acc.proc + thisproc
              cost := acc.cost + bcost
              st_proc := if short then acc.st_proc + thisproc else acc.st_proc
              st_cost := if short then acc.st_cost + bcost else acc.st_cost }
          let rep : PaymentReport :=
            { kind := repKind, exchange := exchange, sell_date := dtime.toUTC
              currency := currency, to_pay := toPay, fee_ratio := fee_ratio
              bag_date := b.dtime, bag_amount := sp.2.amount + spent
              bag_spent := spent, cost_currency := b.cost_currency
              spent_cost := bcost, short_term := short, ex_rate := rate
              proceeds := corrproc, profit := corrproc - bcost
              buy_currency := repBuyCur, buy_ratio := repBuyRatio }
          if sp.2.isEmpty then
            payLoop rate fee_ratio dtime currency repKind repBuyCur repBuyRatio
              exchange rest remainder acc' (reps ++ [rep])
          else
            (payLoop rate fee_ratio dtime currency repKind repBuyCur repBuyRatio
                exchange rest remainder acc' (reps ++ [rep])).map
              (fun r => (sp.2 :: r.1, r.2))

/-- `BagFIFO.pay`.  The `report_info` dict is passed as the already
merged triple `(repKind, repBuyCur, repBuyRatio)` (every call site in
the sources supplies either `kind` alone, `None`, or the full sale
triple); the rule zeroing `buy_ratio` for an empty `buy_currency` is
applied here as in the source.  Returns `none` for Python's bare
`return` when `amount <= 0`, otherwise
`some (short_term_profit, total_proceeds)`. -/
def pay (rel : RateRel) (dtime : DT) (currency : String) (amount : Rat)
    (exchange : String) (fee_ratio : Rat) (custom_rate : Option Rat)
    (repKind repBuyCur : String) (repBuyRatio : Rat) (s : BagFIFO) :
    Except String (Option (Rat × Rat) × BagFIFO) := do
  let s ← checkOrder s dtime
  if amount ≤ 0 then return (none, s) else
  let exchange := pyCapitalize exchange
  if currency = s.currency then
    throw "Payments with the base currency are not relevant here." else
  match dget s.bags exchange with
  | none => throw "You don't own any funds on this exchange"
  | some exBags =>
  if exBags = [] then throw "You don't own any funds on this exchange" else
  if fee_ratio < 0 ∨ fee_ratio > 1 then
    throw "Fee ratio must be between 0 and 1." else
  let total : Rat :=
    match dget s.totals exchange with
    | none => 0
    | some row => dgetD row currency 0
  if amount > total then
    throw "Amount to be paid is higher than total available" else
  let rate : Rat ←
    match custom_rate with
    | some r => pure r
    | none =>
        match rel dtime currency s.currency with
        | some r => pure r
        | none => throw "Could not fetch the price for this currency pair"
  let repBuyRatio := if repBuyCur = "" then 0 else repBuyRatio
  let res ← payLoop rate fee_ratio dtime currency repKind repBuyCur repBuyRatio
      exchange exBags amount ⟨0, 0, 0, 0⟩ []
  let bags' := res.1
  let acc := res.2.1
  let s := { s with report := s.report ++ res.2.2 }
  let s :=
    if total - amount = 0 then
      let row' := ddel (dgetD s.totals exchange []) currency
      { s with
        totals := if row' = [] then ddel s.totals exchange
                  else dset s.totals exchange row'
        bags := if bags' = [] then ddel s.bags exchange
                else dset s.bags exchange bags' }
    else
      { s with
        totals := dset s.totals exchange
          (dset (dgetD s.totals exchange []) currency (total - amount))
        bags := dset s.bags exchange bags' }
  return (some (acc.st_proc * (1 - fee_ratio) - acc.st_cost,
                acc.proc * (1 - fee_ratio)), s)

/-- `BagFIFO.buy_with_base_currency`. -/
def buyWithBaseCurrency (dtime : DT) (amount : Rat) (currency : String)
    (cost : Rat) (exchange : String) (s : BagFIFO) :
    Except String BagFIFO := do
  let s ← checkOrder s dtime
  let exchange := pyCapitalize exchange
  if amount ≤ 0 then return s else
  if currency = s.currency then
    throw "Buying the base currency is not possible." else
  let exBags := dgetD s.bags exchange []
  let s :=
    { s with
      bags := dset s.bags exchange
        (exBags ++ [mkBag (s.num_created_bags + 1) dtime currency amount
                      s.currency cost])
      num_created_bags := s.num_created_bags + 1 }
  let row := dgetD s.totals exchange []
  return { s with
           totals := dset s.totals exchange
             (dset row currency (dgetD row currency 0 + amount)) }

/-- `BagFIFO.withdraw`. -/
def withdraw (rel : RateRel) (dtime : DT) (currency : String) (amount fee : Rat)
    (exchange : String) (s : BagFIFO) : Except String BagFIFO := do
  let s ← checkOrder s dtime
  if amount ≤ 0 then return s else
  let exchange := pyCapitalize exchange
  if currency = s.currency then
    throw "Withdrawing the base currency is not possible." else
  let total : Rat :=
    match dget s.totals exchange with
    | none => 0
    | some row => dgetD row currency 0
  if amount > total then
    throw "Withdrawn amount is higher than total available" else
  -- any fees?  (`prof, _ = self.pay(...)`: unpacking `None` would raise)
  let s ←
    if fee > 0 then do
      let r ← pay rel dtime currency fee exchange 1 none "withdrawal fee" "" 0 s
      match r.1 with
      | some pr => pure (addProfit r.2 dtime pr.1)
      | none => throw "TypeError: cannot unpack None"
    else pure s
  -- move bags to self.in_transit:
  let transitList := dgetD s.in_transit currency []
  match dget s.bags exchange with
  | none => throw "KeyError: exchange not in self.bags"
  | some srcBags =>
  if srcBags = [] ∧ amount - fee > 0 then
    throw "IndexError: list index out of range" else
  let mv := moveBags currency srcBags (amount - fee) s.num_created_bags
  let s := { s with
             bags := dset s.bags exchange mv.1
             in_transit := dset s.in_transit currency (transitList ++ mv.2.1)
             num_created_bags := mv.2.2.2 }
  if mv.2.2.1 ≠ 0 then
    throw "There are no bags left with the requested currency" else
  -- update and clean up totals:
  let s ←
    if total - amount = 0 then
      match dget s.totals exchange with
      | none => throw "KeyError: exchange not in self.totals"
      | some row =>
        if ¬ dmem row currency then
          throw "KeyError: currency not in self.totals[exchange]"
        else
          let row' := ddel row currency
          pure { s with
                 totals := if row' = [] then ddel s.totals exchange
                           else dset s.totals exchange row'
                 bags := if dgetD s.bags exchange [] = [] then ddel s.bags exchange
                         else s.bags }
    else
      pure { s with
             totals := dset s.totals exchange
               (dset (dgetD s.totals exchange []) currency (total - amount)) }
  let trRow := dgetD s.totals "in_transit" []
  return { s with
           totals := dset s.totals "in_transit"
             (dset trRow currency (dgetD trRow currency 0 + amount - fee)) }

/-- `BagFIFO.deposit`.  The destination list is re-sorted by purchase
time (Python's stable `list.sort`, modelled by `List.mergeSort`). -/
def deposit (rel : RateRel) (dtime : DT) (currency : String) (amount fee : Rat)
    (exchange : String) (s : BagFIFO) : Except String BagFIFO := do
  let s ← checkOrder s dtime
  if amount ≤ 0 then return s else
  let exchange := pyCapitalize exchange
  if currency = s.currency then
    throw "Depositing the base currency is not possible." else
  -- move bags to self.bags:
  let s := if dmem s.bags exchange then s
           else { s with bags := dset s.bags exchange [] }
  let step ←
    match dget s.in_transit currency with
    | some transitList => do
        if transitList = [] ∧ amount > 0 then
          throw "IndexError: list index out of range" else
        let mv := moveBags currency transitList amount s.num_created_bags
        pure ({ s with
                in_transit := dset s.in_transit currency mv.1
                bags := dset s.bags exchange
                  (List.mergeSort (dgetD s.bags exchange [] ++ mv.2.1)
                    (fun a b => decide (a.dtime.utc ≤ b.dtime.utc)))
                num_created_bags := mv.2.2.2 }, mv.2.2.1)
    | none => pure (s, amount)
  let s := step.1
  let remainder := step.2
  let s ←
    if remainder ≠ 0 then
      buyWithBaseCurrency dtime remainder currency 0 exchange s
    else pure s
  -- update self.totals and clean up:
  let s :=
    if dmem s.totals "in_transit" then
      let row := dgetD s.totals "in_transit" []
      let row :=
        if dmem row currency then
          (let v := dgetD row currency 0 - amount
           if v ≤ 0 then ddel row currency else dset row currency v)
        else row
      let s := { s with
                 totals := if row = [] then ddel s.totals "in_transit"
                           else dset s.totals "in_transit" row }
      if dmem s.in_transit currency ∧ dgetD s.in_transit currency [] = [] then
        { s with in_transit := ddel s.in_transit currency }
      else s
    else s
  let row := dgetD s.totals exchange []
  let s := { s with
             totals := dset s.totals exchange
               (dset row currency (dgetD row currency 0 + amount - remainder)) }
  -- any fees?
  if fee > 0 then do
    let r ← pay rel dtime currency fee exchange 1 none "deposit fee" "" 0 s
    match r.1 with
    | some pr => pure (addProfit r.2 dtime pr.1)
    | none => throw "TypeError: cannot unpack None"
  else pure s

/-- `BagFIFO.process_trade`: the ordered decision table dispatching a
`Trade` into buy-with-base / fee-only / withdrawal / deposit / sale.
In the sale branch, `1 - fee_p` and the divisions by `trade.sellval`
follow the source; `trade.sellval > 0` is guaranteed there (rule 4
failed), while a `fee_p = 1` sale of base currency would raise
`DivisionByZero` in `decimal` (total `Rat` division here — no claim
depends on that corner). -/
def processTrade (rel : RateRel) (t : Trade) (s : BagFIFO) :
    Except String BagFIFO := do
  let s ← checkOrder s t.dtime
  if t.buyval < 0 ∨ t.sellval < 0 ∨ t.feeval < 0 then
    throw "Negative values for buy, sell or fee amount not supported." else
  let s :=
    if dmem s.profit (toString t.dtime.year) then s
    else { s with profit := dset s.profit (toString t.dtime.year) 0 }
  if (t.sellcur = s.currency ∧ t.sellval ≠ 0) ∨
     (pyUpper t.kind = "DISTRIBUTION" ∧ t.sellval = 0) then
    buyWithBaseCurrency t.dtime t.buyval t.buycur t.sellval t.exchange s
  else if (t.buycur = "" ∨ t.buyval = 0) ∧ (t.sellcur = "" ∨ t.sellval = 0) then
    -- probably some fees to pay:
    if t.feeval > 0 ∧ t.feecur ≠ "" then do
      let r ← pay rel t.dtime t.feecur t.feeval t.exchange 1 none
          "exchange fee" "" 0 s
      match r.1 with
      | some pr => pure (addProfit r.2 t.dtime pr.1)
      | none => throw "TypeError: cannot unpack None"
    else pure s
  else if pyUpper t.kind ≠ "PAYMENT" ∧
      (t.buycur = "" ∨
        (t.buyval = 0 ∧ (t.exchange ≠ "Poloniex" ∨ t.kind = "Withdrawal"))) then
    -- got nothing, so it must be a withdrawal:
    if t.feeval > 0 ∧ t.sellcur ≠ t.feecur then
      throw "Fees with different currency than withdrawn currency not supported."
    else withdraw rel t.dtime t.sellcur t.sellval t.feeval t.exchange s
  else if t.sellcur = "" ∨ t.sellval = 0 then
    -- paid nothing, so it must be a deposit:
    if t.feeval > 0 ∧ t.buycur ≠ t.feecur then
      throw "Fees with different currency than deposited currency not supported."
    else deposit rel t.dtime t.buycur t.buyval t.feeval t.exchange s
  else do
    -- sale: get the fee's proportion of the traded amount:
    let feeStep ←
      if t.feeval > 0 then
        if t.feecur = t.sellcur then pure ((t.feeval / t.sellval, s))
        else if t.feecur = t.buycur then
          pure ((t.feeval / (t.buyval + t.feeval), s))
        else if t.feecur = "BNB" then
          match rel t.dtime t.feecur t.sellcur with
          | none => throw "KeyError: get_rate"
          | some feeInSellCur => do
              let feeP := feeInSellCur / (t.sellval + feeInSellCur)
              let r ← pay rel t.dtime t.feecur t.feeval t.exchange 1 none
                  "exchange fee" "" 0 s
              pure ((feeP, r.2))
        else
          throw "Fees with different currency than one of the exchanged currencies not supported."
      else pure ((0, s))
    let feeP := feeStep.1
    let s := feeStep.2
    let rate : Option Rat :=
      if t.buycur = s.currency then
        some (t.buyval / t.sellval / (1 - feeP))
      else none
    let r ← pay rel t.dtime t.sellcur t.sellval t.exchange feeP rate
        "sale" t.buycur (t.buyval / t.sellval) s
    match r.1 with
    | none => throw "TypeError: cannot unpack None"
    | some pr =>
      let s := addProfit r.2 t.dtime pr.1
      if t.buycur ≠ s.currency then
        buyWithBaseCurrency t.dtime t.buyval t.buycur pr.2 t.exchange s
      else pure s

/-- The engine operations quantified over by the invariant claims. -/
inductive EngineOp where
  | buy (dtime : DT) (amount : Rat) (currency : String) (cost : Rat)
      (exchange : String)
  | wd (dtime : DT) (currency : String) (amount fee : Rat) (exchange : String)
  | dep (dtime : DT) (currency : String) (amount fee : Rat) (exchange : String)
  | payout (dtime : DT) (currency : String) (amount : Rat) (exchange : String)
      (fee_ratio : Rat) (custom_rate : Option Rat)
      (repKind repBuyCur : String) (repBuyRatio : Rat)
  | trade (t : Trade)

/-- Run one engine operation. -/
def runOp (rel : RateRel) (op : EngineOp) (s : BagFIFO) : Except String BagFIFO :=
  match op with
  | .buy dt a c cost ex => buyWithBaseCurrency dt a c cost ex s
  | .wd dt c a f ex => withdraw rel dt c a f ex s
  | .dep dt c a f ex => deposit rel dt c a f ex s
  | .payout dt c a ex fr cr k bc br =>
      (pay rel dt c a ex fr cr k bc br s).map (fun r => r.2)
  | .trade t => processTrade rel t s

/-- Run a list of engine operations from a state. -/
def runOps (rel : RateRel) (ops : List EngineOp) (s : BagFIFO) :
    Except String BagFIFO :=
  ops.foldl (fun acc op => acc >>= runOp rel op) (.ok s)

/-- The decision table at the top of `BagFIFO.process_trade`, as a pure
classifier (the five `if`/`elif` conditions in source order; `base` is
`self.currency`). -/
inductive TradeIntent where
  | buyWithBase
  | feeOnly
  | withdrawal
  | depositIntent
  | sale
deriving DecidableEq, Repr

/-- The first matching rule of `process_trade`'s ordered dispatch. -/
def classifyTrade (base : String) (t : Trade) : TradeIntent :=
  if (t.sellcur = base ∧ t.sellval ≠ 0) ∨
     (pyUpper t.kind = "DISTRIBUTION" ∧ t.sellval = 0) then .buyWithBase
  else if (t.buycur = "" ∨ t.buyval = 0) ∧ (t.sellcur = "" ∨ t.sellval = 0) then
    .feeOnly
  else if pyUpper t.kind ≠ "PAYMENT" ∧
      (t.buycur = "" ∨
        (t.buyval = 0 ∧ (t.exchange ≠ "Poloniex" ∨ t.kind = "Withdrawal"))) then
    .withdrawal
  else if t.sellcur = "" ∨ t.sellval = 0 then .depositIntent
  else .sale

/-! `BagFIFO.save` / `BagFIFO.load`.  The JSON encoding used by `save`
is, per field, an invertible self-describing encoding (`Decimal` ↔
string, `datetime` ↔ string, `Bag` ↔ its field dict), so a snapshot is
modelled by the state record itself.  `load` first drops zero-valued
totals entries; the source does so while iterating over the very dict
it is deleting from, so the moment a *row* becomes empty and is
deleted, the next step of the interrupted iteration raises
`RuntimeError: dictionary changed size during iteration` (CPython
semantics); the restore then recomputes the totals from the loaded bag
inventories and rejects the file when they disagree or when a bag's
cost currency differs from the base currency. -/

/-- The zero-entry pruning loop of `BagFIFO.load`: removes zero values
inside each row; a row left empty is deleted from the dict being
iterated, which raises `RuntimeError` on the following iterator step. -/
def pruneZeroTotals (totals : List (String × List (String × Rat))) :
    Except String (List (String × List (String × Rat))) :=
  let pruned := totals.map (fun p => (p.1, p.2.filter (fun q => q.2 ≠ 0)))
  if pruned.any (fun p => p.2 = []) then
    .error "RuntimeError: dictionary changed size during iteration"
  else .ok pruned

/-- The per-exchange accumulation of `check_totals` in `BagFIFO.load`:
sums the nonzero bag amounts by currency and rejects a bag whose
`cost_currency` differs from the base currency. -/
def checkRowOf (base : String) : List Bag → List (String × Rat) →
    Except String (List (String × Rat))
  | [], row => .ok row
  | b :: rest, row =>
    if b.amount ≠ 0 then
      if b.cost_currency ≠ base then
        .error "Could not load, file is corrupted (bags' cost and base_currency do not match)."
      else checkRowOf base rest (dset row b.currency (dgetD row b.currency 0 + b.amount))
    else checkRowOf base rest row

/-- `check_totals` of `BagFIFO.load` (one possibly-empty row per
exchange present in `bags`). -/
def checkTotalsOf (base : String) : List (String × List Bag) →
    List (String × List (String × Rat)) →
    Except String (List (String × List (String × Rat)))
  | [], acc => .ok acc
  | (ex, bs) :: rest, acc => do
      let row ← checkRowOf base bs []
      checkTotalsOf base rest (dset acc ex row)

/-- `check_transit` of `BagFIFO.load` (keyed by the `in_transit` dict
key, skipping zero-amount bags; no empty rows are materialised). -/
def checkTransitOf : List (String × List Bag) → List (String × Rat) →
    List (String × Rat)
  | [], acc => acc
  | (cur, bs) :: rest, acc =>
      checkTransitOf rest
        (bs.foldl
          (fun a b => if b.amount ≠ 0 then dset a cur (dgetD a cur 0 + b.amount) else a)
          acc)

/-- Python `dict` equality for a `{str: Decimal}` row
(order-insensitive: same keys, equal values). -/
def rowEqPy (a b : List (String × Rat)) : Bool :=
  a.all (fun p => dget b p.1 = some p.2) && b.all (fun p => dmem a p.1)

/-- Python `dict` equality for the nested totals dict. -/
def totalsEqPy (a b : List (String × List (String × Rat))) : Bool :=
  a.all (fun p =>
    match dget b p.1 with
    | some row => rowEqPy p.2 row
    | none => false) && b.all (fun p => dmem a p.1)

/-- `BagFIFO.save`: the snapshot carries exactly the state fields (see
the section comment on the JSON encoding). -/
def saveState (s : BagFIFO) : BagFIFO := s

/-- `BagFIFO.load` from a snapshot: prune zero totals (possibly raising
`RuntimeError`), restore every field, then check consistency of the
totals against the loaded bags. -/
def loadState (snap : BagFIFO) : Except String BagFIFO := do
  let pruned ← pruneZeroTotals snap.totals
  let d := { snap with totals := pruned }
  let check ← checkTotalsOf d.currency d.bags []
  let checkTransit := checkTransitOf d.in_transit []
  let check := if checkTransit ≠ [] then dset check "in_transit" checkTransit else check
  if ¬ totalsEqPy check d.totals then
    .error "Could not load, file is corrupted (totals don't add up)."
  else .ok d

/-! Specification-side vocabulary for the claims about `pay` and the
conservation invariant. -/

/-- Sum of the amounts of the bags of currency `c` in a list. -/
def rowSum (bs : List Bag) (c : String) : Rat :=
  ((bs.filter (fun b => b.currency = c)).map Bag.amount).sum

/-- The totals entry recorded for exchange `ex` and currency `c`. -/
def totalsEntry (s : BagFIFO) (ex c : String) : Option Rat :=
  (dget s.totals ex).bind (fun row => dget row c)

/-- The `total` read performed by `pay` and `withdraw`
(`self.totals.get(exchange, {}).get(currency, 0)` in effect:
a missing exchange row or a missing currency entry reads as zero). -/
def readTotal (s : BagFIFO) (ex c : String) : Rat :=
  match dget s.totals ex with
  | none => 0
  | some row => dgetD row c 0

/-- One drained slice of a payment, as described by the specification:
the source bag's purchase time, the amount spent from it and that
amount's original cost. -/
structure Slice where
  bagDtime : DT
  spent : Rat
  spentCost : Rat
deriving DecidableEq, Repr

/-- The drained slices of a FIFO disposal, as described by the
specification: walk the bag list from the front, skip bags of other
currencies, take whole bags (amount and full cost) while the requested
amount is not covered, and split the last contributing bag
proportionally at its unit price.  Returns the slices in drain order
and the remaining bag list, or `none` when the list cannot cover the
request. -/
def drainSlices (currency : String) : List Bag → Rat →
    Option (List Slice × List Bag)
  | bags, toPay =>
    if toPay ≤ 0 then some ([], bags)
    else match bags with
      | [] => none
      | b :: rest =>
        if b.currency ≠ currency then
          (drainSlices currency rest toPay).map (fun r => (r.1, b :: r.2))
        else if toPay ≥ b.amount then
          (drainSlices currency rest (toPay - b.amount)).map
            (fun r => (⟨b.dtime, b.amount, b.cost⟩ :: r.1, r.2))
        else
          some ([⟨b.dtime, toPay, toPay * b.price⟩],
            { b with amount := b.amount - toPay,
                     cost := b.cost - toPay * b.price } :: rest)

/-- Gross proceeds of a list of slices at a fixed rate. -/
def slicesProceeds (rate : Rat) (sl : List Slice) : Rat :=
  (sl.map (fun x => x.spent * rate)).sum

/-- Total original cost of a list of slices. -/
def slicesCost (sl : List Slice) : Rat :=
  (sl.map Slice.spentCost).sum

/-- The slices whose source bag was acquired short-term relative to the
payment time. -/
def stSlices (dtime : DT) (sl : List Slice) : List Slice :=
  sl.filter (fun x => is_short_term x.bagDtime dtime)

/-- A dictionary's keys are unique. -/
def NDK {κ α : Type} (d : List (κ × α)) : Prop := (d.map Prod.fst).Nodup

/-- The reachability invariant of a `BagFIFO` state: dictionaries have
unique keys; every bag has a positive amount, cost recorded in the base
currency and an upper-case currency code; bag lists stored per exchange
are nonempty, totals rows are nonempty, and no exchange is named
`in_transit` (exchange keys are capitalized); every recorded
per-exchange total equals the summed amount of that exchange's bags of
that currency and is nonzero, a missing entry meaning a zero sum; every
recorded in-transit total equals the summed amount of the corresponding
in-transit bag list (possibly zero — see the corrected claim), a
missing entry meaning no in-transit bags of that currency. -/
structure EngineInv (s : BagFIFO) : Prop where
  baseFix : pyUpper s.currency = s.currency
  ndBags : NDK s.bags
  ndTrans : NDK s.in_transit
  ndTot : NDK s.totals
  ndRows : ∀ ex row, dget s.totals ex = some row → NDK row
  bagsGood : ∀ ex bs, dget s.bags ex = some bs → ∀ b ∈ bs,
      0 < b.amount ∧ b.cost_currency = s.currency ∧ pyUpper b.currency = b.currency
  transGood : ∀ c bs, dget s.in_transit c = some bs → ∀ b ∈ bs,
      0 < b.amount ∧ b.cost_currency = s.currency ∧ b.currency = c
  bagsNE : ∀ ex bs, dget s.bags ex = some bs → bs ≠ []
  rowsNE : ∀ ex row, dget s.totals ex = some row → row ≠ []
  noTransitBags : dget s.bags "in_transit" = none
  exMatch : ∀ ex c, ex ≠ "in_transit" →
      (∀ v, totalsEntry s ex c = some v →
        v = rowSum (dgetD s.bags ex []) c ∧ v ≠ 0) ∧
      (totalsEntry s ex c = none → rowSum (dgetD s.bags ex []) c = 0)
  trMatch : ∀ c,
      (∀ v, totalsEntry s "in_transit" c = some v →
        v = rowSum (dgetD s.in_transit c []) c) ∧
      (totalsEntry s "in_transit" c = none → dgetD s.in_transit c [] = [])

/-- Currency arguments are upper-case currency codes (the data model's
`CurrencyCode`); trades produced by the `Trade` normaliser from
upper-case currency strings satisfy this. -/
def EngineOp.wf : EngineOp → Prop
  | .buy _ _ c _ _ => pyUpper c = c
  | .wd _ _ _ fee _ => 0 ≤ fee
  | .dep _ c _ fee _ => pyUpper c = c ∧ 0 ≤ fee
  | .payout _ _ _ _ _ _ _ _ _ => True
  | .trade t => pyUpper t.buycur = t.buycur

/-- `Trade.__init__` (the amount/currency/fee normalisation; the input
datetime is taken timezone-aware and converted to UTC — the
naive-input localisation branch is not exercised by any claim).
Mirrors `trades.py` lines 214-265: if both amounts are negative a
`ValueError` is raised; if only `buy_amount` is negative the sides are
swapped; otherwise `sell_amount` is replaced by its absolute value in
place.  Note that the final fee-currency check compares against the
*original* `buy_currency`/`sell_currency` arguments, as in the source. -/
def mkTrade (kind : String) (dtime : DT) (buy_currency : String)
    (buy_amount : Rat) (sell_currency : String) (sell_amount : Rat)
    (fee_currency : String) (fee_amount : Rat)
    (exchange mark comment : String) : Except String Trade :=
  let buyval := buy_amount
  let sellval := sell_amount
  if sellval < 0 ∧ buyval < 0 then
    .error "Ambiguity: Only one of buy_amount or sell_amount may be negative"
  else
    let bs : Rat × Rat × String × String :=
      if buyval < 0 then
        (sellval, |buyval|, sell_currency, buy_currency)
      else
        (buyval, |sellval|, buy_currency, sell_currency)
    let buyval := bs.1
    let sellval := bs.2.1
    let buycur := bs.2.2.1
    let sellcur := bs.2.2.2
    let fe : Rat × String :=
      if fee_amount = 0 then
        (0, if fee_currency ≠ sellcur ∧ buycur ≠ "" then buycur else sellcur)
      else
        (|fee_amount|, fee_currency)
    let feeval := fe.1
    let feecur := fe.2
    if feeval > 0 ∧ feecur ≠ buy_currency ∧ feecur ≠ sell_currency then
      .error "fee_currency must match either buy_currency or sell_currency"
    else
      .ok { kind := kind, dtime := dtime.toUTC,
            buycur := buycur, buyval := buyval,
            sellcur := sellcur, sellval := sellval,
            feecur := feecur, feeval := feeval,
            exchange := exchange, mark := mark, comment := comment }

/-- Reverse closure of a recipes dictionary: whenever a recipe is
stored for a pair, the reversed recipe is stored for the reversed pair
(maintained by `update_if_shorter`, which always inserts both). -/
def RevClosed (m : RecipeDict) : Prop :=
  ∀ p r, dget m p = some r → dget m p.reversed = some r.reversed

/-- Executable check of reverse closure over a dictionary's entries. -/
def revClosedB (m : RecipeDict) : Bool :=
  m.all (fun e => dget m e.1.reversed == some e.2.reversed)

/-- A Poloniex dust-trade row: nonzero sell side, zero buy amount with a
nonempty buy currency (rounded down to zero in Poloniex exports), kind
neither `payment` nor exactly `Withdrawal`. -/
def poloniexTrade : Trade :=
  ⟨"Exchange", ⟨0, 0, true⟩, "BTC", 0, "XMR", 1, "XMR", 0, "Poloniex", "", ""⟩

/-! # Theorems

Basic lemmas about the dictionary model. -/

theorem dget_dset_self {κ α : Type} [DecidableEq κ] (d : List (κ × α)) (k : κ) (v : α) :
    dget (dset d k v) k = some v := by
  induction d with
  | nil => simp [dget, dset]
  | cons p t ih =>
    obtain ⟨a, b⟩ := p
    by_cases h : a = k
    · simp [dset, dget, h]
    · simp [dset, dget, h, ih]

theorem dget_dset_ne {κ α : Type} [DecidableEq κ] (d : List (κ × α)) (k k' : κ) (v : α)
    (h : k ≠ k') : dget (dset d k v) k' = dget d k' := by
  induction d with
  | nil => simp [dget, dset, h]
  | cons p t ih =>
    obtain ⟨a, b⟩ := p
    by_cases hp : a = k
    · subst hp
      simp [dset, dget, h, Ne.symm h]
    · by_cases hp' : a = k'
      · subst hp'
        simp [dset, dget, hp, Ne.symm hp]
      · simp [dset, dget, hp, hp', ih]

theorem dget_ddel_ne {κ α : Type} [DecidableEq κ] (d : List (κ × α)) (k k' : κ)
    (h : k ≠ k') : dget (ddel d k) k' = dget d k' := by
  induction d with
  | nil => simp [ddel]
  | cons p t ih =>
    obtain ⟨a, b⟩ := p
    by_cases hp : a = k
    · subst hp
      simp [ddel, dget, h, Ne.symm h]
    · by_cases hp' : a = k'
      · subst hp'
        simp [ddel, dget, hp]
      · simp [ddel, dget, hp, hp', ih]

theorem dget_eq_none_of_not_memKeys {κ α : Type} [DecidableEq κ]
    (d : List (κ × α)) (k : κ) (h : k ∉ d.map Prod.fst) : dget d k = none := by
  induction d with
  | nil => rfl
  | cons p t ih =>
    obtain ⟨a, b⟩ := p
    simp only [List.map_cons, List.mem_cons] at h
    push_neg at h
    have hak : ¬ a = k := fun hc => h.1 hc.symm
    simp [dget, hak, ih h.2]

theorem dget_ddel_self {κ α : Type} [DecidableEq κ] (d : List (κ × α)) (k : κ)
    (h : NDK d) : dget (ddel d k) k = none := by
  induction d with
  | nil => rfl
  | cons p t ih =>
    obtain ⟨a, b⟩ := p
    simp only [NDK, List.map_cons, List.nodup_cons] at h
    by_cases hp : a = k
    · simp only [ddel, if_pos hp]
      exact dget_eq_none_of_not_memKeys t k (hp ▸ h.1)
    · simp [ddel, dget, hp, ih h.2]

theorem keys_dset_sub {κ α : Type} [DecidableEq κ] (d : List (κ × α)) (k k' : κ) (v : α)
    (h : k' ∈ (dset d k v).map Prod.fst) : k' ∈ d.map Prod.fst ∨ k' = k := by
  induction d with
  | nil =>
    simp only [dset, List.map_cons, List.map_nil, List.mem_singleton] at h
    exact Or.inr h
  | cons p t ih =>
    obtain ⟨a, b⟩ := p
    by_cases hp : a = k
    · simp only [dset, if_pos hp, List.map_cons, List.mem_cons] at h
      rcases h with h | h
      · exact Or.inr h
      · exact Or.inl (by simp [h])
    · simp only [dset, if_neg hp, List.map_cons, List.mem_cons] at h
      rcases h with h | h
      · exact Or.inl (by simp [h])
      · rcases ih h with h' | h'
        · exact Or.inl (by simp [h'])
        · exact Or.inr h'

theorem NDK_nil {κ α : Type} : NDK ([] : List (κ × α)) := by simp [NDK]

theorem NDK_dset {κ α : Type} [DecidableEq κ] (d : List (κ × α)) (k : κ) (v : α)
    (h : NDK d) : NDK (dset d k v) := by
  induction d with
  | nil => simp [NDK, dset]
  | cons p t ih =>
    obtain ⟨a, b⟩ := p
    simp only [NDK, List.map_cons, List.nodup_cons] at h
    by_cases hp : a = k
    · subst hp
      rw [show dset ((a, b) :: t) a v = (a, v) :: t from by simp [dset]]
      simpa [NDK] using h
    · simp only [NDK, dset, if_neg hp, List.map_cons, List.nodup_cons]
      refine ⟨?_, ih h.2⟩
      intro hc
      rcases keys_dset_sub t k a v hc with h' | h'
      · exact h.1 h'
      · exact hp h'

theorem keys_ddel_sub {κ α : Type} [DecidableEq κ] (d : List (κ × α)) (k k' : κ)
    (h : k' ∈ (ddel d k).map Prod.fst) : k' ∈ d.map Prod.fst := by
  induction d with
  | nil => simp [ddel] at h
  | cons p t ih =>
    obtain ⟨a, b⟩ := p
    by_cases hp : a = k
    · simp only [ddel, if_pos hp] at h
      simp [h]
    · simp only [ddel, if_neg hp, List.map_cons, List.mem_cons] at h
      rcases h with h | h
      · simp [h]
      · simp [ih h]

theorem NDK_ddel {κ α : Type} [DecidableEq κ] (d : List (κ × α)) (k : κ)
    (h : NDK d) : NDK (ddel d k) := by
  induction d with
  | nil => simp [NDK, ddel]
  | cons p t ih =>
    obtain ⟨a, b⟩ := p
    simp only [NDK, List.map_cons, List.nodup_cons] at h
    by_cases hp : a = k
    · simp only [ddel, if_pos hp]
      exact h.2
    · simp only [NDK, ddel, if_neg hp, List.map_cons, List.nodup_cons]
      exact ⟨fun hc => h.1 (keys_ddel_sub t k a hc), ih h.2⟩

theorem dget_isSome_memKeys {κ α : Type} [DecidableEq κ] (d : List (κ × α)) (k : κ)
    (h : (dget d k).isSome) : k ∈ d.map Prod.fst := by
  induction d with
  | nil => simp [dget] at h
  | cons p t ih =>
    obtain ⟨a, b⟩ := p
    by_cases hp : a = k
    · simp [hp]
    · simp only [dget] at h
      rw [if_neg hp] at h
      simp [ih h]

/-! ## Claim C3 — `Bag.spend` -/

/-- C3: for every `Bag` and requested amount `r`, if `r ≥ amount` then
`spend` returns `(amount, cost, r − amount)` and empties the bag
(`amount = cost = 0`); otherwise it returns `(r, r × unit_price, 0)` and
decrements the bag's amount by `r` and its cost by `r × unit_price`; in
both cases the unit price is unchanged. -/
theorem bag_spend_spec (b : Bag) (r : Rat) :
    (r ≥ b.amount →
      b.spend r = ((b.amount, b.cost, r - b.amount),
        { b with amount := 0, cost := 0 })) ∧
    (r < b.amount →
      b.spend r = ((r, r * b.price, 0),
        { b with amount := b.amount - r, cost := b.cost - r * b.price })) ∧
    (b.spend r).2.price = b.price := by
  refine ⟨fun h => ?_, fun h => ?_, ?_⟩
  · simp [Bag.spend, h]
  · simp [Bag.spend, not_le.mpr h]
  · by_cases h : r ≥ b.amount <;> simp [Bag.spend, h]

/-- Witness for C3 at concrete inputs (both branches). -/
theorem bag_spend_spec_witness :
    Bag.spend ⟨1, ⟨0, 0, true⟩, "BTC", 2, "EUR", 1000, 500⟩ 3
      = ((2, 1000, 1), ⟨1, ⟨0, 0, true⟩, "BTC", 0, "EUR", 0, 500⟩) ∧
    Bag.spend ⟨1, ⟨0, 0, true⟩, "BTC", 2, "EUR", 1000, 500⟩ 1
      = ((1, 500, 0), ⟨1, ⟨0, 0, true⟩, "BTC", 1, "EUR", 500, 500⟩) := by
  constructor
  · have h := (bag_spend_spec ⟨1, ⟨0, 0, true⟩, "BTC", 2, "EUR", 1000, 500⟩ 3).1
      (by norm_num)
    rw [h]
    norm_num
  · have h := (bag_spend_spec ⟨1, ⟨0, 0, true⟩, "BTC", 2, "EUR", 1000, 500⟩ 1).2.1
      (by norm_num)
    rw [h]
    norm_num

/-! ## Claim C6 — `Trade.__init__` sign normalisation -/

/-- C6 counterexample: constructing a trade with `buy = 5 BTC` and
`sell = −3 EUR` (exactly one negative amount, on the sell side) does
*not* swap the buy and sell sides — the buy currency remains `"BTC"`
(the original buy currency), whereas a swap would have made it
`"EUR"`.  Only the sell amount's absolute value is taken. -/
theorem trade_swap_counterexample :
    (mkTrade "trade" ⟨0, 0, true⟩ "BTC" 5 "EUR" (-3) "" 0 "Ex" "" "").map
      (fun t => (t.buycur, t.buyval, t.sellcur, t.sellval))
      = .ok ("BTC", 5, "EUR", 3) ∧ ("BTC" : String) ≠ "EUR" := by
  constructor
  · rfl
  · decide

/-- C6 (amended): two negative amounts raise `ValueError`; a negative
`buy_amount` (with nonnegative `sell_amount`) swaps the buy and sell
sides, the negative amount's absolute value becoming the sell amount;
a negative `sell_amount` (with nonnegative `buy_amount`) is replaced by
its absolute value in place, without any swap — in both cases each
currency stays with its amount and the negative amount ends up, in
absolute value, as the sell amount. -/
theorem trade_sign_normalisation (kind : String) (dt : DT) (bc : String)
    (bv : Rat) (sc : String) (sv : Rat) (fc : String) (fa : Rat)
    (ex mk cm : String) :
    (bv < 0 → sv < 0 →
      mkTrade kind dt bc bv sc sv fc fa ex mk cm
        = .error "Ambiguity: Only one of buy_amount or sell_amount may be negative") ∧
    (bv < 0 → 0 ≤ sv → ∀ t, mkTrade kind dt bc bv sc sv fc fa ex mk cm = .ok t →
      t.buycur = sc ∧ t.buyval = sv ∧ t.sellcur = bc ∧ t.sellval = |bv|) ∧
    (0 ≤ bv → sv < 0 → ∀ t, mkTrade kind dt bc bv sc sv fc fa ex mk cm = .ok t →
      t.buycur = bc ∧ t.buyval = bv ∧ t.sellcur = sc ∧ t.sellval = |sv|) := by
  refine ⟨fun hb hs => ?_, fun hb hs t ht => ?_, fun hb hs t ht => ?_⟩
  · rw [mkTrade, if_pos ⟨hs, hb⟩]
  · simp only [mkTrade] at ht
    rw [if_neg (show ¬(sv < 0 ∧ bv < 0) from fun hc => absurd hc.1 (not_lt.mpr hs)),
        if_pos hb] at ht
    repeat' split at ht
    all_goals try exact Except.noConfusion ht
    all_goals cases ht
    all_goals simp
  · simp only [mkTrade] at ht
    rw [if_neg (show ¬(sv < 0 ∧ bv < 0) from fun hc => absurd hc.2 (not_lt.mpr hb)),
        if_neg (not_lt.mpr hb)] at ht
    repeat' split at ht
    all_goals try exact Except.noConfusion ht
    all_goals cases ht
    all_goals simp

/-- Witness for C6 at concrete inputs: both-negative error, and the
swap for a negative buy amount. -/
theorem trade_sign_normalisation_witness :
    mkTrade "trade" ⟨0, 0, true⟩ "BTC" (-2) "EUR" (-5) "" 0 "Ex" "" ""
      = .error "Ambiguity: Only one of buy_amount or sell_amount may be negative" ∧
    ∀ t, mkTrade "trade" ⟨0, 0, true⟩ "BTC" (-2) "EUR" 1000 "" 0 "Ex" "" "" = .ok t →
      t.buycur = "EUR" ∧ t.buyval = 1000 ∧ t.sellcur = "BTC" ∧ t.sellval = 2 := by
  constructor
  · exact (trade_sign_normalisation "trade" ⟨0, 0, true⟩ "BTC" (-2) "EUR" (-5)
      "" 0 "Ex" "" "").1 (by norm_num) (by norm_num)
  · intro t ht
    have h := (trade_sign_normalisation "trade" ⟨0, 0, true⟩ "BTC" (-2) "EUR" 1000
      "" 0 "Ex" "" "").2.1 (by norm_num) (by norm_num) t ht
    simpa using h

/-! ## Claim C5 — the withdrawal rule of the dispatch table -/

/-- Fields of a state are unchanged by `checkOrder` except the
last-seen time. -/
theorem checkOrder_ok (s : BagFIFO) (d : DT) (s1 : BagFIFO)
    (h : checkOrder s d = .ok s1) : s1 = { s with last_date := d.toUTC } := by
  unfold checkOrder at h
  split at h
  · exact Except.noConfusion h
  · split at h
    · exact Except.noConfusion h
    · cases h
      rfl

/-- `process_trade` dispatches to the `withdraw` branch exactly when the
classifier selects the withdrawal rule (order check and negativity
check first, then the fee-currency guard of that branch). -/
theorem processTrade_withdrawal_dispatch (rel : RateRel) (t : Trade) (s : BagFIFO)
    (h : classifyTrade s.currency t = .withdrawal) :
    processTrade rel t s = (checkOrder s t.dtime).bind (fun s1 =>
      if t.buyval < 0 ∨ t.sellval < 0 ∨ t.feeval < 0 then
        .error "Negative values for buy, sell or fee amount not supported."
      else if t.feeval > 0 ∧ t.sellcur ≠ t.feecur then
        .error "Fees with different currency than withdrawn currency not supported."
      else
        withdraw rel t.dtime t.sellcur t.sellval t.feeval t.exchange
          (if dmem s1.profit (toString t.dtime.year) then s1
           else { s1 with profit := dset s1.profit (toString t.dtime.year) 0 })) := by
  unfold classifyTrade at h
  split at h
  · exact absurd h (by simp)
  · split at h
    · exact absurd h (by simp)
    · split at h
      case isTrue h1 h2 h3 =>
        unfold processTrade
        cases hco : checkOrder s t.dtime with
        | error e => rfl
        | ok s1 =>
          obtain rfl : s1 = { s with last_date := t.dtime.toUTC } :=
            checkOrder_ok _ _ _ hco
          simp only [Except.bind, bind]
          split
          · rfl
          · set s2 := if dmem ({ s with last_date := t.dtime.toUTC } : BagFIFO).profit
                (toString t.dtime.year) = true
              then ({ s with last_date := t.dtime.toUTC } : BagFIFO)
              else { ({ s with last_date := t.dtime.toUTC } : BagFIFO) with
                     profit := dset s.profit (toString t.dtime.year) 0 } with hs2
            have hcur : s2.currency = s.currency := by
              rw [hs2]
              split <;> rfl
            rw [hcur]
            try rw [if_neg h1]
            try rw [if_neg h2]
            try rw [if_pos h3]
            try rfl
      case isFalse => split at h <;> exact absurd h (by simp)

/-- C5 counterexample: the Poloniex dust trade satisfies every
condition of the claim's withdrawal rule — kind not `payment`
(case-insensitively), zero buy amount, not matched by the earlier
rules — yet the dispatcher classifies it as a `sale`, because the
withdrawal condition carves out trades with `exchange == 'Poloniex'`
whose kind is not exactly `'Withdrawal'`. -/
theorem classify_withdrawal_counterexample :
    pyUpper poloniexTrade.kind ≠ "PAYMENT" ∧
    (poloniexTrade.buycur = "" ∨ poloniexTrade.buyval = 0) ∧
    ¬((poloniexTrade.sellcur = "EUR" ∧ poloniexTrade.sellval ≠ 0) ∨
      (pyUpper poloniexTrade.kind = "DISTRIBUTION" ∧ poloniexTrade.sellval = 0)) ∧
    ¬((poloniexTrade.buycur = "" ∨ poloniexTrade.buyval = 0) ∧
      (poloniexTrade.sellcur = "" ∨ poloniexTrade.sellval = 0)) ∧
    classifyTrade "EUR" poloniexTrade = .sale ∧
    TradeIntent.sale ≠ TradeIntent.withdrawal := by
  refine ⟨by decide, by decide, by decide, by decide, ?_, by decide⟩
  decide

/-- C5 (amended): for every trade whose kind is not `payment`
(case-insensitively), whose buy side is empty — no buy currency, or
zero buy amount *unless* the exchange field is exactly `'Poloniex'`
with kind not exactly `'Withdrawal'` — and which is not matched by the
earlier rules, the dispatcher classifies it as a withdrawal (first
matching rule wins). -/
theorem classify_withdrawal (base : String) (t : Trade)
    (hkind : pyUpper t.kind ≠ "PAYMENT")
    (hbuy : t.buycur = "" ∨
      (t.buyval = 0 ∧ (t.exchange ≠ "Poloniex" ∨ t.kind = "Withdrawal")))
    (h1 : ¬((t.sellcur = base ∧ t.sellval ≠ 0) ∨
      (pyUpper t.kind = "DISTRIBUTION" ∧ t.sellval = 0)))
    (h2 : ¬((t.buycur = "" ∨ t.buyval = 0) ∧ (t.sellcur = "" ∨ t.sellval = 0))) :
    classifyTrade base t = .withdrawal := by
  unfold classifyTrade
  rw [if_neg h1, if_neg h2, if_pos ⟨hkind, hbuy⟩]

/-- Witness for C5 at a concrete withdrawal trade. -/
theorem classify_withdrawal_witness :
    classifyTrade "EUR"
      ⟨"Withdrawal", ⟨0, 0, true⟩, "", 0, "BTC", 1, "BTC", 0, "Kraken", "", ""⟩
      = .withdrawal := by
  exact classify_withdrawal "EUR" _ (by decide) (by decide) (by decide) (by decide)

/-! ## Claims C4 and C7 — the recipe dictionary -/

theorem dget_some_mem {κ α : Type} [DecidableEq κ] (d : List (κ × α)) (k : κ) (v : α)
    (h : dget d k = some v) : (k, v) ∈ d := by
  induction d with
  | nil => exact absurd h (by simp [dget])
  | cons p t ih =>
    obtain ⟨a, b⟩ := p
    by_cases hp : a = k
    · subst hp
      simp only [dget, if_pos rfl] at h
      cases h
      simp
    · simp only [dget] at h
      rw [if_neg hp] at h
      simp [ih h]

theorem revClosedB_sound (m : RecipeDict) (h : revClosedB m = true) : RevClosed m := by
  intro p r hp
  have hmem := dget_some_mem m p r hp
  have := (List.all_eq_true.mp h) (p, r) hmem
  simpa using this

theorem stepsLt_irrefl (l : List RecipeStep) : stepsLt l l = false := by
  induction l with
  | nil => rfl
  | cons a t ih => simp [stepsLt, ih]

theorem recipeLt_irrefl (r : Recipe) : recipeLt r r = false := by
  simp [recipeLt, stepsLt_irrefl]

/-- C4 counterexample: build the recipe dictionary from the direct
pairs `(X,M), (M,Y), (X,A)` — the pair `(A,M)` then holds the length-2
recipe through `X` — and then insert the direct pair `(A,Y)`.  The
candidate recipe for `(A,M)` through `Y` also has length 2, yet it
*replaces* the incumbent (it is lexicographically smaller as a
`(num_steps, steps)` tuple), contradicting both "insert only if
strictly shorter" and "equal length leaves the incumbent in place". -/
theorem update_if_shorter_counterexample :
    dget (updateAvailablePairs [⟨"X", "M"⟩, ⟨"M", "Y"⟩, ⟨"X", "A"⟩]) ⟨"A", "M"⟩
      = some ⟨2, [⟨"X", "A", true⟩, ⟨"X", "M", false⟩]⟩ ∧
    dget (uapProcessRoot (updateAvailablePairs [⟨"X", "M"⟩, ⟨"M", "Y"⟩, ⟨"X", "A"⟩])
        ⟨"A", "Y"⟩) ⟨"A", "M"⟩
      = some ⟨2, [⟨"A", "Y", false⟩, ⟨"M", "Y", true⟩]⟩ ∧
    (⟨2, [⟨"X", "A", true⟩, ⟨"X", "M", false⟩]⟩ : Recipe)
      ≠ ⟨2, [⟨"A", "Y", false⟩, ⟨"M", "Y", true⟩]⟩ ∧
    (⟨2, [⟨"A", "Y", false⟩, ⟨"M", "Y", true⟩]⟩ : Recipe).num_steps
      = (⟨2, [⟨"X", "A", true⟩, ⟨"X", "M", false⟩]⟩ : Recipe).num_steps := by
  refine ⟨by decide, by decide, by decide, by decide⟩

/-- C4 (amended): a candidate recipe for a pair that already has a
recipe is inserted iff it is lexicographically smaller than the
incumbent as a `(num_steps, recipe_steps)` tuple (`Recipe` keeps
`tuple.__lt__`; `functools.total_ordering` does not override it).  In
particular a strictly shorter candidate always replaces, a strictly
longer one never does, an equal-length candidate replaces exactly when
its step list is lexicographically smaller, and a candidate identical
to the incumbent is never inserted — so repeated inserts of the same
direct pairs are stable. -/
theorem update_if_shorter_spec (m : RecipeDict) (p : CurrencyPair) (r : Recipe) :
    ((updateIfShorter m p r).2 = true ↔
      dget m p = none ∨ ∃ inc, dget m p = some inc ∧ recipeLt r inc = true) ∧
    (dget m p = some r → updateIfShorter m p r = (m, false)) ∧
    ((updateIfShorter m p r).2 = true →
      dget (updateIfShorter m p r).1 p.reversed = some r.reversed) := by
  refine ⟨?_, ?_, ?_⟩
  · unfold updateIfShorter
    cases hm : dget m p with
    | none => simp
    | some inc =>
      by_cases hlt : recipeLt r inc = true
      · simp [hlt]
      · simp [hlt]
  · intro h
    unfold updateIfShorter
    rw [h]
    simp [recipeLt_irrefl]
  · intro h
    unfold updateIfShorter at h ⊢
    cases hm : dget m p with
    | none => simp [dget_dset_self]
    | some inc =>
      rw [hm] at h
      by_cases hlt : recipeLt r inc = true
      · simp [hlt, dget_dset_self]
      · simp [hlt] at h

/-- Witness for C4: a strictly shorter candidate replaces; an identical
candidate leaves the dictionary unchanged. -/
theorem update_if_shorter_spec_witness :
    (updateIfShorter [(⟨"A", "B"⟩, ⟨2, [⟨"A", "C", false⟩, ⟨"C", "B", false⟩]⟩)]
        ⟨"A", "B"⟩ ⟨1, [⟨"A", "B", false⟩]⟩).2 = true ∧
    updateIfShorter [(⟨"A", "B"⟩, ⟨1, [⟨"A", "B", false⟩]⟩)]
        ⟨"A", "B"⟩ ⟨1, [⟨"A", "B", false⟩]⟩
      = ([(⟨"A", "B"⟩, ⟨1, [⟨"A", "B", false⟩]⟩)], false) := by
  constructor
  · exact (update_if_shorter_spec _ _ _).1.mpr
      (Or.inr ⟨_, rfl, by decide⟩)
  · exact (update_if_shorter_spec _ _ _).2.1 rfl

theorem step_reversed_reversed (s : RecipeStep) : s.reversed.reversed = s := by
  simp [RecipeStep.reversed]

theorem reversed_reversed (r : Recipe) : r.reversed.reversed = r := by
  obtain ⟨n, steps⟩ := r
  simp [Recipe.reversed, List.map_reverse, List.map_map, Function.comp_def,
    step_reversed_reversed]

theorem pair_rev_rev (p : CurrencyPair) : p.reversed.reversed = p := by
  obtain ⟨a, b⟩ := p
  rfl

theorem pair_reversed_inj (p q : CurrencyPair) (h : p.reversed = q.reversed) :
    p = q := by
  obtain ⟨a, b⟩ := p
  obtain ⟨c, d⟩ := q
  simp [CurrencyPair.reversed] at h
  simp [h.1, h.2]

/-- `update_if_shorter` preserves reverse closure (for pairs of two
distinct currencies; every pair handled by `update_available_pairs` has
distinct base and quote when the direct pairs do). -/
theorem updateIfShorter_revClosed (m : RecipeDict) (p : CurrencyPair) (r : Recipe)
    (hm : RevClosed m) (hpq : p.base ≠ p.quote) :
    RevClosed (updateIfShorter m p r).1 := by
  have hne : p ≠ p.reversed := by
    intro h
    apply hpq
    obtain ⟨a, b⟩ := p
    simpa [CurrencyPair.reversed] using congrArg CurrencyPair.base h
  have key : RevClosed (dset (dset m p r) p.reversed r.reversed) := by
    intro q t hq
    by_cases h1 : q = p.reversed
    · subst h1
      rw [dget_dset_self] at hq
      cases hq
      rw [pair_rev_rev, reversed_reversed]
      rw [dget_dset_ne _ _ _ _ (Ne.symm hne)]
      exact dget_dset_self _ _ _
    · rw [dget_dset_ne _ _ _ _ (fun h => h1 h.symm)] at hq
      by_cases h2 : q = p
      · subst h2
        rw [dget_dset_self] at hq
        cases hq
        rw [dget_dset_self]
      · rw [dget_dset_ne _ _ _ _ (fun h => h2 h.symm)] at hq
        have hrev := hm q t hq
        have hq1 : q.reversed ≠ p.reversed := fun h => h2 (pair_reversed_inj _ _ h)
        have hq2 : q.reversed ≠ p := by
          intro h
          apply h1
          have h' := congrArg CurrencyPair.reversed h
          rw [pair_rev_rev] at h'
          rw [h']
        rw [dget_dset_ne _ _ _ _ (Ne.symm hq1), dget_dset_ne _ _ _ _ (Ne.symm hq2)]
        exact hrev
  unfold updateIfShorter
  cases hg : dget m p with
  | none => exact key
  | some inc =>
    by_cases hlt : recipeLt r inc = true
    · simp only [hlt, if_pos]
      exact key
    · simp only [hlt]
      simpa using hm

theorem evalSteps_foldl (price : CurrencyPair → Rat) (steps : List RecipeStep)
    (a : Rat) :
    steps.foldl
      (fun result s =>
        if s.reciprocal then result / price ⟨s.base, s.quote⟩
        else result * price ⟨s.base, s.quote⟩) a
      = a * (steps.map
          (fun s => if s.reciprocal then (price ⟨s.base, s.quote⟩)⁻¹
                    else price ⟨s.base, s.quote⟩)).prod := by
  induction steps generalizing a with
  | nil => simp
  | cons s t ih =>
    simp only [List.foldl_cons, List.map_cons, List.prod_cons, ih]
    by_cases h : s.reciprocal
    · simp only [h, if_pos]
      rw [div_eq_mul_inv]
      ring
    · simp only [h]
      rw [if_neg (by simp [h]), if_neg (by simp [h])]
      ring

theorem prod_map_inv (l : List Rat) : (l.map (fun x => x⁻¹)).prod = l.prod⁻¹ := by
  induction l with
  | nil => simp
  | cons a t ih => simp [ih, mul_inv, mul_comm]

theorem evalSteps_reversed (price : CurrencyPair → Rat) (r : Recipe) :
    evalSteps price r.reversed.recipe_steps
      = (evalSteps price r.recipe_steps)⁻¹ := by
  obtain ⟨n, steps⟩ := r
  unfold evalSteps Recipe.reversed
  rw [evalSteps_foldl, evalSteps_foldl, one_mul, one_mul, List.map_map]
  have hmap : ((fun s : RecipeStep =>
      if s.reciprocal then (price ⟨s.base, s.quote⟩)⁻¹ else price ⟨s.base, s.quote⟩)
        ∘ RecipeStep.reversed)
      = fun s : RecipeStep =>
        (if s.reciprocal then (price ⟨s.base, s.quote⟩)⁻¹ else price ⟨s.base, s.quote⟩)⁻¹ := by
    funext s
    by_cases h : s.reciprocal <;> simp [RecipeStep.reversed, h]
  rw [hmap]
  rw [show (fun s : RecipeStep =>
      (if s.reciprocal then (price ⟨s.base, s.quote⟩)⁻¹ else price ⟨s.base, s.quote⟩)⁻¹)
      = (fun x => x⁻¹) ∘ (fun s : RecipeStep =>
        if s.reciprocal then (price ⟨s.base, s.quote⟩)⁻¹ else price ⟨s.base, s.quote⟩)
      from rfl]
  rw [← List.map_map, prod_map_inv]
  rw [show (List.map
      (fun s : RecipeStep =>
        if s.reciprocal = true then (price { base := s.base, quote := s.quote })⁻¹
        else price { base := s.base, quote := s.quote })
      ({ num_steps := n, recipe_steps := steps } : Recipe).recipe_steps.reverse)
      = (List.map
      (fun s : RecipeStep =>
        if s.reciprocal = true then (price { base := s.base, quote := s.quote })⁻¹
        else price { base := s.base, quote := s.quote })
      ({ num_steps := n, recipe_steps := steps } : Recipe).recipe_steps).reverse
      from List.map_reverse _ _]
  rw [List.prod_reverse]

/-- C7: in a reverse-closed recipes dictionary (and `update_if_shorter`
always inserts the reversed recipe — with the step list reversed and
each step's `reciprocal` flag flipped — for the reversed pair whenever
it inserts a recipe, see `update_if_shorter_spec`), the recipe stored
for `reverse(p)` evaluates, at any fixed prices, to the reciprocal of
the evaluation of the recipe stored for `p` (exactly, in exact rational
arithmetic). -/
theorem recipe_reversibility (price : CurrencyPair → Rat) (m : RecipeDict)
    (hm : revClosedB m = true) (p : CurrencyPair) (r r' : Recipe)
    (hp : dget m p = some r) (hq : dget m p.reversed = some r') :
    evalSteps price r'.recipe_steps = (evalSteps price r.recipe_steps)⁻¹ := by
  have h1 := revClosedB_sound m hm p r hp
  rw [hq] at h1
  injection h1 with h2
  rw [h2]
  exact evalSteps_reversed price r

/-- Witness for C7 on the dictionary built from the direct pairs
`BTC→USD` and `USD→EUR`, at the composed pair `(BTC, EUR)`. -/
theorem recipe_reversibility_witness :
    evalSteps (fun _ => (2 : Rat)) [⟨"USD", "EUR", true⟩, ⟨"BTC", "USD", true⟩]
      = (evalSteps (fun _ => (2 : Rat))
          [⟨"BTC", "USD", false⟩, ⟨"USD", "EUR", false⟩])⁻¹ := by
  have h := recipe_reversibility (fun _ => (2 : Rat))
    (updateAvailablePairs [⟨"BTC", "USD"⟩, ⟨"USD", "EUR"⟩]) (by decide)
    ⟨"BTC", "EUR"⟩
    ⟨2, [⟨"BTC", "USD", false⟩, ⟨"USD", "EUR", false⟩]⟩
    ⟨2, [⟨"USD", "EUR", true⟩, ⟨"BTC", "USD", true⟩]⟩
    (by decide) (by decide)
  exact h

/-! ## Claim C10 — `pay` with a nonpositive amount -/

/-- C10: a call to `pay` with `amount ≤ 0` and an in-order, aware
datetime returns Python's `None` (not the documented pair) and leaves
bags, totals, profits and the payment ledger untouched; only the
last-seen time is advanced, because the order check runs before the
amount check.  (`fee_ratio` is unconstrained: its validity check comes
after the amount check.) -/
theorem pay_nonpositive (rel : RateRel) (dtime : DT) (currency : String)
    (amount : Rat) (exchange : String) (fee_ratio : Rat)
    (custom_rate : Option Rat) (repKind repBuyCur : String) (repBuyRatio : Rat)
    (s : BagFIFO) (hamt : amount ≤ 0) (haware : dtime.aware = true)
    (horder : ¬ dtime.utc < s.last_date.utc) :
    pay rel dtime currency amount exchange fee_ratio custom_rate repKind
      repBuyCur repBuyRatio s
      = .ok (none, { s with last_date := dtime.toUTC }) := by
  unfold pay checkOrder
  rw [if_neg (by simp [haware]), if_neg horder]
  simp only [Except.bind, bind]
  rw [if_pos hamt]
  rfl

/-- Witness for C10 at a concrete call. -/
theorem pay_nonpositive_witness :
    pay (fun _ _ _ => none) ⟨5, 0, true⟩ "BTC" 0 "Ex" 0 none "payment" "" 0
      (initBagFIFO "EUR")
      = .ok (none, { initBagFIFO "EUR" with last_date := DT.toUTC ⟨5, 0, true⟩ }) := by
  exact pay_nonpositive (fun _ _ _ => none) ⟨5, 0, true⟩ "BTC" 0 "Ex" 0 none
    "payment" "" 0 (initBagFIFO "EUR") (by norm_num) rfl (by decide)

/-! ## Claim C1 — the FIFO disposal kernel -/

theorem rowSum_nil (c : String) : rowSum [] c = 0 := rfl

theorem rowSum_cons (b : Bag) (bs : List Bag) (c : String) :
    rowSum (b :: bs) c
      = (if b.currency = c then b.amount else 0) + rowSum bs c := by
  by_cases h : b.currency = c <;> simp [rowSum, List.filter, h]

theorem payLoop_nonpos (rate fee_ratio : Rat) (dtime : DT)
    (currency repKind repBuyCur : String) (repBuyRatio : Rat)
    (exchange : String) (bags : List Bag) (toPay : Rat) (acc : PayAcc)
    (reps : List PaymentReport) (h : toPay ≤ 0) :
    payLoop rate fee_ratio dtime currency repKind repBuyCur repBuyRatio
      exchange bags toPay acc reps = .ok (bags, acc, reps) := by
  cases bags <;> (rw [payLoop]; rw [if_pos h])

/-- The FIFO loop of `pay` computes exactly the slice sums of the
specification's front-first drain, and leaves the drain's remaining
bags. -/
theorem payLoop_drain (rate fee_ratio : Rat) (dtime : DT)
    (currency repKind repBuyCur : String) (repBuyRatio : Rat)
    (exchange : String) :
    ∀ (bags : List Bag) (toPay : Rat) (acc : PayAcc) (reps : List PaymentReport),
    toPay ≤ rowSum bags currency →
    ∃ sl rest reps2,
      drainSlices currency bags toPay = some (sl, rest) ∧
      payLoop rate fee_ratio dtime currency repKind repBuyCur repBuyRatio
          exchange bags toPay acc reps
        = .ok (rest,
            ⟨acc.proc + slicesProceeds rate sl, acc.cost + slicesCost sl,
             acc.st_proc + slicesProceeds rate (stSlices dtime sl),
             acc.st_cost + slicesCost (stSlices dtime sl)⟩, reps2) := by
  intro bags
  induction bags with
  | nil =>
    intro toPay acc reps hle
    rw [rowSum_nil] at hle
    obtain ⟨ap, ac, asp, asc⟩ := acc
    refine ⟨[], [], reps, ?_, ?_⟩
    · simp [drainSlices, hle]
    · simp [payLoop, hle, slicesProceeds, slicesCost, stSlices]
  | cons b rest ih =>
    intro toPay acc reps hle
    by_cases h0 : toPay ≤ 0
    · obtain ⟨ap, ac, asp, asc⟩ := acc
      refine ⟨[], b :: rest, reps, ?_, ?_⟩
      · simp [drainSlices, h0]
      · simp [payLoop, h0, slicesProceeds, slicesCost, stSlices]
    · rw [rowSum_cons] at hle
      by_cases hc : b.currency = currency
      · rw [if_pos hc] at hle
        by_cases hge : toPay ≥ b.amount
        · -- whole bag spent and deleted
          have hle' : toPay - b.amount ≤ rowSum rest currency := by linarith
          obtain ⟨sl', rest', reps2, hd, hp⟩ :=
            ih (toPay - b.amount)
              ⟨acc.proc + b.amount * rate, acc.cost + b.cost,
               if is_short_term b.dtime dtime then acc.st_proc + b.amount * rate
               else acc.st_proc,
               if is_short_term b.dtime dtime then acc.st_cost + b.cost
               else acc.st_cost⟩
              (reps ++
                [{ kind := repKind, exchange := exchange,
                   sell_date := dtime.toUTC, currency := currency,
                   to_pay := toPay, fee_ratio := fee_ratio, bag_date := b.dtime,
                   bag_amount := 0 + b.amount, bag_spent := b.amount,
                   cost_currency := b.cost_currency, spent_cost := b.cost,
                   short_term := is_short_term b.dtime dtime, ex_rate := rate,
                   proceeds := b.amount * rate * (1 - fee_ratio),
                   profit := b.amount * rate * (1 - fee_ratio) - b.cost,
                   buy_currency := repBuyCur, buy_ratio := repBuyRatio }]) hle'
          refine ⟨⟨b.dtime, b.amount, b.cost⟩ :: sl', rest', reps2, ?_, ?_⟩
          · rw [drainSlices]
            rw [if_neg h0, if_neg (by simp [hc]), if_pos hge, hd]
            rfl
          · rw [payLoop]
            rw [if_neg h0, if_neg (by simp [hc])]
            simp only [Bag.spend, if_pos hge, Bag.isEmpty]
            rw [if_pos (by norm_num)]
            rw [hp]
            refine congrArg _ ?_
            refine congrArg _ ?_
            refine congrArg (fun x => Prod.mk x reps2) ?_
            by_cases hst : is_short_term b.dtime dtime <;>
              simp [hst, slicesProceeds, slicesCost, stSlices, List.filter,
                add_assoc]
        · -- bag split
          push_neg at hge
          refine ⟨[⟨b.dtime, toPay, toPay * b.price⟩],
            { b with amount := b.amount - toPay,
                     cost := b.cost - toPay * b.price } :: rest,
            reps ++
              [{ kind := repKind, exchange := exchange,
                 sell_date := dtime.toUTC, currency := currency,
                 to_pay := toPay, fee_ratio := fee_ratio, bag_date := b.dtime,
                 bag_amount := b.amount - toPay + toPay, bag_spent := toPay,
                 cost_currency := b.cost_currency, spent_cost := toPay * b.price,
                 short_term := is_short_term b.dtime dtime, ex_rate := rate,
                 proceeds := toPay * rate * (1 - fee_ratio),
                 profit := toPay * rate * (1 - fee_ratio) - toPay * b.price,
                 buy_currency := repBuyCur, buy_ratio := repBuyRatio }],
            ?_, ?_⟩
          · rw [drainSlices]
            rw [if_neg h0, if_neg (by simp [hc]), if_neg (by exact not_le.mpr hge)]
          · rw [payLoop]
            rw [if_neg h0, if_neg (by simp [hc])]
            simp only [Bag.spend, if_neg (by exact not_le.mpr hge), Bag.isEmpty]
            rw [if_neg (by
              simp only [beq_iff_eq]
              intro hz
              have hba : b.amount = toPay := by linarith
              exact absurd hba (by linarith))]
            rw [payLoop_nonpos _ _ _ _ _ _ _ _ _ _ _ _ le_rfl]
            simp only [Except.map]
            refine congrArg _ ?_
            refine congrArg _ ?_
            refine congrArg (fun x => Prod.mk x _) ?_
            by_cases hst : is_short_term b.dtime dtime <;>
              simp [hst, slicesProceeds, slicesCost, stSlices, List.filter,
                add_assoc]
      · rw [if_neg hc] at hle
        rw [zero_add] at hle
        obtain ⟨sl', rest', reps2, hd, hp⟩ := ih toPay acc reps hle
        refine ⟨sl', b :: rest', reps2, ?_, ?_⟩
        · rw [drainSlices]
          rw [if_neg h0, if_pos (by simp [hc]), hd]
          rfl
        · rw [payLoop]
          rw [if_neg h0, if_pos (by simp [hc]), hp]
          rfl

/-- C1: a successful `pay` call drains the exchange's bags of the paid
currency front-first (FIFO) — the remaining bag list is exactly the
specification drain's remainder — and returns exactly the pair
`(st_proceeds_gross·(1−fee_ratio) − st_cost,
total_proceeds_gross·(1−fee_ratio))`, where the gross proceeds of a
slice are `spent × rate`, costs sum the slices' original costs, and the
`st_` sums range over the slices whose source bag was acquired
short-term relative to the payment time. -/
theorem pay_fifo_spec (rel : RateRel) (dtime : DT) (currency : String)
    (amount : Rat) (exchange : String) (fee_ratio : Rat)
    (custom_rate : Option Rat) (rate : Rat) (repKind repBuyCur : String)
    (repBuyRatio : Rat) (s : BagFIFO) (exBags : List Bag) (T : Rat)
    (haware : dtime.aware = true) (horder : ¬ dtime.utc < s.last_date.utc)
    (hcur : currency ≠ s.currency)
    (hex : dget s.bags (pyCapitalize exchange) = some exBags)
    (hnd : NDK s.bags)
    (hfee0 : 0 ≤ fee_ratio) (hfee1 : fee_ratio ≤ 1)
    (htot : totalsEntry s (pyCapitalize exchange) currency = some T)
    (hamt : 0 < amount) (hle : amount ≤ T)
    (hsum : amount ≤ rowSum exBags currency)
    (hrate : (match custom_rate with
              | some r => some r
              | none => rel dtime currency s.currency) = some rate) :
    ∃ sl rest s',
      drainSlices currency exBags amount = some (sl, rest) ∧
      pay rel dtime currency amount exchange fee_ratio custom_rate repKind
          repBuyCur repBuyRatio s
        = .ok (some (slicesProceeds rate (stSlices dtime sl) * (1 - fee_ratio)
                      - slicesCost (stSlices dtime sl),
                     slicesProceeds rate sl * (1 - fee_ratio)), s') ∧
      dgetD s'.bags (pyCapitalize exchange) [] = rest := by
  have hexne : exBags ≠ [] := by
    intro hnil
    rw [hnil, rowSum_nil] at hsum
    exact absurd (lt_of_lt_of_le hamt hsum) (lt_irrefl 0)
  obtain ⟨row, hrow, hrc⟩ : ∃ row, dget s.totals (pyCapitalize exchange) = some row
      ∧ dget row currency = some T := by
    unfold totalsEntry at htot
    cases hr : dget s.totals (pyCapitalize exchange) with
    | none => rw [hr] at htot; exact Option.noConfusion htot
    | some row => rw [hr] at htot; exact ⟨row, rfl, htot⟩
  obtain ⟨sl, rest, reps2, hd, hp⟩ :=
    payLoop_drain rate fee_ratio dtime currency repKind repBuyCur
      (if repBuyCur = "" then 0 else repBuyRatio) (pyCapitalize exchange)
      exBags amount ⟨0, 0, 0, 0⟩ [] hsum
  refine ⟨sl, rest, ?_, hd, ?_, ?_⟩
  · exact (if T - amount = 0 then
      { { s with last_date := dtime.toUTC, report := s.report ++ reps2 } with
        totals := if ddel row currency = [] then ddel s.totals (pyCapitalize exchange)
                  else dset s.totals (pyCapitalize exchange) (ddel row currency)
        bags := if rest = [] then ddel s.bags (pyCapitalize exchange)
                else dset s.bags (pyCapitalize exchange) rest }
    else
      { { s with last_date := dtime.toUTC, report := s.report ++ reps2 } with
        totals := dset s.totals (pyCapitalize exchange)
          (dset row currency (T - amount))
        bags := dset s.bags (pyCapitalize exchange) rest })
  · unfold pay checkOrder
    rw [if_neg (by simp [haware]), if_neg horder]
    simp only [Except.bind, bind]
    rw [if_neg (not_le.mpr hamt), if_neg hcur]
    simp only [hex]
    rw [if_neg hexne]
    rw [if_neg (by
      rintro (h | h)
      · exact absurd hfee0 (not_le.mpr h)
      · exact absurd hfee1 (not_le.mpr h))]
    simp only [hrow, dgetD, hrc, Option.getD_some]
    rw [if_neg (not_lt.mpr hle)]
    cases custom_rate with
    | some r =>
      have hr1 : r = rate := by
        simpa using hrate
      subst hr1
      simp only [pure, Except.pure, hp, zero_add]
    | none =>
      have hr1 : rel dtime currency s.currency = some rate := by
        simpa using hrate
      simp only [hr1, pure, Except.pure, hp, zero_add]
  · by_cases ht0 : T - amount = 0
    · rw [if_pos ht0]
      by_cases hrest : rest = []
      · rw [if_pos hrest]
        simp only [dgetD, dget_ddel_self s.bags (pyCapitalize exchange) hnd,
          Option.getD_none]
        exact hrest.symm
      · rw [if_neg hrest]
        simp only [dgetD, dget_dset_self, Option.getD_some]
    · rw [if_neg ht0]
      simp only [dgetD, dget_dset_self, Option.getD_some]

/-- Witness for C1: a payment of 2.5 BTC against two bags (2 BTC and
1 BTC) on one exchange, with a custom rate. -/
theorem pay_fifo_spec_witness :
    ∃ sl rest s',
      drainSlices "BTC"
          [⟨1, ⟨0, 0, true⟩, "BTC", 2, "EUR", 1000, 500⟩,
           ⟨2, ⟨10, 0, true⟩, "BTC", 1, "EUR", 600, 600⟩] (5/2)
        = some (sl, rest) ∧
      pay (fun _ _ _ => none) ⟨100, 0, true⟩ "BTC" (5/2) "kraken" 0 (some 1500)
          "payment" "" 0
          { currency := "EUR", profit := [],
            bags := [("Kraken",
              [⟨1, ⟨0, 0, true⟩, "BTC", 2, "EUR", 1000, 500⟩,
               ⟨2, ⟨10, 0, true⟩, "BTC", 1, "EUR", 600, 600⟩])],
            totals := [("Kraken", [("BTC", 3)])], in_transit := [], report := [],
            last_date := ⟨0, 0, true⟩, num_created_bags := 2 }
        = .ok (some (slicesProceeds 1500 (stSlices ⟨100, 0, true⟩ sl) * (1 - 0)
                      - slicesCost (stSlices ⟨100, 0, true⟩ sl),
                     slicesProceeds 1500 sl * (1 - 0)), s') ∧
      dgetD s'.bags (pyCapitalize "kraken") [] = rest := by
  exact pay_fifo_spec (fun _ _ _ => none) ⟨100, 0, true⟩ "BTC" (5/2) "kraken" 0
    (some 1500) 1500 "payment" "" 0 _ _ 3 rfl (by decide) (by decide)
    (by decide) (by simp [NDK]) (by norm_num) (by norm_num) (by decide)
    (by norm_num) (by norm_num) (by norm_num [rowSum, List.filter]) rfl

/-! ## Claim C2 — conservation of totals.  Helper lemmas first. -/

theorem rowSum_append (a b : List Bag) (c : String) :
    rowSum (a ++ b) c = rowSum a c + rowSum b c := by
  simp [rowSum, List.filter_append]

theorem rowSum_nonneg (bs : List Bag) (c : String)
    (h : ∀ b ∈ bs, 0 < b.amount) : 0 ≤ rowSum bs c := by
  induction bs with
  | nil => simp [rowSum_nil]
  | cons b t ih =>
    rw [rowSum_cons]
    have h1 : 0 ≤ rowSum t c := ih (fun x hx => h x (List.mem_cons_of_mem _ hx))
    have h2 : (0 : Rat) ≤ if b.currency = c then b.amount else 0 := by
      split
      · exact le_of_lt (h b (List.mem_cons_self _ _))
      · exact le_refl 0
    linarith

theorem rowSum_eq_zero_of_no_match (bs : List Bag) (c : String)
    (h : ∀ b ∈ bs, b.currency ≠ c) : rowSum bs c = 0 := by
  induction bs with
  | nil => simp [rowSum_nil]
  | cons b t ih =>
    rw [rowSum_cons, if_neg (h b (List.mem_cons_self _ _))]
    rw [ih (fun x hx => h x (List.mem_cons_of_mem _ hx))]
    norm_num

theorem exists_match_of_rowSum_ne (bs : List Bag) (c : String)
    (h : rowSum bs c ≠ 0) : ∃ b ∈ bs, b.currency = c := by
  by_contra hc
  push_neg at hc
  exact h (rowSum_eq_zero_of_no_match bs c hc)

theorem rowSum_pos_of_match (bs : List Bag) (c : String)
    (hpos : ∀ b ∈ bs, 0 < b.amount) (h : ∃ b ∈ bs, b.currency = c) :
    0 < rowSum bs c := by
  induction bs with
  | nil => simp at h
  | cons b t ih =>
    rw [rowSum_cons]
    obtain ⟨x, hx, hxc⟩ := h
    rcases List.mem_cons.mp hx with h1 | h1
    · subst h1
      rw [if_pos hxc]
      have := rowSum_nonneg t c (fun y hy => hpos y (List.mem_cons_of_mem _ hy))
      have := hpos x (List.mem_cons_self _ _)
      linarith
    · have hpt : 0 < rowSum t c :=
        ih (fun y hy => hpos y (List.mem_cons_of_mem _ hy)) ⟨x, h1, hxc⟩
      have h2 : (0 : Rat) ≤ if b.currency = c then b.amount else 0 := by
        split
        · exact le_of_lt (hpos b (List.mem_cons_self _ _))
        · exact le_refl 0
      linarith

theorem rowSum_perm (l l' : List Bag) (c : String) (h : l.Perm l') :
    rowSum l c = rowSum l' c := by
  unfold rowSum
  exact List.Perm.sum_eq (List.Perm.map _ (List.Perm.filter _ h))

theorem rowSum_ne_nil (bs : List Bag) (c : String) (h : rowSum bs c ≠ 0) :
    bs ≠ [] := by
  intro hnil
  rw [hnil, rowSum_nil] at h
  exact h rfl

/-- Effects of the specification drain on the remaining bag list: the
drained currency's sum decreases by the drained amount, other
currencies are untouched, and bag quality (positive amount, base cost
currency, upper-case currency code) is preserved. -/
theorem drainSlices_effects (currency base : String) :
    ∀ (bags : List Bag) (toPay : Rat) (sl : List Slice) (rest : List Bag),
    0 ≤ toPay →
    (∀ b ∈ bags, 0 < b.amount ∧ b.cost_currency = base ∧
      pyUpper b.currency = b.currency) →
    drainSlices currency bags toPay = some (sl, rest) →
    rowSum rest currency = rowSum bags currency - toPay ∧
    (∀ c', c' ≠ currency → rowSum rest c' = rowSum bags c') ∧
    (∀ b' ∈ rest, 0 < b'.amount ∧ b'.cost_currency = base ∧
      pyUpper b'.currency = b'.currency) := by
  intro bags
  induction bags with
  | nil =>
    intro toPay sl rest h0 hgood hd
    rw [drainSlices] at hd
    by_cases hz : toPay ≤ 0
    · rw [if_pos hz] at hd
      injection hd with hd1
      injection hd1 with hsl hrest
      subst hrest
      have : toPay = 0 := le_antisymm hz h0
      subst this
      refine ⟨by rw [rowSum_nil]; ring, fun c' _ => rfl, by simp⟩
    · rw [if_neg hz] at hd
      exact Option.noConfusion hd
  | cons b tl ih =>
    intro toPay sl rest h0 hgood hd
    have hgb := hgood b (List.mem_cons_self _ _)
    have hgt : ∀ x ∈ tl, 0 < x.amount ∧ x.cost_currency = base ∧
        pyUpper x.currency = x.currency :=
      fun x hx => hgood x (List.mem_cons_of_mem _ hx)
    rw [drainSlices] at hd
    by_cases hz : toPay ≤ 0
    · rw [if_pos hz] at hd
      injection hd with hd1
      injection hd1 with hsl hrest
      subst hrest
      have : toPay = 0 := le_antisymm hz h0
      subst this
      exact ⟨by ring, fun c' _ => rfl, hgood⟩
    · rw [if_neg hz] at hd
      by_cases hc : b.currency = currency
      · rw [if_neg (by simp [hc])] at hd
        by_cases hge : toPay ≥ b.amount
        · rw [if_pos hge] at hd
          cases hdr : drainSlices currency tl (toPay - b.amount) with
          | none => rw [hdr] at hd; exact Option.noConfusion hd
          | some pr =>
            rw [hdr] at hd
            injection hd with hd1
            injection hd1 with hsl hrest
            subst hrest
            obtain ⟨e1, e2, e3⟩ := ih (toPay - b.amount) pr.1 pr.2
              (by linarith) hgt hdr
            refine ⟨?_, ?_, e3⟩
            · rw [e1, rowSum_cons, if_pos hc]
              ring
            · intro c' hc'
              rw [e2 c' hc', rowSum_cons, if_neg (hc ▸ (Ne.symm hc'))]
              ring
        · rw [if_neg hge] at hd
          injection hd with hd1
          injection hd1 with hsl hrest
          subst hrest
          push_neg at hge
          refine ⟨?_, ?_, ?_⟩
          · rw [rowSum_cons, rowSum_cons]
            simp only [if_pos hc]
            ring_nf
          · intro c' hc'
            rw [rowSum_cons, rowSum_cons]
            simp only [if_neg (hc ▸ (Ne.symm hc'))]
          · intro b' hb'
            rcases List.mem_cons.mp hb' with h1 | h1
            · subst h1
              push_neg at hz
              refine ⟨by simp only []; linarith, by simp only []; exact hgb.2.1,
                by simp only []; exact hgb.2.2⟩
            · exact hgt b' h1
      · rw [if_pos (by simp [hc])] at hd
        cases hdr : drainSlices currency tl toPay with
        | none => rw [hdr] at hd; exact Option.noConfusion hd
        | some pr =>
          rw [hdr] at hd
          injection hd with hd1
          injection hd1 with hsl hrest
          subst hrest
          obtain ⟨e1, e2, e3⟩ := ih toPay pr.1 pr.2 h0 hgt hdr
          refine ⟨?_, ?_, ?_⟩
          · rw [rowSum_cons, rowSum_cons, if_neg hc, e1]
            ring
          · intro c' hc'
            rw [rowSum_cons, rowSum_cons, e2 c' hc']
          · intro b' hb'
            rcases List.mem_cons.mp hb' with h1 | h1
            · subst h1
              exact hgb
            · exact e3 b' h1

/-- Effects of `_move_bags`: the remainder is nonnegative and zero when
the source holds enough; the moved currency's sum splits exactly
between what is left in the source and what was moved; other currencies
are untouched; and bag quality is preserved on both sides (moved bags
all carry the moved currency). -/
theorem moveBags_effects (currency base : String) :
    ∀ (src : List Bag) (toMove : Rat) (n : Int),
    0 ≤ toMove →
    (∀ b ∈ src, 0 < b.amount ∧ b.cost_currency = base ∧
      pyUpper b.currency = b.currency) →
    pyUpper base = base →
    0 ≤ (moveBags currency src toMove n).2.2.1 ∧
    (toMove ≤ rowSum src currency → (moveBags currency src toMove n).2.2.1 = 0) ∧
    rowSum (moveBags currency src toMove n).1 currency
      = rowSum src currency - (toMove - (moveBags currency src toMove n).2.2.1) ∧
    (∀ c', c' ≠ currency →
      rowSum (moveBags currency src toMove n).1 c' = rowSum src c') ∧
    rowSum (moveBags currency src toMove n).2.1 currency
      = toMove - (moveBags currency src toMove n).2.2.1 ∧
    (∀ b' ∈ (moveBags currency src toMove n).2.1,
      0 < b'.amount ∧ b'.cost_currency = base ∧ b'.currency = currency) ∧
    (∀ b' ∈ (moveBags currency src toMove n).1,
      0 < b'.amount ∧ b'.cost_currency = base ∧
      pyUpper b'.currency = b'.currency) := by
  intro src
  induction src with
  | nil =>
    intro toMove n h0 hgood hbase
    rw [moveBags]
    by_cases hz : toMove ≤ 0
    · rw [if_pos hz]
      have h00 : toMove = 0 := le_antisymm hz h0
      subst h00
      refine ⟨le_refl 0, fun _ => rfl, by rw [rowSum_nil]; ring,
        fun c' _ => rfl, by rw [rowSum_nil]; ring, by simp, by simp⟩
    · rw [if_neg hz]
      push_neg at hz
      refine ⟨h0, ?_, by rw [rowSum_nil]; ring, fun c' _ => rfl,
        by rw [rowSum_nil]; ring, by simp, by simp⟩
      intro hle
      rw [rowSum_nil] at hle
      linarith
  | cons b rest ih =>
    intro toMove n h0 hgood hbase
    have hgb := hgood b (List.mem_cons_self _ _)
    have hgr : ∀ x ∈ rest, 0 < x.amount ∧ x.cost_currency = base ∧
        pyUpper x.currency = x.currency :=
      fun x hx => hgood x (List.mem_cons_of_mem _ hx)
    rw [moveBags]
    by_cases hz : toMove ≤ 0
    · rw [if_pos hz]
      have h00 : toMove = 0 := le_antisymm hz h0
      subst h00
      refine ⟨le_refl 0, fun _ => rfl, by ring, fun c' _ => rfl,
        by rw [rowSum_nil]; ring, by simp, hgood⟩
    · rw [if_neg hz]
      push_neg at hz
      by_cases hc : b.currency = currency
      · rw [if_neg (by simp [hc])]
        by_cases hba : b.amount ≤ toMove
        · rw [if_pos hba]
          obtain ⟨e1, e2, e3, e4, e5, e6, e7⟩ :=
            ih (toMove - b.amount) n (by linarith) hgr hbase
          refine ⟨e1, ?_, ?_, ?_, ?_, ?_, e7⟩
          · intro hle
            rw [rowSum_cons, if_pos hc] at hle
            exact e2 (by linarith)
          · rw [e3, rowSum_cons, if_pos hc]
            ring
          · intro c' hc'
            rw [e4 c' hc', rowSum_cons, if_neg (hc ▸ (Ne.symm hc'))]
            ring
          · rw [rowSum_cons, if_pos hc, e5]
            ring
          · intro b' hb'
            rcases List.mem_cons.mp hb' with h1 | h1
            · subst h1
              exact ⟨hgb.1, hgb.2.1, hc⟩
            · exact e6 b' h1
        · rw [if_neg hba]
          push_neg at hba
          have hcc : pyUpper currency = currency := hc ▸ hgb.2.2
          simp only [Bag.spend, if_neg (not_le.mpr hba)]
          refine ⟨le_refl 0, fun _ => by simp, ?_, ?_, ?_, ?_, ?_⟩
          · rw [rowSum_cons, rowSum_cons]
            simp only [if_pos hc]
            ring_nf
          · intro c' hc'
            rw [rowSum_cons, rowSum_cons]
            simp only [if_neg (hc ▸ (Ne.symm hc'))]
          · rw [rowSum_cons, rowSum_nil]
            rw [if_pos (by simp [mkBag, hgb.2.2, hc, hcc])]
            simp [mkBag]
          · intro b' hb'
            rcases List.mem_cons.mp hb' with h1 | h1
            · subst h1
              refine ⟨by simpa [mkBag] using hz, ?_, ?_⟩
              · simp [mkBag, hgb.2.1, hbase]
              · simp [mkBag, hgb.2.2, hc, hcc]
            · simp at h1
          · intro b' hb'
            rcases List.mem_cons.mp hb' with h1 | h1
            · subst h1
              refine ⟨by simp only []; linarith, by simp only []; exact hgb.2.1,
                by simp only []; exact hgb.2.2⟩
            · exact hgr b' h1
      · rw [if_pos (by simp [hc])]
        obtain ⟨e1, e2, e3, e4, e5, e6, e7⟩ := ih toMove n h0 hgr hbase
        refine ⟨e1, ?_, ?_, ?_, e5, e6, ?_⟩
        · intro hle
          rw [rowSum_cons, if_neg hc, zero_add] at hle
          exact e2 hle
        · rw [rowSum_cons, rowSum_cons, if_neg hc, e3]
          ring
        · intro c' hc'
          rw [rowSum_cons, rowSum_cons, e4 c' hc']
        · intro b' hb'
          rcases List.mem_cons.mp hb' with h1 | h1
          · subst h1
            exact hgb
          · exact e7 b' h1

/-! ## String helpers for the engine invariant: `capitalize` never yields
`"in_transit"` and is idempotent. -/

theorem char_toNat_ofNat (n : Nat) (h : n.isValidChar) :
    (Char.ofNat n).toNat = n := by
  unfold Char.ofNat
  rw [dif_pos h]
  rfl

theorem pyUpperChar_toNat_lower (c : Char) (h : 'a' ≤ c ∧ c ≤ 'z') :
    (pyUpperChar c).toNat = c.toNat - 32 := by
  rw [pyUpperChar, if_pos h]
  have h2 : c.toNat ≤ 122 := h.2
  exact char_toNat_ofNat _ (Or.inl (by omega))

theorem pyUpperChar_ne_lowercase (c d : Char) (hd : 'a' ≤ d ∧ d ≤ 'z') :
    pyUpperChar c ≠ d := by
  intro he
  by_cases hc : 'a' ≤ c ∧ c ≤ 'z'
  · have h1 : (pyUpperChar c).toNat = c.toNat - 32 := pyUpperChar_toNat_lower c hc
    rw [he] at h1
    have hd1 : 97 ≤ d.toNat := hd.1
    have hc1 : 97 ≤ c.toNat := hc.1
    have hc2 : c.toNat ≤ 122 := hc.2
    omega
  · rw [pyUpperChar, if_neg hc] at he
    subst he
    exact hc hd

theorem pyCapitalize_ne_transit (x : String) : pyCapitalize x ≠ "in_transit" := by
  intro he
  rw [pyCapitalize] at he
  cases hx : x.data with
  | nil =>
    simp only [hx] at he
    exact absurd he (by decide)
  | cons c cs =>
    simp only [hx] at he
    have hdata : pyUpperChar c :: cs.map pyLowerChar = "in_transit".data :=
      congrArg String.data he
    have h2 : "in_transit".data = 'i' :: "n_transit".data := by decide
    rw [h2] at hdata
    exact pyUpperChar_ne_lowercase c 'i' (by decide) (List.cons.inj hdata).1

theorem pyUpperChar_idem (c : Char) : pyUpperChar (pyUpperChar c) = pyUpperChar c := by
  by_cases hc : 'a' ≤ c ∧ c ≤ 'z'
  · have h1 : (pyUpperChar c).toNat = c.toNat - 32 := pyUpperChar_toNat_lower c hc
    have hno : ¬ ('a' ≤ pyUpperChar c ∧ pyUpperChar c ≤ 'z') := by
      intro hcc
      have h3 : 97 ≤ (pyUpperChar c).toNat := hcc.1
      have h2 : c.toNat ≤ 122 := hc.2
      omega
    calc pyUpperChar (pyUpperChar c)
        = if 'a' ≤ pyUpperChar c ∧ pyUpperChar c ≤ 'z' then
            Char.ofNat ((pyUpperChar c).toNat - 32) else pyUpperChar c := rfl
      _ = pyUpperChar c := if_neg hno
  · have h0 : pyUpperChar c = c := by rw [pyUpperChar, if_neg hc]
    rw [h0]
    exact h0

theorem pyLowerChar_toNat_upper (c : Char) (h : 'A' ≤ c ∧ c ≤ 'Z') :
    (pyLowerChar c).toNat = c.toNat + 32 := by
  rw [pyLowerChar, if_pos h]
  have h2 : c.toNat ≤ 90 := h.2
  exact char_toNat_ofNat _ (Or.inl (by omega))

theorem pyLowerChar_idem (c : Char) : pyLowerChar (pyLowerChar c) = pyLowerChar c := by
  by_cases hc : 'A' ≤ c ∧ c ≤ 'Z'
  · have h1 : (pyLowerChar c).toNat = c.toNat + 32 := pyLowerChar_toNat_upper c hc
    have hno : ¬ ('A' ≤ pyLowerChar c ∧ pyLowerChar c ≤ 'Z') := by
      intro hcc
      have h3 : (pyLowerChar c).toNat ≤ 90 := hcc.2
      have h2 : 65 ≤ c.toNat := hc.1
      omega
    calc pyLowerChar (pyLowerChar c)
        = if 'A' ≤ pyLowerChar c ∧ pyLowerChar c ≤ 'Z' then
            Char.ofNat ((pyLowerChar c).toNat + 32) else pyLowerChar c := rfl
      _ = pyLowerChar c := if_neg hno
  · have h0 : pyLowerChar c = c := by rw [pyLowerChar, if_neg hc]
    rw [h0]
    exact h0

theorem pyCapitalize_idem (x : String) :
    pyCapitalize (pyCapitalize x) = pyCapitalize x := by
  cases hx : x.data with
  | nil =>
    have h1 : pyCapitalize x = "" := by unfold pyCapitalize; rw [hx]
    rw [h1]
    decide
  | cons c cs =>
    have h1 : pyCapitalize x = String.mk (pyUpperChar c :: cs.map pyLowerChar) := by
      unfold pyCapitalize; rw [hx]
    rw [h1]
    show String.mk (pyUpperChar (pyUpperChar c)
        :: (cs.map pyLowerChar).map pyLowerChar)
      = String.mk (pyUpperChar c :: cs.map pyLowerChar)
    rw [pyUpperChar_idem, List.map_map]
    have hm : List.map (pyLowerChar ∘ pyLowerChar) cs = List.map pyLowerChar cs :=
      List.map_congr_left (fun a _ => pyLowerChar_idem a)
    rw [hm]

theorem dset_ne_nil {κ α : Type} [DecidableEq κ] (d : List (κ × α)) (k : κ) (v : α) :
    dset d k v ≠ [] := by
  cases d with
  | nil => simp [dset]
  | cons p t =>
    obtain ⟨a, b⟩ := p
    by_cases h : a = k <;> simp [dset, h]

/-- Bags left in the source by `_move_bags` carry currencies already
present in the source (skipped bags are kept, a split head keeps its
currency). -/
theorem moveBags_src_sub (currency : String) :
    ∀ (src : List Bag) (t : Rat) (n : Int),
    ∀ b' ∈ (moveBags currency src t n).1, ∃ b ∈ src, b'.currency = b.currency := by
  intro src
  induction src with
  | nil =>
    intro t n b' hb'
    rw [moveBags] at hb'
    by_cases h : t ≤ 0 <;> simp [h] at hb'
  | cons b rest ih =>
    intro t n b' hb'
    rw [moveBags] at hb'
    by_cases hz : t ≤ 0
    · rw [if_pos hz] at hb'
      exact ⟨b', hb', rfl⟩
    · rw [if_neg hz] at hb'
      by_cases hc : b.currency = currency
      · rw [if_neg (by simp [hc])] at hb'
        by_cases hba : b.amount ≤ t
        · rw [if_pos hba] at hb'
          obtain ⟨x, hx, he⟩ := ih (t - b.amount) n b' hb'
          exact ⟨x, List.mem_cons_of_mem _ hx, he⟩
        · rw [if_neg hba] at hb'
          simp only [Bag.spend, if_neg (not_le.mpr (not_le.mp hba))] at hb'
          rcases List.mem_cons.mp hb' with h1 | h1
          · exact ⟨b, List.mem_cons_self _ _, by rw [h1]⟩
          · exact ⟨b', List.mem_cons_of_mem _ h1, rfl⟩
      · rw [if_pos (by simp [hc])] at hb'
        rcases List.mem_cons.mp hb' with h1 | h1
        · exact ⟨b, List.mem_cons_self _ _, by rw [h1]⟩
        · obtain ⟨x, hx, he⟩ := ih t n b' h1
          exact ⟨x, List.mem_cons_of_mem _ hx, he⟩

/-- A successful run of `pay`'s FIFO loop implies the bag list covered
the requested amount. -/
theorem payLoop_ok_sum (rate fee_ratio : Rat) (dtime : DT)
    (currency repKind repBuyCur : String) (repBuyRatio : Rat)
    (exchange : String) :
    ∀ (bags : List Bag) (toPay : Rat) (acc : PayAcc)
      (reps : List PaymentReport) (r : List Bag × PayAcc × List PaymentReport),
    (∀ b ∈ bags, 0 < b.amount) →
    payLoop rate fee_ratio dtime currency repKind repBuyCur repBuyRatio
        exchange bags toPay acc reps = .ok r →
    toPay ≤ rowSum bags currency := by
  intro bags
  induction bags with
  | nil =>
    intro toPay acc reps r hpos h
    rw [payLoop] at h
    by_cases hz : toPay ≤ 0
    · rw [rowSum_nil]; exact hz
    · rw [if_neg hz] at h
      exact absurd h (by simp)
  | cons b rest ih =>
    intro toPay acc reps r hpos h
    rw [payLoop] at h
    by_cases hz : toPay ≤ 0
    · have hnn := rowSum_nonneg (b :: rest) currency hpos
      linarith
    · rw [if_neg hz] at h
      push_neg at hz
      have hposr : ∀ x ∈ rest, 0 < x.amount :=
        fun x hx => hpos x (List.mem_cons_of_mem _ hx)
      by_cases hc : b.currency = currency
      · rw [if_neg (by simp [hc])] at h
        by_cases hba : toPay ≥ b.amount
        · simp only [Bag.spend, if_pos hba] at h
          rw [if_pos (by simp [Bag.isEmpty])] at h
          have := ih (toPay - b.amount) _ _ _ hposr h
          rw [rowSum_cons, if_pos hc]
          linarith
        · push_neg at hba
          rw [rowSum_cons, if_pos hc]
          have hnn := rowSum_nonneg rest currency hposr
          linarith
      · rw [if_pos (by simp [hc])] at h
        cases hr : payLoop rate fee_ratio dtime currency repKind repBuyCur
            repBuyRatio exchange rest toPay acc reps with
        | error e =>
          rw [hr] at h
          exact absurd h (by simp [Except.map])
        | ok r0 =>
          have := ih toPay acc reps r0 hposr hr
          rw [rowSum_cons, if_neg hc]
          linarith

/-- The engine invariant only depends on the base currency, the bag
dictionaries and the totals. -/
theorem EngineInv.congr (s s' : BagFIFO) (h : EngineInv s)
    (h1 : s'.currency = s.currency) (h2 : s'.bags = s.bags)
    (h3 : s'.totals = s.totals) (h4 : s'.in_transit = s.in_transit) :
    EngineInv s' := by
  constructor
  · rw [h1]; exact h.baseFix
  · rw [h2]; exact h.ndBags
  · rw [h4]; exact h.ndTrans
  · rw [h3]; exact h.ndTot
  · intro ex row hrow
    rw [h3] at hrow
    exact h.ndRows ex row hrow
  · intro ex bs hbs
    rw [h2] at hbs
    rw [h1]
    exact h.bagsGood ex bs hbs
  · intro c bs hbs
    rw [h4] at hbs
    rw [h1]
    exact h.transGood c bs hbs
  · intro ex bs hbs
    rw [h2] at hbs
    exact h.bagsNE ex bs hbs
  · intro ex row hrow
    rw [h3] at hrow
    exact h.rowsNE ex row hrow
  · rw [h2]; exact h.noTransitBags
  · intro ex c hex
    have e1 : totalsEntry s' ex c = totalsEntry s ex c := by
      unfold totalsEntry; rw [h3]
    have e2 : dgetD s'.bags ex ([] : List Bag) = dgetD s.bags ex [] := by
      unfold dgetD; rw [h2]
    rw [e1, e2]
    exact h.exMatch ex c hex
  · intro c
    have e1 : totalsEntry s' "in_transit" c = totalsEntry s "in_transit" c := by
      unfold totalsEntry; rw [h3]
    have e2 : dgetD s'.in_transit c ([] : List Bag) = dgetD s.in_transit c [] := by
      unfold dgetD; rw [h4]
    rw [e1, e2]
    exact h.trMatch c

/-- Re-establishing the engine invariant after a local change at one
exchange key `EX ≠ "in_transit"`: the new bag list and the new totals
row at `EX` (both optional bindings) must be locally well-formed and
match each other; everything else is untouched. -/
theorem EngineInv.updateEx (s s' : BagFIFO) (h : EngineInv s) (EX : String)
    (hEX : EX ≠ "in_transit")
    (nb : Option (List Bag)) (nr : Option (List (String × Rat)))
    (hcur : s'.currency = s.currency)
    (htrans : s'.in_transit = s.in_transit)
    (hbEx : dget s'.bags EX = nb)
    (hbO : ∀ ex0, ex0 ≠ EX → dget s'.bags ex0 = dget s.bags ex0)
    (htEx : dget s'.totals EX = nr)
    (htO : ∀ ex0, ex0 ≠ EX → dget s'.totals ex0 = dget s.totals ex0)
    (hndB : NDK s'.bags) (hndT : NDK s'.totals) (hndTr : NDK s'.in_transit)
    (hnrND : ∀ r, nr = some r → NDK r)
    (hnrNE : ∀ r, nr = some r → r ≠ [])
    (hnbNE : ∀ bs, nb = some bs → bs ≠ [])
    (hnbGood : ∀ bs, nb = some bs → ∀ b ∈ bs,
      0 < b.amount ∧ b.cost_currency = s.currency ∧ pyUpper b.currency = b.currency)
    (hmatch : ∀ c,
      (∀ v, nr.bind (fun r => dget r c) = some v →
        v = rowSum (nb.getD []) c ∧ v ≠ 0) ∧
      (nr.bind (fun r => dget r c) = none → rowSum (nb.getD []) c = 0)) :
    EngineInv s' := by
  constructor
  · rw [hcur]; exact h.baseFix
  · exact hndB
  · exact hndTr
  · exact hndT
  · intro ex row hrow
    by_cases hx : ex = EX
    · subst hx; rw [htEx] at hrow; exact hnrND row hrow
    · rw [htO ex hx] at hrow; exact h.ndRows ex row hrow
  · intro ex bs hbs
    rw [hcur]
    by_cases hx : ex = EX
    · subst hx; rw [hbEx] at hbs; exact hnbGood bs hbs
    · rw [hbO ex hx] at hbs; exact h.bagsGood ex bs hbs
  · intro c bs hbs
    rw [htrans] at hbs
    rw [hcur]
    exact h.transGood c bs hbs
  · intro ex bs hbs
    by_cases hx : ex = EX
    · subst hx; rw [hbEx] at hbs; exact hnbNE bs hbs
    · rw [hbO ex hx] at hbs; exact h.bagsNE ex bs hbs
  · intro ex row hrow
    by_cases hx : ex = EX
    · subst hx; rw [htEx] at hrow; exact hnrNE row hrow
    · rw [htO ex hx] at hrow; exact h.rowsNE ex row hrow
  · rw [hbO "in_transit" (Ne.symm hEX)]
    exact h.noTransitBags
  · intro ex c hex
    by_cases hx : ex = EX
    · subst hx
      have e1 : totalsEntry s' ex c = nr.bind (fun r => dget r c) := by
        unfold totalsEntry; rw [htEx]
      have e2 : dgetD s'.bags ex ([] : List Bag) = nb.getD [] := by
        unfold dgetD; rw [hbEx]
      rw [e1, e2]
      exact hmatch c
    · have e1 : totalsEntry s' ex c = totalsEntry s ex c := by
        unfold totalsEntry; rw [htO ex hx]
      have e2 : dgetD s'.bags ex ([] : List Bag) = dgetD s.bags ex [] := by
        unfold dgetD; rw [hbO ex hx]
      rw [e1, e2]
      exact h.exMatch ex c hex
  · intro c
    have e1 : totalsEntry s' "in_transit" c = totalsEntry s "in_transit" c := by
      unfold totalsEntry; rw [htO "in_transit" (Ne.symm hEX)]
    have e2 : dgetD s'.in_transit c ([] : List Bag) = dgetD s.in_transit c [] := by
      unfold dgetD; rw [htrans]
    rw [e1, e2]
    exact h.trMatch c

/-- Re-establishing the engine invariant after a local change at one
in-transit currency `c`: the new in-transit bag list at `c` and the new
`totals["in_transit"]` entry at `c` must match; everything else is
untouched. -/
theorem EngineInv.updateTransit (s s' : BagFIFO) (h : EngineInv s) (c : String)
    (nb : Option (List Bag)) (ne1 : Option Rat)
    (hcur : s'.currency = s.currency)
    (hbags : s'.bags = s.bags)
    (htrC : dget s'.in_transit c = nb)
    (htrO : ∀ c0, c0 ≠ c → dget s'.in_transit c0 = dget s.in_transit c0)
    (htO : ∀ ex0, ex0 ≠ "in_transit" → dget s'.totals ex0 = dget s.totals ex0)
    (hentC : totalsEntry s' "in_transit" c = ne1)
    (hentO : ∀ c0, c0 ≠ c →
      totalsEntry s' "in_transit" c0 = totalsEntry s "in_transit" c0)
    (hndT : NDK s'.totals) (hndTr : NDK s'.in_transit)
    (hrows : ∀ row, dget s'.totals "in_transit" = some row → NDK row ∧ row ≠ [])
    (hnbGood : ∀ bs, nb = some bs → ∀ b ∈ bs,
      0 < b.amount ∧ b.cost_currency = s.currency ∧ b.currency = c)
    (hm1 : ∀ v, ne1 = some v → v = rowSum (nb.getD []) c)
    (hm2 : ne1 = none → nb.getD [] = ([] : List Bag)) :
    EngineInv s' := by
  constructor
  · rw [hcur]; exact h.baseFix
  · rw [hbags]; exact h.ndBags
  · exact hndTr
  · exact hndT
  · intro ex row hrow
    by_cases hx : ex = "in_transit"
    · subst hx; exact (hrows row hrow).1
    · rw [htO ex hx] at hrow; exact h.ndRows ex row hrow
  · intro ex bs hbs
    rw [hbags] at hbs
    rw [hcur]
    exact h.bagsGood ex bs hbs
  · intro c0 bs hbs
    rw [hcur]
    by_cases hx : c0 = c
    · subst hx; rw [htrC] at hbs; exact hnbGood bs hbs
    · rw [htrO c0 hx] at hbs; exact h.transGood c0 bs hbs
  · intro ex bs hbs
    rw [hbags] at hbs
    exact h.bagsNE ex bs hbs
  · intro ex row hrow
    by_cases hx : ex = "in_transit"
    · subst hx; exact (hrows row hrow).2
    · rw [htO ex hx] at hrow; exact h.rowsNE ex row hrow
  · rw [hbags]; exact h.noTransitBags
  · intro ex c0 hex
    have e1 : totalsEntry s' ex c0 = totalsEntry s ex c0 := by
      unfold totalsEntry; rw [htO ex hex]
    have e2 : dgetD s'.bags ex ([] : List Bag) = dgetD s.bags ex [] := by
      unfold dgetD; rw [hbags]
    rw [e1, e2]
    exact h.exMatch ex c0 hex
  · intro c0
    by_cases hx : c0 = c
    · subst hx
      have e2 : dgetD s'.in_transit c0 ([] : List Bag) = nb.getD [] := by
        unfold dgetD; rw [htrC]
      constructor
      · intro v hv
        rw [hentC] at hv
        rw [e2]
        exact hm1 v hv
      · intro hv
        rw [hentC] at hv
        rw [e2]
        exact hm2 hv
    · have e2 : dgetD s'.in_transit c0 ([] : List Bag) = dgetD s.in_transit c0 [] := by
        unfold dgetD; rw [htrO c0 hx]
      rw [hentO c0 hx, e2]
      exact h.trMatch c0


/-- Inversion of a successful `pay`: either the amount was nonpositive
and only `last_date` advanced, or every guard passed and the final
state is the FIFO-drained state with the totals cleanup applied. -/
theorem pay_ok_shape (rel : RateRel) (dtime : DT) (currency : String)
    (amount : Rat) (exchange : String) (fee_ratio : Rat)
    (custom_rate : Option Rat) (repKind repBuyCur : String) (repBuyRatio : Rat)
    (s : BagFIFO) (res : Option (Rat × Rat)) (s' : BagFIFO)
    (h : pay rel dtime currency amount exchange fee_ratio custom_rate repKind
        repBuyCur repBuyRatio s = .ok (res, s')) :
    (dtime.aware = true ∧ ¬ dtime.utc < s.last_date.utc) ∧
    ((amount ≤ 0 ∧ res = none ∧ s' = { s with last_date := dtime.toUTC }) ∨
     (0 < amount ∧ currency ≠ s.currency ∧
      ∃ exBags row rate bags' acc reps2,
        dget s.bags (pyCapitalize exchange) = some exBags ∧ exBags ≠ [] ∧
        ¬ (fee_ratio < 0 ∨ fee_ratio > 1) ∧
        dget s.totals (pyCapitalize exchange) = some row ∧
        amount ≤ dgetD row currency 0 ∧
        payLoop rate fee_ratio dtime currency repKind repBuyCur
          (if repBuyCur = "" then 0 else repBuyRatio) (pyCapitalize exchange)
          exBags amount ⟨0, 0, 0, 0⟩ [] = .ok (bags', acc, reps2) ∧
        res = some (acc.st_proc * (1 - fee_ratio) - acc.st_cost,
                    acc.proc * (1 - fee_ratio)) ∧
        s' = (if dgetD row currency 0 - amount = 0 then
                { s with last_date := dtime.toUTC,
                         report := s.report ++ reps2,
                         totals := if ddel row currency = [] then
                             ddel s.totals (pyCapitalize exchange)
                           else dset s.totals (pyCapitalize exchange)
                             (ddel row currency),
                         bags := if bags' = [] then
                             ddel s.bags (pyCapitalize exchange)
                           else dset s.bags (pyCapitalize exchange) bags' }
              else
                { s with last_date := dtime.toUTC,
                         report := s.report ++ reps2,
                         totals := dset s.totals (pyCapitalize exchange)
                           (dset row currency (dgetD row currency 0 - amount)),
                         bags := dset s.bags (pyCapitalize exchange) bags' }))) := by
  unfold pay checkOrder at h
  by_cases haware : dtime.aware
  · rw [if_neg (by simp [haware])] at h
    by_cases horder : dtime.utc < s.last_date.utc
    · rw [if_pos horder] at h
      simp only [Except.bind, bind] at h
      exact absurd h (by simp)
    · rw [if_neg horder] at h
      simp only [Except.bind, bind] at h
      refine ⟨⟨haware, horder⟩, ?_⟩
      by_cases hamt : amount ≤ 0
      · rw [if_pos hamt] at h
        simp only [pure, Except.pure, Except.ok.injEq, Prod.mk.injEq] at h
        exact Or.inl ⟨hamt, h.1.symm, h.2.symm⟩
      · rw [if_neg hamt] at h
        have hamt' : 0 < amount := not_le.mp hamt
        by_cases hcur : currency = s.currency
        · rw [if_pos hcur] at h
          exact absurd h (by simp [throw, throwThe, MonadExceptOf.throw])
        · rw [if_neg hcur] at h
          cases hex : dget s.bags (pyCapitalize exchange) with
          | none =>
            simp only [hex] at h
            exact absurd h (by simp [throw, throwThe, MonadExceptOf.throw])
          | some exBags =>
            simp only [hex] at h
            by_cases hexne : exBags = []
            · rw [if_pos hexne] at h
              exact absurd h (by simp [throw, throwThe, MonadExceptOf.throw])
            · rw [if_neg hexne] at h
              by_cases hfee : fee_ratio < 0 ∨ fee_ratio > 1
              · rw [if_pos hfee] at h
                exact absurd h (by simp [throw, throwThe, MonadExceptOf.throw])
              · rw [if_neg hfee] at h
                cases hrowO : dget s.totals (pyCapitalize exchange) with
                | none =>
                  simp only [hrowO] at h
                  rw [if_pos hamt'] at h
                  exact absurd h (by simp [throw, throwThe, MonadExceptOf.throw])
                | some row =>
                  simp only [hrowO] at h
                  by_cases hle : amount > dgetD row currency 0
                  · rw [if_pos hle] at h
                    exact absurd h (by simp [throw, throwThe, MonadExceptOf.throw])
                  · rw [if_neg hle] at h
                    have hrowD : dgetD s.totals (pyCapitalize exchange)
                        ([] : List (String × Rat)) = row := by
                      unfold dgetD; rw [hrowO]; rfl
                    rw [hrowD] at h
                    refine Or.inr ⟨hamt', hcur, ?_⟩
                    cases custom_rate with
                    | some r0 =>
                      simp only [pure, Except.pure] at h
                      cases hpl : payLoop r0 fee_ratio dtime currency repKind
                          repBuyCur (if repBuyCur = "" then 0 else repBuyRatio)
                          (pyCapitalize exchange) exBags amount
                          ⟨0, 0, 0, 0⟩ [] with
                      | error e =>
                        rw [hpl] at h
                        exact absurd h (by simp)
                      | ok plr =>
                        obtain ⟨plbags, placc, plreps⟩ := plr
                        rw [hpl] at h
                        simp only [pure, Except.pure, Except.ok.injEq,
                          Prod.mk.injEq] at h
                        exact ⟨exBags, row, r0, plbags, placc, plreps, rfl,
                          hexne, hfee, rfl, not_lt.mp hle, hpl, h.1.symm,
                          h.2.symm⟩
                    | none =>
                      cases hrel : rel dtime currency s.currency with
                      | none =>
                        simp only [hrel] at h
                        exact absurd h
                          (by simp [throw, throwThe, MonadExceptOf.throw])
                      | some r0 =>
                        simp only [hrel, pure, Except.pure] at h
                        cases hpl : payLoop r0 fee_ratio dtime currency repKind
                            repBuyCur (if repBuyCur = "" then 0 else repBuyRatio)
                            (pyCapitalize exchange) exBags amount
                            ⟨0, 0, 0, 0⟩ [] with
                        | error e =>
                          rw [hpl] at h
                          exact absurd h (by simp)
                        | ok plr =>
                          obtain ⟨plbags, placc, plreps⟩ := plr
                          rw [hpl] at h
                          simp only [pure, Except.pure, Except.ok.injEq,
                            Prod.mk.injEq] at h
                          exact ⟨exBags, row, r0, plbags, placc, plreps, rfl,
                            hexne, hfee, rfl, not_lt.mp hle, hpl, h.1.symm,
                            h.2.symm⟩
  · rw [if_pos (by simp [haware])] at h
    simp only [Except.bind, bind] at h
    exact absurd h (by simp)

/-- If deleting key `k` empties a dict, no other key was present. -/
theorem ddel_eq_nil_dget {κ α : Type} [DecidableEq κ] (d : List (κ × α)) (k k' : κ)
    (h : ddel d k = []) (hne : k' ≠ k) : dget d k' = none := by
  cases d with
  | nil => rfl
  | cons p t =>
    obtain ⟨a, b⟩ := p
    by_cases hp : a = k
    · simp only [ddel, if_pos hp] at h
      subst h
      rw [dget, if_neg (by rw [hp]; exact fun hc => hne hc.symm)]
      rfl
    · simp only [ddel, if_neg hp] at h
      exact absurd h (by simp)

/-- A successful `pay` preserves the engine invariant and only changes
the paid exchange's bag list and totals row: the paid currency's entry
drops by the amount (and is removed when it reaches zero), all other
totals entries, all other exchanges and the in-transit side are
untouched. -/
theorem pay_inv_effect (rel : RateRel) (dtime : DT) (currency : String)
    (amount : Rat) (exchange : String) (fee_ratio : Rat)
    (custom_rate : Option Rat) (repKind repBuyCur : String) (repBuyRatio : Rat)
    (s : BagFIFO) (res : Option (Rat × Rat)) (s' : BagFIFO)
    (hinv : EngineInv s)
    (h : pay rel dtime currency amount exchange fee_ratio custom_rate repKind
        repBuyCur repBuyRatio s = .ok (res, s')) :
    EngineInv s' ∧
    s'.currency = s.currency ∧
    s'.in_transit = s.in_transit ∧
    (∀ ex0, ex0 ≠ pyCapitalize exchange →
      dget s'.totals ex0 = dget s.totals ex0 ∧
      dget s'.bags ex0 = dget s.bags ex0) ∧
    (∀ c0, c0 ≠ currency →
      totalsEntry s' (pyCapitalize exchange) c0
        = totalsEntry s (pyCapitalize exchange) c0) ∧
    (0 < amount →
      totalsEntry s' (pyCapitalize exchange) currency
        = (if readTotal s (pyCapitalize exchange) currency - amount = 0 then none
           else some (readTotal s (pyCapitalize exchange) currency - amount))) ∧
    (amount ≤ 0 → s'.totals = s.totals ∧ s'.bags = s.bags) := by
  obtain ⟨⟨haware, horder⟩, hsplit⟩ :=
    pay_ok_shape rel dtime currency amount exchange fee_ratio custom_rate
      repKind repBuyCur repBuyRatio s res s' h
  rcases hsplit with ⟨hamt, hres, hs'⟩ |
    ⟨hamt, hcur, exBags, row, rate, bags', acc, reps2, hex, hexne, hfee,
     hrow, hle, hpl, hres, hs'⟩
  · subst hs'
    exact ⟨EngineInv.congr s _ hinv rfl rfl rfl rfl, rfl, rfl,
      fun ex0 _ => ⟨rfl, rfl⟩, fun c0 _ => rfl,
      fun h0 => absurd h0 (not_lt.mpr hamt),
      fun _ => ⟨rfl, rfl⟩⟩
  · set EX := pyCapitalize exchange with hEXdef
    have hEXt : EX ≠ "in_transit" := pyCapitalize_ne_transit exchange
    set T := dgetD row currency 0 with hTdef
    have hTpos : 0 < T := lt_of_lt_of_le hamt hle
    have hrc : dget row currency = some T := by
      cases hg : dget row currency with
      | none =>
        exfalso
        have hz : T = 0 := by rw [hTdef]; unfold dgetD; rw [hg]; rfl
        rw [hz] at hTpos
        exact lt_irrefl 0 hTpos
      | some v =>
        have hv : T = v := by rw [hTdef]; unfold dgetD; rw [hg]; rfl
        rw [hv]
    have hgood := hinv.bagsGood EX exBags hex
    have hpos : ∀ b ∈ exBags, 0 < b.amount := fun b hb => (hgood b hb).1
    have hsum : amount ≤ rowSum exBags currency :=
      payLoop_ok_sum rate fee_ratio dtime currency repKind repBuyCur
        (if repBuyCur = "" then 0 else repBuyRatio) EX exBags amount
        ⟨0, 0, 0, 0⟩ [] _ hpos hpl
    obtain ⟨sl, rest, reps2', hd, hp2⟩ :=
      payLoop_drain rate fee_ratio dtime currency repKind repBuyCur
        (if repBuyCur = "" then 0 else repBuyRatio) EX exBags amount
        ⟨0, 0, 0, 0⟩ [] hsum
    have hbags' : bags' = rest := by
      have heq := Except.ok.inj (hpl.symm.trans hp2)
      exact congrArg Prod.fst heq
    obtain ⟨hdrop, hother, hgood'⟩ :=
      drainSlices_effects currency s.currency exBags amount sl rest
        (le_of_lt hamt) hgood hd
    have hmatch0 := (hinv.exMatch EX currency hEXt).1 T
      (by unfold totalsEntry; rw [hrow]; exact hrc)
    have hdgb : dgetD s.bags EX ([] : List Bag) = exBags := by
      unfold dgetD; rw [hex]; rfl
    have hsumT : rowSum exBags currency = T := by
      have h1 := hmatch0.1
      rw [hdgb] at h1
      exact h1.symm
    have hrest_c : rowSum rest currency = T - amount := by rw [hdrop, hsumT]
    have hndrow : NDK row := hinv.ndRows EX row hrow
    have hread : readTotal s EX currency = T := by
      unfold readTotal; rw [hrow]
    rw [hbags'] at hs'
    by_cases ht0 : T - amount = 0
    · rw [if_pos ht0] at hs'
      subst hs'
      have hbEx : dget (if rest = [] then ddel s.bags EX
            else dset s.bags EX rest) EX
          = (if rest = [] then none else some rest) := by
        by_cases hr0 : rest = []
        · rw [if_pos hr0, if_pos hr0]
          exact dget_ddel_self s.bags EX hinv.ndBags
        · rw [if_neg hr0, if_neg hr0]
          exact dget_dset_self s.bags EX rest
      have hbO : ∀ ex0, ex0 ≠ EX →
          dget (if rest = [] then ddel s.bags EX
            else dset s.bags EX rest) ex0 = dget s.bags ex0 := by
        intro ex0 hne
        by_cases hr0 : rest = []
        · rw [if_pos hr0]
          exact dget_ddel_ne s.bags EX ex0 (Ne.symm hne)
        · rw [if_neg hr0]
          exact dget_dset_ne s.bags EX ex0 rest (Ne.symm hne)
      have htEx : dget (if ddel row currency = [] then ddel s.totals EX
            else dset s.totals EX (ddel row currency)) EX
          = (if ddel row currency = [] then none
             else some (ddel row currency)) := by
        by_cases hd0 : ddel row currency = []
        · rw [if_pos hd0, if_pos hd0]
          exact dget_ddel_self s.totals EX hinv.ndTot
        · rw [if_neg hd0, if_neg hd0]
          exact dget_dset_self s.totals EX (ddel row currency)
      have htO : ∀ ex0, ex0 ≠ EX →
          dget (if ddel row currency = [] then ddel s.totals EX
            else dset s.totals EX (ddel row currency)) ex0
          = dget s.totals ex0 := by
        intro ex0 hne
        by_cases hd0 : ddel row currency = []
        · rw [if_pos hd0]
          exact dget_ddel_ne s.totals EX ex0 (Ne.symm hne)
        · rw [if_neg hd0]
          exact dget_dset_ne s.totals EX ex0 (ddel row currency) (Ne.symm hne)
      have hrowO : ∀ c0, c0 ≠ currency →
          (if ddel row currency = [] then (none : Option (List (String × Rat)))
           else some (ddel row currency)).bind (fun r => dget r c0)
          = dget row c0 := by
        intro c0 hc0
        by_cases hd0 : ddel row currency = []
        · rw [if_pos hd0]
          exact (ddel_eq_nil_dget row currency c0 hd0 hc0).symm
        · rw [if_neg hd0]
          exact dget_ddel_ne row currency c0 (Ne.symm hc0)
      have hrowC :
          (if ddel row currency = [] then (none : Option (List (String × Rat)))
           else some (ddel row currency)).bind (fun r => dget r currency)
          = none := by
        by_cases hd0 : ddel row currency = []
        · rw [if_pos hd0]; rfl
        · rw [if_neg hd0]
          exact dget_ddel_self row currency hndrow
      have hnbg : (if rest = [] then (none : Option (List Bag))
          else some rest).getD [] = rest := by
        by_cases hr0 : rest = []
        · rw [if_pos hr0, hr0]; rfl
        · rw [if_neg hr0]; rfl
      refine ⟨?_, rfl, rfl, fun ex0 hne => ⟨htO ex0 hne, hbO ex0 hne⟩,
        ?_, ?_, fun h0 => absurd hamt (not_lt.mpr h0)⟩
      · refine EngineInv.updateEx s _ hinv EX hEXt
          (if rest = [] then none else some rest)
          (if ddel row currency = [] then none else some (ddel row currency))
          rfl rfl hbEx hbO htEx htO ?_ ?_ hinv.ndTrans ?_ ?_ ?_ ?_ ?_
        · by_cases hr0 : rest = []
          · rw [if_pos hr0]
            exact NDK_ddel s.bags EX hinv.ndBags
          · rw [if_neg hr0]
            exact NDK_dset s.bags EX rest hinv.ndBags
        · by_cases hd0 : ddel row currency = []
          · rw [if_pos hd0]
            exact NDK_ddel s.totals EX hinv.ndTot
          · rw [if_neg hd0]
            exact NDK_dset s.totals EX (ddel row currency) hinv.ndTot
        · intro r hr
          by_cases hd0 : ddel row currency = []
          · rw [if_pos hd0] at hr
            exact absurd hr (by simp)
          · rw [if_neg hd0] at hr
            have := Option.some.inj hr
            rw [← this]
            exact NDK_ddel row currency hndrow
        · intro r hr
          by_cases hd0 : ddel row currency = []
          · rw [if_pos hd0] at hr
            exact absurd hr (by simp)
          · rw [if_neg hd0] at hr
            rw [← Option.some.inj hr]
            exact hd0
        · intro bs hbs
          by_cases hr0 : rest = []
          · rw [if_pos hr0] at hbs
            exact absurd hbs (by simp)
          · rw [if_neg hr0] at hbs
            rw [← Option.some.inj hbs]
            exact hr0
        · intro bs hbs
          by_cases hr0 : rest = []
          · rw [if_pos hr0] at hbs
            exact absurd hbs (by simp)
          · rw [if_neg hr0] at hbs
            rw [← Option.some.inj hbs]
            exact hgood'
        · intro c0
          rw [hnbg]
          by_cases hc0 : c0 = currency
          · subst hc0
            rw [hrowC]
            refine ⟨fun v hv => absurd hv (by simp), fun _ => ?_⟩
            rw [hrest_c]
            exact ht0
          · rw [hrowO c0 hc0]
            constructor
            · intro v hv
              have hold := (hinv.exMatch EX c0 hEXt).1 v
                (by unfold totalsEntry; rw [hrow]; exact hv)
              rw [hdgb] at hold
              rw [hother c0 hc0]
              exact hold
            · intro hv
              have hold := (hinv.exMatch EX c0 hEXt).2
                (by unfold totalsEntry; rw [hrow]; exact hv)
              rw [hdgb] at hold
              rw [hother c0 hc0]
              exact hold
      · intro c0 hc0
        simp only [totalsEntry, htEx, hrow]
        rw [hrowO c0 hc0]
        rfl
      · intro _
        rw [hread, if_pos ht0]
        simp only [totalsEntry, htEx]
        exact hrowC
    · rw [if_neg ht0] at hs'
      subst hs'
      have hrestne : rest ≠ [] :=
        rowSum_ne_nil rest currency (by rw [hrest_c]; exact ht0)
      have hbEx : dget (dset s.bags EX rest) EX = some rest :=
        dget_dset_self s.bags EX rest
      have hbO : ∀ ex0, ex0 ≠ EX →
          dget (dset s.bags EX rest) ex0 = dget s.bags ex0 :=
        fun ex0 hne => dget_dset_ne s.bags EX ex0 rest (Ne.symm hne)
      have htEx : dget (dset s.totals EX (dset row currency (T - amount))) EX
          = some (dset row currency (T - amount)) :=
        dget_dset_self s.totals EX _
      have htO : ∀ ex0, ex0 ≠ EX →
          dget (dset s.totals EX (dset row currency (T - amount))) ex0
          = dget s.totals ex0 :=
        fun ex0 hne => dget_dset_ne s.totals EX ex0 _ (Ne.symm hne)
      refine ⟨?_, rfl, rfl, fun ex0 hne => ⟨htO ex0 hne, hbO ex0 hne⟩,
        ?_, ?_, fun h0 => absurd hamt (not_lt.mpr h0)⟩
      · refine EngineInv.updateEx s _ hinv EX hEXt
          (some rest) (some (dset row currency (T - amount)))
          rfl rfl hbEx hbO htEx htO
          (NDK_dset s.bags EX rest hinv.ndBags)
          (NDK_dset s.totals EX _ hinv.ndTot) hinv.ndTrans ?_ ?_ ?_ ?_ ?_
        · intro r hr
          rw [← Option.some.inj hr]
          exact NDK_dset row currency (T - amount) hndrow
        · intro r hr
          rw [← Option.some.inj hr]
          exact dset_ne_nil row currency (T - amount)
        · intro bs hbs
          rw [← Option.some.inj hbs]
          exact hrestne
        · intro bs hbs
          rw [← Option.some.inj hbs]
          exact hgood'
        · intro c0
          by_cases hc0 : c0 = currency
          · subst hc0
            have e1 : (some (dset row c0 (T - amount))).bind
                (fun r => dget r c0) = some (T - amount) := by
              show dget (dset row c0 (T - amount)) c0 = some (T - amount)
              exact dget_dset_self row c0 (T - amount)
            rw [e1]
            refine ⟨fun v hv => ?_, fun hv => absurd hv (by simp)⟩
            rw [← Option.some.inj hv]
            show T - amount = rowSum ((some rest).getD []) c0 ∧ T - amount ≠ 0
            refine ⟨?_, ht0⟩
            show T - amount = rowSum rest c0
            exact hrest_c.symm
          · have e1 : (some (dset row currency (T - amount))).bind
                (fun r => dget r c0) = dget row c0 := by
              show dget (dset row currency (T - amount)) c0 = dget row c0
              exact dget_dset_ne row currency c0 (T - amount) (Ne.symm hc0)
            rw [e1]
            constructor
            · intro v hv
              have hold := (hinv.exMatch EX c0 hEXt).1 v
                (by unfold totalsEntry; rw [hrow]; exact hv)
              rw [hdgb] at hold
              show v = rowSum ((some rest).getD []) c0 ∧ v ≠ 0
              rw [show ((some rest).getD [] : List Bag) = rest from rfl]
              rw [hother c0 hc0]
              exact hold
            · intro hv
              have hold := (hinv.exMatch EX c0 hEXt).2
                (by unfold totalsEntry; rw [hrow]; exact hv)
              rw [hdgb] at hold
              show rowSum ((some rest).getD []) c0 = 0
              rw [show ((some rest).getD [] : List Bag) = rest from rfl]
              rw [hother c0 hc0]
              exact hold
      · intro c0 hc0
        simp only [totalsEntry, htEx, hrow]
        rw [show (some (dset row currency (T - amount))).bind
              (fun r => dget r c0) = dget (dset row currency (T - amount)) c0
            from rfl]
        rw [dget_dset_ne row currency c0 (T - amount) (Ne.symm hc0)]
        rfl
      · intro _
        rw [hread, if_neg ht0]
        simp only [totalsEntry, htEx]
        show dget (dset row currency (T - amount)) currency = some (T - amount)
        exact dget_dset_self row currency (T - amount)

/-- Inversion of a successful `buy_with_base_currency`. -/
theorem buy_ok_shape (dtime : DT) (amount : Rat) (currency : String)
    (cost : Rat) (exchange : String) (s s' : BagFIFO)
    (h : buyWithBaseCurrency dtime amount currency cost exchange s = .ok s') :
    (dtime.aware = true ∧ ¬ dtime.utc < s.last_date.utc) ∧
    ((amount ≤ 0 ∧ s' = { s with last_date := dtime.toUTC }) ∨
     (0 < amount ∧ currency ≠ s.currency ∧
      s' = { s with
                 last_date := dtime.toUTC,
                 bags := dset s.bags (pyCapitalize exchange)
                           (dgetD s.bags (pyCapitalize exchange) []
                             ++ [mkBag (s.num_created_bags + 1) dtime currency
                                   amount s.currency cost]),
                 num_created_bags := s.num_created_bags + 1,
                 totals := dset s.totals (pyCapitalize exchange)
                             (dset (dgetD s.totals (pyCapitalize exchange) [])
                               currency
                               (dgetD (dgetD s.totals (pyCapitalize exchange) [])
                                 currency 0 + amount)) })) := by
  unfold buyWithBaseCurrency checkOrder at h
  by_cases haware : dtime.aware
  · rw [if_neg (by simp [haware])] at h
    by_cases horder : dtime.utc < s.last_date.utc
    · rw [if_pos horder] at h
      simp only [Except.bind, bind] at h
      exact absurd h (by simp)
    · rw [if_neg horder] at h
      simp only [Except.bind, bind] at h
      refine ⟨⟨haware, horder⟩, ?_⟩
      by_cases hamt : amount ≤ 0
      · rw [if_pos hamt] at h
        simp only [pure, Except.pure, Except.ok.injEq] at h
        exact Or.inl ⟨hamt, h.symm⟩
      · rw [if_neg hamt] at h
        by_cases hcur : currency = s.currency
        · rw [if_pos hcur] at h
          exact absurd h (by simp [throw, throwThe, MonadExceptOf.throw])
        · rw [if_neg hcur] at h
          simp only [pure, Except.pure, Except.ok.injEq] at h
          exact Or.inr ⟨not_le.mp hamt, hcur, h.symm⟩
  · rw [if_pos (by simp [haware])] at h
    simp only [Except.bind, bind] at h
    exact absurd h (by simp)

/-- A successful `buy_with_base_currency` with an upper-case currency
code preserves the engine invariant. -/
theorem buy_inv (dtime : DT) (amount : Rat) (currency : String)
    (cost : Rat) (exchange : String) (s s' : BagFIFO)
    (hinv : EngineInv s) (hwf : pyUpper currency = currency)
    (h : buyWithBaseCurrency dtime amount currency cost exchange s = .ok s') :
    EngineInv s' ∧ s'.currency = s.currency ∧ s'.in_transit = s.in_transit := by
  obtain ⟨⟨haware, horder⟩, hsplit⟩ :=
    buy_ok_shape dtime amount currency cost exchange s s' h
  rcases hsplit with ⟨hamt, hs'⟩ | ⟨hamt, hcur, hs'⟩
  · subst hs'
    exact ⟨EngineInv.congr s _ hinv rfl rfl rfl rfl, rfl, rfl⟩
  · subst hs'
    set EX := pyCapitalize exchange with hEXdef
    have hEXt : EX ≠ "in_transit" := pyCapitalize_ne_transit exchange
    have hentEq : ∀ c0, dget (dgetD s.totals EX ([] : List (String × Rat))) c0
        = totalsEntry s EX c0 := by
      intro c0
      cases hg : dget s.totals EX with
      | none => unfold totalsEntry dgetD; rw [hg]; rfl
      | some r => unfold totalsEntry dgetD; rw [hg]; rfl
    have hndrow : NDK (dgetD s.totals EX ([] : List (String × Rat))) := by
      cases hg : dget s.totals EX with
      | none =>
        rw [show dgetD s.totals EX ([] : List (String × Rat)) = [] from by
          unfold dgetD; rw [hg]; rfl]
        exact NDK_nil
      | some r =>
        rw [show dgetD s.totals EX ([] : List (String × Rat)) = r from by
          unfold dgetD; rw [hg]; rfl]
        exact hinv.ndRows EX r hg
    have hexBGood : ∀ b ∈ dgetD s.bags EX ([] : List Bag),
        0 < b.amount ∧ b.cost_currency = s.currency ∧
        pyUpper b.currency = b.currency := by
      cases hg : dget s.bags EX with
      | none =>
        rw [show dgetD s.bags EX ([] : List Bag) = [] from by
          unfold dgetD; rw [hg]; rfl]
        intro b hb
        exact absurd hb (by simp)
      | some bs =>
        rw [show dgetD s.bags EX ([] : List Bag) = bs from by
          unfold dgetD; rw [hg]; rfl]
        exact hinv.bagsGood EX bs hg
    have hbagcur : (mkBag (s.num_created_bags + 1) dtime currency amount
        s.currency cost).currency = currency := by
      show pyUpper currency = currency
      exact hwf
    have hkey : dgetD (dgetD s.totals EX ([] : List (String × Rat))) currency 0
        = rowSum (dgetD s.bags EX []) currency := by
      cases hg : dget (dgetD s.totals EX ([] : List (String × Rat))) currency with
      | none =>
        have h0 := (hinv.exMatch EX currency hEXt).2
          (by rw [← hentEq currency]; exact hg)
        rw [show dgetD (dgetD s.totals EX ([] : List (String × Rat))) currency 0
            = (dget (dgetD s.totals EX []) currency).getD 0 from rfl, hg]
        exact h0.symm
      | some w =>
        have h0 := (hinv.exMatch EX currency hEXt).1 w
          (by rw [← hentEq currency]; exact hg)
        rw [show dgetD (dgetD s.totals EX ([] : List (String × Rat))) currency 0
            = (dget (dgetD s.totals EX []) currency).getD 0 from rfl, hg]
        exact h0.1
    have hsumAppend : ∀ c0, rowSum (dgetD s.bags EX []
          ++ [mkBag (s.num_created_bags + 1) dtime currency amount
                s.currency cost]) c0
        = rowSum (dgetD s.bags EX []) c0
          + (if c0 = currency then amount else 0) := by
      intro c0
      rw [rowSum_append, rowSum_cons, rowSum_nil, hbagcur]
      by_cases hc0 : c0 = currency
      · rw [if_pos hc0, if_pos hc0.symm]
        show rowSum (dgetD s.bags EX []) c0
            + ((mkBag (s.num_created_bags + 1) dtime currency amount
                s.currency cost).amount + 0)
          = rowSum (dgetD s.bags EX []) c0 + amount
        rw [show (mkBag (s.num_created_bags + 1) dtime currency amount
            s.currency cost).amount = amount from rfl]
        ring
      · rw [if_neg hc0, if_neg (fun hcc => hc0 hcc.symm)]
        ring
    refine ⟨?_, rfl, rfl⟩
    refine EngineInv.updateEx s _ hinv EX hEXt
      (some (dgetD s.bags EX []
        ++ [mkBag (s.num_created_bags + 1) dtime currency amount
              s.currency cost]))
      (some (dset (dgetD s.totals EX []) currency
        (dgetD (dgetD s.totals EX []) currency 0 + amount)))
      rfl rfl (dget_dset_self _ _ _)
      (fun ex0 hne => dget_dset_ne _ _ _ _ (Ne.symm hne))
      (dget_dset_self _ _ _)
      (fun ex0 hne => dget_dset_ne _ _ _ _ (Ne.symm hne))
      (NDK_dset _ _ _ hinv.ndBags) (NDK_dset _ _ _ hinv.ndTot) hinv.ndTrans
      ?_ ?_ ?_ ?_ ?_
    · intro r hr
      rw [← Option.some.inj hr]
      exact NDK_dset _ _ _ hndrow
    · intro r hr
      rw [← Option.some.inj hr]
      exact dset_ne_nil _ _ _
    · intro bs hbs
      rw [← Option.some.inj hbs]
      simp
    · intro bs hbs
      rw [← Option.some.inj hbs]
      intro b hb
      rcases List.mem_append.mp hb with h1 | h1
      · exact hexBGood b h1
      · rw [List.mem_singleton.mp h1]
        refine ⟨hamt, ?_, ?_⟩
        · show pyUpper s.currency = s.currency
          exact hinv.baseFix
        · show pyUpper (pyUpper currency) = pyUpper currency
          rw [hwf]
          exact hwf
    · intro c0
      rw [show ((some (dgetD s.bags EX []
          ++ [mkBag (s.num_created_bags + 1) dtime currency amount
                s.currency cost])).getD [] : List Bag)
        = dgetD s.bags EX []
          ++ [mkBag (s.num_created_bags + 1) dtime currency amount
                s.currency cost] from rfl]
      rw [hsumAppend c0]
      by_cases hc0 : c0 = currency
      · subst hc0
        rw [show (some (dset (dgetD s.totals EX []) c0
            (dgetD (dgetD s.totals EX []) c0 0 + amount))).bind
              (fun r => dget r c0)
            = dget (dset (dgetD s.totals EX []) c0
                (dgetD (dgetD s.totals EX []) c0 0 + amount)) c0 from rfl]
        rw [dget_dset_self]
        have hnn := rowSum_nonneg (dgetD s.bags EX []) c0
          (fun b hb => (hexBGood b hb).1)
        refine ⟨fun v hv => ?_, fun hv => absurd hv (by simp)⟩
        rw [← Option.some.inj hv, hkey, if_pos rfl]
        exact ⟨rfl, by linarith⟩
      · rw [show (some (dset (dgetD s.totals EX []) currency
            (dgetD (dgetD s.totals EX []) currency 0 + amount))).bind
              (fun r => dget r c0)
            = dget (dset (dgetD s.totals EX []) currency
                (dgetD (dgetD s.totals EX []) currency 0 + amount)) c0 from rfl]
        rw [dget_dset_ne _ _ _ _ (Ne.symm hc0), if_neg hc0, hentEq c0]
        constructor
        · intro v hv
          have h0 := (hinv.exMatch EX c0 hEXt).1 v hv
          refine ⟨?_, h0.2⟩
          rw [h0.1]
          ring
        · intro hv
          have h0 := (hinv.exMatch EX c0 hEXt).2 hv
          rw [h0]
          ring

/-- Inversion of a successful `withdraw`. -/
theorem withdraw_ok_shape (rel : RateRel) (dtime : DT) (currency : String)
    (amount fee : Rat) (exchange : String) (s s' : BagFIFO)
    (h : withdraw rel dtime currency amount fee exchange s = .ok s') :
    (dtime.aware = true ∧ ¬ dtime.utc < s.last_date.utc) ∧
    ((amount ≤ 0 ∧ s' = { s with last_date := dtime.toUTC }) ∨
     (0 < amount ∧ currency ≠ s.currency ∧
      ∃ row s2,
        dget s.totals (pyCapitalize exchange) = some row ∧
        amount ≤ dgetD row currency 0 ∧
        ((fee > 0 ∧ ∃ res2 pr,
            pay rel dtime currency fee (pyCapitalize exchange) 1 none
                "withdrawal fee" "" 0 { s with last_date := dtime.toUTC }
              = .ok (some pr, res2) ∧
            s2 = addProfit res2 dtime pr.1) ∨
         (¬ fee > 0 ∧ s2 = { s with last_date := dtime.toUTC })) ∧
        ∃ srcBags,
          dget s2.bags (pyCapitalize exchange) = some srcBags ∧
          ¬ (srcBags = [] ∧ amount - fee > 0) ∧
          ∃ mv s3,
            mv = moveBags currency srcBags (amount - fee) s2.num_created_bags ∧
            mv.2.2.1 = 0 ∧
            s3 = { s2 with
                      bags := dset s2.bags (pyCapitalize exchange) mv.1,
                      in_transit := dset s2.in_transit currency
                                      (dgetD s2.in_transit currency [] ++ mv.2.1),
                      num_created_bags := mv.2.2.2 } ∧
            ∃ s4,
              ((dgetD row currency 0 - amount = 0 ∧
                ∃ row2,
                  dget s2.totals (pyCapitalize exchange) = some row2 ∧
                  dmem row2 currency = true ∧
                  s4 = { s3 with
                            totals := if ddel row2 currency = [] then
                                        ddel s3.totals (pyCapitalize exchange)
                                      else
                                        dset s3.totals (pyCapitalize exchange)
                                          (ddel row2 currency),
                            bags := if dgetD s3.bags (pyCapitalize exchange) []
                                        = [] then
                                      ddel s3.bags (pyCapitalize exchange)
                                    else s3.bags }) ∨
               (dgetD row currency 0 - amount ≠ 0 ∧
                s4 = { s3 with
                          totals := dset s3.totals (pyCapitalize exchange)
                                      (dset (dgetD s3.totals
                                          (pyCapitalize exchange) [])
                                        currency
                                        (dgetD row currency 0 - amount)) })) ∧
              s' = { s4 with
                        totals := dset s4.totals "in_transit"
                                    (dset (dgetD s4.totals "in_transit" [])
                                      currency
                                      (dgetD (dgetD s4.totals "in_transit" [])
                                        currency 0 + amount - fee)) })) := by
  unfold withdraw checkOrder at h
  by_cases haware : dtime.aware
  · rw [if_neg (by simp [haware])] at h
    by_cases horder : dtime.utc < s.last_date.utc
    · rw [if_pos horder] at h
      simp only [Except.bind, bind] at h
      exact absurd h (by simp)
    · rw [if_neg horder] at h
      simp only [Except.bind, bind] at h
      refine ⟨⟨haware, horder⟩, ?_⟩
      by_cases hamt : amount ≤ 0
      · rw [if_pos hamt] at h
        simp only [pure, Except.pure, Except.ok.injEq] at h
        exact Or.inl ⟨hamt, h.symm⟩
      · rw [if_neg hamt] at h
        have hamt' : 0 < amount := not_le.mp hamt
        by_cases hcur : currency = s.currency
        · rw [if_pos hcur] at h
          exact absurd h (by simp [throw, throwThe, MonadExceptOf.throw])
        · rw [if_neg hcur] at h
          cases hrowO : dget s.totals (pyCapitalize exchange) with
          | none =>
            simp only [hrowO] at h
            rw [if_pos hamt'] at h
            exact absurd h (by simp [throw, throwThe, MonadExceptOf.throw])
          | some row =>
            simp only [hrowO] at h
            by_cases hle : amount > dgetD row currency 0
            · rw [if_pos hle] at h
              exact absurd h (by simp [throw, throwThe, MonadExceptOf.throw])
            · rw [if_neg hle] at h
              refine Or.inr ⟨hamt', hcur, ?_⟩
              by_cases hf : fee > 0
              · rw [if_pos hf] at h
                cases hpay : pay rel dtime currency fee (pyCapitalize exchange)
                    1 none "withdrawal fee" "" 0
                    { s with last_date := dtime.toUTC } with
                | error e =>
                  simp only [hpay] at h
                  exact absurd h (by simp [throw, throwThe, MonadExceptOf.throw])
                | ok r =>
                  obtain ⟨r1, res2⟩ := r
                  cases r1 with
                  | none =>
                    simp only [hpay] at h
                    exact absurd h
                      (by simp [throw, throwThe, MonadExceptOf.throw])
                  | some pr =>
                    simp only [hpay, pure, Except.pure] at h
                    set s2c := addProfit res2 dtime pr.1 with hs2c
                    cases hsrc : dget s2c.bags (pyCapitalize exchange) with
                    | none =>
                      simp only [hsrc] at h
                      exact absurd h (by simp [throw, throwThe, MonadExceptOf.throw])
                    | some srcBags =>
                      simp only [hsrc] at h
                      by_cases hie : srcBags = [] ∧ amount - fee > 0
                      · rw [if_pos hie] at h
                        exact absurd h (by simp [throw, throwThe, MonadExceptOf.throw])
                      · rw [if_neg hie] at h
                        by_cases hrem : (moveBags currency srcBags (amount - fee)
                            s2c.num_created_bags).2.2.1 ≠ 0
                        · rw [if_pos hrem] at h
                          exact absurd h (by simp [throw, throwThe, MonadExceptOf.throw])
                        · rw [if_neg hrem] at h
                          push_neg at hrem
                          by_cases hT0 : dgetD row currency 0 - amount = 0
                          · rw [if_pos hT0] at h
                            cases hrow2 : dget s2c.totals (pyCapitalize exchange) with
                            | none =>
                              simp only [hrow2] at h
                              exact absurd h (by simp [throw, throwThe, MonadExceptOf.throw])
                            | some row2 =>
                              simp only [hrow2] at h
                              by_cases hdm : dmem row2 currency = true
                              · rw [if_neg (by simp [hdm])] at h
                                simp only [pure, Except.pure, Except.ok.injEq] at h
                                exact ⟨row, _, rfl, not_lt.mp hle, Or.inl ⟨hf, res2, pr, rfl, rfl⟩, srcBags, hsrc,
                                  hie, _, _, rfl, hrem, rfl, _,
                                  Or.inl ⟨hT0, row2, hrow2, hdm, rfl⟩, h.symm⟩
                              · rw [if_pos (by simp [hdm])] at h
                                exact absurd h (by simp [throw, throwThe, MonadExceptOf.throw])
                          · rw [if_neg hT0] at h
                            simp only [pure, Except.pure, Except.ok.injEq] at h
                            exact ⟨row, _, rfl, not_lt.mp hle, Or.inl ⟨hf, res2, pr, rfl, rfl⟩, srcBags, hsrc,
                              hie, _, _, rfl, hrem, rfl, _,
                              Or.inr ⟨hT0, rfl⟩, h.symm⟩
              · rw [if_neg hf] at h
                simp only [pure, Except.pure] at h
                cases hsrc : dget s.bags (pyCapitalize exchange) with
                | none =>
                  simp only [hsrc] at h
                  exact absurd h (by simp [throw, throwThe, MonadExceptOf.throw])
                | some srcBags =>
                  simp only [hsrc] at h
                  by_cases hie : srcBags = [] ∧ amount - fee > 0
                  · rw [if_pos hie] at h
                    exact absurd h (by simp [throw, throwThe, MonadExceptOf.throw])
                  · rw [if_neg hie] at h
                    by_cases hrem : (moveBags currency srcBags (amount - fee)
                        s.num_created_bags).2.2.1 ≠ 0
                    · rw [if_pos hrem] at h
                      exact absurd h (by simp [throw, throwThe, MonadExceptOf.throw])
                    · rw [if_neg hrem] at h
                      push_neg at hrem
                      by_cases hT0 : dgetD row currency 0 - amount = 0
                      · rw [if_pos hT0] at h
                        cases hrow2 : dget s.totals (pyCapitalize exchange) with
                        | none =>
                          simp only [hrow2] at h
                          exact absurd h (by simp [throw, throwThe, MonadExceptOf.throw])
                        | some row2 =>
                          simp only [hrow2] at h
                          by_cases hdm : dmem row2 currency = true
                          · rw [if_neg (by simp [hdm])] at h
                            simp only [pure, Except.pure, Except.ok.injEq] at h
                            exact ⟨row, _, rfl, not_lt.mp hle, Or.inr ⟨hf, rfl⟩, srcBags, hsrc,
                              hie, _, _, rfl, hrem, rfl, _,
                              Or.inl ⟨hT0, row2, hrow2, hdm, rfl⟩, h.symm⟩
                          · rw [if_pos (by simp [hdm])] at h
                            exact absurd h (by simp [throw, throwThe, MonadExceptOf.throw])
                      · rw [if_neg hT0] at h
                        simp only [pure, Except.pure, Except.ok.injEq] at h
                        exact ⟨row, _, rfl, not_lt.mp hle, Or.inr ⟨hf, rfl⟩, srcBags, hsrc,
                          hie, _, _, rfl, hrem, rfl, _,
                          Or.inr ⟨hT0, rfl⟩, h.symm⟩
  · rw [if_pos (by simp [haware])] at h
    simp only [Except.bind, bind] at h
    exact absurd h (by simp)

/-- Reading through a nested-dict default: `dget (d.get(k, {})) c`
equals the bind of the two lookups. -/
theorem dget_dgetD_nil {κ α β : Type} [DecidableEq κ] [DecidableEq α]
    (d : List (κ × List (α × β))) (k : κ) (c : α) :
    dget (dgetD d k []) c = (dget d k).bind (fun r => dget r c) := by
  unfold dgetD
  cases dget d k <;> rfl

/-- `_move_bags` with a nonpositive request moves nothing. -/
theorem moveBags_nonpos (currency : String) (src : List Bag) (t : Rat) (n : Int)
    (h : t ≤ 0) : moveBags currency src t n = (src, [], t, n) := by
  cases src <;> rw [moveBags, if_pos h]

/-- A successful `withdraw` with a nonnegative fee preserves the engine
invariant. -/
theorem withdraw_inv (rel : RateRel) (dtime : DT) (currency : String)
    (amount fee : Rat) (exchange : String) (s s' : BagFIFO)
    (hinv : EngineInv s) (hfee0 : 0 ≤ fee)
    (h : withdraw rel dtime currency amount fee exchange s = .ok s') :
    EngineInv s' ∧ s'.currency = s.currency := by
  obtain ⟨⟨haware, horder⟩, hsplit⟩ :=
    withdraw_ok_shape rel dtime currency amount fee exchange s s' h
  rcases hsplit with ⟨hamt, hs'⟩ |
    ⟨hamt, hcur, row, s2, hrow, hle, hfeeD, srcBags, hsrc, hie, mv, s3, hmv,
     hrem, hs3, s4, hclean, hs'⟩
  · subst hs'
    exact ⟨EngineInv.congr s _ hinv rfl rfl rfl rfl, rfl⟩
  · set EX := pyCapitalize exchange with hEXdef
    have hEXt : EX ≠ "in_transit" := pyCapitalize_ne_transit exchange
    set T := dgetD row currency 0 with hTdef
    have hTpos : 0 < T := lt_of_lt_of_le hamt hle
    have hrc : dget row currency = some T := by
      cases hg : dget row currency with
      | none =>
        exfalso
        have hz : T = 0 := by rw [hTdef]; unfold dgetD; rw [hg]; rfl
        rw [hz] at hTpos
        exact lt_irrefl 0 hTpos
      | some v =>
        have hv : T = v := by rw [hTdef]; unfold dgetD; rw [hg]; rfl
        rw [hv]
    have hA : EngineInv s2 ∧ s2.currency = s.currency ∧
        s2.in_transit = s.in_transit ∧
        (∀ ex0, ex0 ≠ EX → dget s2.totals ex0 = dget s.totals ex0 ∧
          dget s2.bags ex0 = dget s.bags ex0) ∧
        (∀ c0, c0 ≠ currency → totalsEntry s2 EX c0 = totalsEntry s EX c0) ∧
        totalsEntry s2 EX currency
          = (if T - fee = 0 then none else some (T - fee)) := by
      rcases hfeeD with ⟨hf, res2, pr, hpay, hs2⟩ | ⟨hf, hs2⟩
      · have hinv1 : EngineInv { s with last_date := dtime.toUTC } :=
          EngineInv.congr s _ hinv rfl rfl rfl rfl
        obtain ⟨B1, B2, B3, B4, B5, B6, _⟩ :=
          pay_inv_effect rel dtime currency fee EX 1 none "withdrawal fee" ""
            0 _ (some pr) res2 hinv1 hpay
        rw [hEXdef, pyCapitalize_idem, ← hEXdef] at B4 B5 B6
        have hreadT : readTotal { s with last_date := dtime.toUTC }
            EX currency = T := by
          show readTotal s EX currency = T
          unfold readTotal
          rw [hrow]
        rw [hreadT] at B6
        subst hs2
        exact ⟨EngineInv.congr res2 _ B1 rfl rfl rfl rfl, B2, B3, B4, B5, B6 hf⟩
      · have hfz : fee = 0 := le_antisymm (not_lt.mp hf) hfee0
        subst hs2
        have hentC : totalsEntry { s with last_date := dtime.toUTC }
            EX currency = some T := by
          show totalsEntry s EX currency = some T
          unfold totalsEntry
          rw [hrow]
          exact hrc
        refine ⟨EngineInv.congr s _ hinv rfl rfl rfl rfl, rfl, rfl,
          fun ex0 _ => ⟨rfl, rfl⟩, fun c0 _ => rfl, ?_⟩
        rw [hfz, sub_zero, if_neg (fun hc => absurd hc (ne_of_gt hTpos))]
        exact hentC
    obtain ⟨hinv2, hcur2, htr2, hoth2, hentO2, hentC2⟩ := hA
    have hsrcGood := hinv2.bagsGood EX srcBags hsrc
    have hsrcPos : ∀ b ∈ srcBags, 0 < b.amount := fun b hb => (hsrcGood b hb).1
    have hdgb2 : dgetD s2.bags EX ([] : List Bag) = srcBags := by
      unfold dgetD; rw [hsrc]; rfl
    have hsum2 : rowSum srcBags currency = T - fee := by
      by_cases htf : T - fee = 0
      · rw [if_pos htf] at hentC2
        have h0 := (hinv2.exMatch EX currency hEXt).2 hentC2
        rw [hdgb2] at h0
        rw [h0, htf]
      · rw [if_neg htf] at hentC2
        have h0 := (hinv2.exMatch EX currency hEXt).1 _ hentC2
        rw [hdgb2] at h0
        exact h0.1.symm
    have hfa : fee ≤ amount := by
      by_contra hc
      push_neg at hc
      have hneg : amount - fee ≤ 0 := by linarith
      rw [hmv, moveBags_nonpos currency srcBags _ _ hneg] at hrem
      simp only [] at hrem
      linarith
    have hF : rowSum mv.1 currency = T - amount ∧
        (∀ c0, c0 ≠ currency → rowSum mv.1 c0 = rowSum srcBags c0) ∧
        rowSum mv.2.1 currency = amount - fee ∧
        (∀ b' ∈ mv.1, 0 < b'.amount ∧ b'.cost_currency = s2.currency ∧
          pyUpper b'.currency = b'.currency) ∧
        (∀ b' ∈ mv.2.1, 0 < b'.amount ∧ b'.cost_currency = s2.currency ∧
          b'.currency = currency) := by
      by_cases hmz : amount - fee ≤ 0
      · have hz : amount - fee = 0 := le_antisymm hmz (by linarith)
        have hmv1 : mv = (srcBags, [], amount - fee, s2.num_created_bags) := by
          rw [hmv, moveBags_nonpos currency srcBags _ _ hmz]
        rw [hmv1]
        refine ⟨?_, fun c0 _ => rfl, ?_, hsrcGood, by simp⟩
        · show rowSum srcBags currency = T - amount
          rw [hsum2, show amount = fee from by linarith]
        · show rowSum [] currency = amount - fee
          rw [rowSum_nil, hz]
      · push_neg at hmz
        obtain ⟨e1, e2, e3, e4, e5, e6, e7⟩ :=
          moveBags_effects currency s2.currency srcBags (amount - fee)
            s2.num_created_bags (le_of_lt hmz) hsrcGood hinv2.baseFix
        rw [← hmv] at e1 e2 e3 e4 e5 e6 e7
        rw [hrem] at e3 e5
        refine ⟨?_, e4, ?_, e7, e6⟩
        · rw [e3, hsum2]
          ring
        · rw [e5]
          ring
    obtain ⟨F1, F2, F3, F4, F5⟩ := hF
    have htlGood : ∀ b ∈ dgetD s2.in_transit currency ([] : List Bag),
        0 < b.amount ∧ b.cost_currency = s2.currency ∧ b.currency = currency := by
      cases hg : dget s2.in_transit currency with
      | none =>
        rw [show dgetD s2.in_transit currency ([] : List Bag) = [] from by
          unfold dgetD; rw [hg]; rfl]
        intro b hb
        exact absurd hb (by simp)
      | some bs =>
        rw [show dgetD s2.in_transit currency ([] : List Bag) = bs from by
          unfold dgetD; rw [hg]; rfl]
        exact hinv2.transGood currency bs hg
    have htlSum : dgetD (dgetD s2.totals "in_transit" []) currency 0
        = rowSum (dgetD s2.in_transit currency []) currency := by
      cases hg : dget (dgetD s2.totals "in_transit"
          ([] : List (String × Rat))) currency with
      | none =>
        have hgE : totalsEntry s2 "in_transit" currency = none := by
          unfold totalsEntry; rw [← dget_dgetD_nil]; exact hg
        have h0 := (hinv2.trMatch currency).2 hgE
        rw [show dgetD (dgetD s2.totals "in_transit" ([] : List (String × Rat)))
              currency 0
            = (dget (dgetD s2.totals "in_transit" []) currency).getD 0 from rfl,
          hg, h0, rowSum_nil]
        rfl
      | some v =>
        have hgE : totalsEntry s2 "in_transit" currency = some v := by
          unfold totalsEntry; rw [← dget_dgetD_nil]; exact hg
        have h0 := (hinv2.trMatch currency).1 v hgE
        rw [show dgetD (dgetD s2.totals "in_transit" ([] : List (String × Rat)))
              currency 0
            = (dget (dgetD s2.totals "in_transit" []) currency).getD 0 from rfl,
          hg]
        exact h0
    have h3b : s3.bags = dset s2.bags EX mv.1 := by rw [hs3]
    have h3t : s3.totals = s2.totals := by rw [hs3]
    have h3i : s3.in_transit = dset s2.in_transit currency
        (dgetD s2.in_transit currency [] ++ mv.2.1) := by rw [hs3]
    have h3c : s3.currency = s2.currency := by rw [hs3]
    have final : ∀ s4x : BagFIFO,
        EngineInv { s4x with in_transit := s2.in_transit } →
        dget s4x.totals "in_transit" = dget s2.totals "in_transit" →
        s4x.currency = s2.currency →
        s4x.in_transit = dset s2.in_transit currency
          (dgetD s2.in_transit currency [] ++ mv.2.1) →
        EngineInv { s4x with
                    totals := dset s4x.totals "in_transit"
                                (dset (dgetD s4x.totals "in_transit" []) currency
                                  (dgetD (dgetD s4x.totals "in_transit" [])
                                    currency 0 + amount - fee)) } := by
      intro s4x hmid h4t h4c h4i
      have hndtrRow : NDK (dgetD s4x.totals "in_transit"
          ([] : List (String × Rat))) := by
        cases hg : dget s4x.totals "in_transit" with
        | none =>
          rw [show dgetD s4x.totals "in_transit" ([] : List (String × Rat)) = []
            from by unfold dgetD; rw [hg]; rfl]
          exact NDK_nil
        | some r =>
          rw [show dgetD s4x.totals "in_transit" ([] : List (String × Rat)) = r
            from by unfold dgetD; rw [hg]; rfl]
          exact hmid.ndRows "in_transit" r hg
      have htr4 : dgetD s4x.totals "in_transit" ([] : List (String × Rat))
          = dgetD s2.totals "in_transit" [] := by
        unfold dgetD; rw [h4t]
      refine EngineInv.updateTransit { s4x with in_transit := s2.in_transit } _
        hmid currency
        (some (dgetD s2.in_transit currency [] ++ mv.2.1))
        (some (dgetD (dgetD s4x.totals "in_transit" []) currency 0
          + amount - fee))
        rfl rfl ?_ ?_ ?_ ?_ ?_ ?_ ?_ ?_ ?_ ?_ ?_
      · show dget s4x.in_transit currency = _
        rw [h4i]
        exact dget_dset_self _ _ _
      · intro c0 hc0
        show dget s4x.in_transit c0 = dget s2.in_transit c0
        rw [h4i]
        exact dget_dset_ne _ _ _ _ (Ne.symm hc0)
      · intro ex0 hex0
        show dget (dset s4x.totals "in_transit" _) ex0 = dget s4x.totals ex0
        exact dget_dset_ne _ _ _ _ (Ne.symm hex0)
      · simp only [totalsEntry]
        rw [dget_dset_self]
        show dget (dset (dgetD s4x.totals "in_transit" []) currency
            (dgetD (dgetD s4x.totals "in_transit" []) currency 0
              + amount - fee)) currency = _
        exact dget_dset_self _ _ _
      · intro c0 hc0
        simp only [totalsEntry]
        rw [dget_dset_self]
        show dget (dset (dgetD s4x.totals "in_transit" []) currency
            (dgetD (dgetD s4x.totals "in_transit" []) currency 0
              + amount - fee)) c0 = _
        rw [dget_dset_ne _ _ _ _ (Ne.symm hc0)]
        exact dget_dgetD_nil _ _ _
      · show NDK (dset s4x.totals "in_transit" _)
        exact NDK_dset _ _ _ hmid.ndTot
      · show NDK s4x.in_transit
        rw [h4i]
        exact NDK_dset _ _ _ hinv2.ndTrans
      · intro rowx hrowx
        rw [show dget ({ s4x with
              totals := dset s4x.totals "in_transit"
                (dset (dgetD s4x.totals "in_transit" []) currency
                  (dgetD (dgetD s4x.totals "in_transit" []) currency 0
                    + amount - fee)) } : BagFIFO).totals "in_transit"
            = some (dset (dgetD s4x.totals "in_transit" []) currency
                (dgetD (dgetD s4x.totals "in_transit" []) currency 0
                  + amount - fee))
          from dget_dset_self _ _ _] at hrowx
        rw [← Option.some.inj hrowx]
        exact ⟨NDK_dset _ _ _ hndtrRow, dset_ne_nil _ _ _⟩
      · intro bs hbs
        rw [← Option.some.inj hbs]
        intro b hb
        rcases List.mem_append.mp hb with h1 | h1
        · obtain ⟨g1, g2, g3⟩ := htlGood b h1
          refine ⟨g1, ?_, g3⟩
          show b.cost_currency = s4x.currency
          rw [h4c]
          exact g2
        · obtain ⟨g1, g2, g3⟩ := F5 b h1
          refine ⟨g1, ?_, g3⟩
          show b.cost_currency = s4x.currency
          rw [h4c]
          exact g2
      · intro v hv
        rw [← Option.some.inj hv]
        show dgetD (dgetD s4x.totals "in_transit" []) currency 0 + amount - fee
          = rowSum (dgetD s2.in_transit currency [] ++ mv.2.1) currency
        rw [rowSum_append, F3, htr4, htlSum]
        ring
      · intro hv
        exact absurd hv (by simp)
    rcases hclean with ⟨hT0, row2, hrow2, hdm, hs4⟩ | ⟨hT0, hs4⟩
    · -- total - amount = 0: entry deleted, bags possibly deleted
      have hndrow2 : NDK row2 := hinv2.ndRows EX row2 hrow2
      have hcond : dgetD s3.bags EX ([] : List Bag) = mv.1 := by
        rw [h3b]
        unfold dgetD
        rw [dget_dset_self]
        rfl
      have h4b : s4.bags = (if mv.1 = [] then ddel s3.bags EX else s3.bags) := by
        rw [hs4]
        show (if dgetD s3.bags EX ([] : List Bag) = [] then ddel s3.bags EX
          else s3.bags) = _
        rw [hcond]
      have h4tot : s4.totals = (if ddel row2 currency = [] then
          ddel s3.totals EX else dset s3.totals EX (ddel row2 currency)) := by
        rw [hs4]
      have h4c : s4.currency = s2.currency := by rw [hs4]; exact h3c
      have h4i : s4.in_transit = dset s2.in_transit currency
          (dgetD s2.in_transit currency [] ++ mv.2.1) := by
        rw [hs4]
        exact h3i
      have hndb3 : NDK s3.bags := by
        rw [h3b]
        exact NDK_dset _ _ _ hinv2.ndBags
      have hrow2E : ∀ c0, dget row2 c0 = totalsEntry s2 EX c0 := by
        intro c0
        unfold totalsEntry
        rw [hrow2]
        rfl
      have hbEx : dget s4.bags EX
          = (if mv.1 = [] then none else some mv.1) := by
        rw [h4b]
        by_cases hb0 : mv.1 = []
        · rw [if_pos hb0, if_pos hb0]
          exact dget_ddel_self _ _ hndb3
        · rw [if_neg hb0, if_neg hb0, h3b]
          exact dget_dset_self _ _ _
      have hbO : ∀ ex0, ex0 ≠ EX → dget s4.bags ex0 = dget s2.bags ex0 := by
        intro ex0 hne
        rw [h4b]
        by_cases hb0 : mv.1 = []
        · rw [if_pos hb0, dget_ddel_ne _ _ _ (Ne.symm hne), h3b]
          exact dget_dset_ne _ _ _ _ (Ne.symm hne)
        · rw [if_neg hb0, h3b]
          exact dget_dset_ne _ _ _ _ (Ne.symm hne)
      have htEx : dget s4.totals EX
          = (if ddel row2 currency = [] then none
             else some (ddel row2 currency)) := by
        rw [h4tot]
        by_cases hd0 : ddel row2 currency = []
        · rw [if_pos hd0, if_pos hd0, h3t]
          exact dget_ddel_self _ _ hinv2.ndTot
        · rw [if_neg hd0, if_neg hd0, h3t]
          exact dget_dset_self _ _ _
      have htO : ∀ ex0, ex0 ≠ EX → dget s4.totals ex0 = dget s2.totals ex0 := by
        intro ex0 hne
        rw [h4tot]
        by_cases hd0 : ddel row2 currency = []
        · rw [if_pos hd0, h3t]
          exact dget_ddel_ne _ _ _ (Ne.symm hne)
        · rw [if_neg hd0, h3t]
          exact dget_dset_ne _ _ _ _ (Ne.symm hne)
      have hmid : EngineInv { s4 with in_transit := s2.in_transit } := by
        refine EngineInv.updateEx s2 _ hinv2 EX hEXt
          (if mv.1 = [] then none else some mv.1)
          (if ddel row2 currency = [] then none
           else some (ddel row2 currency))
          h4c rfl hbEx hbO htEx htO ?_ ?_ hinv2.ndTrans ?_ ?_ ?_ ?_ ?_
        · show NDK s4.bags
          rw [h4b]
          by_cases hb0 : mv.1 = []
          · rw [if_pos hb0]
            exact NDK_ddel _ _ hndb3
          · rw [if_neg hb0]
            exact hndb3
        · show NDK s4.totals
          rw [h4tot]
          by_cases hd0 : ddel row2 currency = []
          · rw [if_pos hd0, h3t]
            exact NDK_ddel _ _ hinv2.ndTot
          · rw [if_neg hd0, h3t]
            exact NDK_dset _ _ _ hinv2.ndTot
        · intro r hr
          by_cases hd0 : ddel row2 currency = []
          · rw [if_pos hd0] at hr
            exact absurd hr (by simp)
          · rw [if_neg hd0] at hr
            rw [← Option.some.inj hr]
            exact NDK_ddel _ _ hndrow2
        · intro r hr
          by_cases hd0 : ddel row2 currency = []
          · rw [if_pos hd0] at hr
            exact absurd hr (by simp)
          · rw [if_neg hd0] at hr
            rw [← Option.some.inj hr]
            exact hd0
        · intro bs hbs
          by_cases hb0 : mv.1 = []
          · rw [if_pos hb0] at hbs
            exact absurd hbs (by simp)
          · rw [if_neg hb0] at hbs
            rw [← Option.some.inj hbs]
            exact hb0
        · intro bs hbs
          by_cases hb0 : mv.1 = []
          · rw [if_pos hb0] at hbs
            exact absurd hbs (by simp)
          · rw [if_neg hb0] at hbs
            rw [← Option.some.inj hbs]
            exact F4
        · intro c0
          have hnbg : ((if mv.1 = [] then none else some mv.1).getD []
              : List Bag) = mv.1 := by
            by_cases hb0 : mv.1 = []
            · rw [if_pos hb0, hb0]
              rfl
            · rw [if_neg hb0]
              rfl
          rw [hnbg]
          by_cases hc0 : c0 = currency
          · subst hc0
            have hrowC : (if ddel row2 c0 = []
                then (none : Option (List (String × Rat)))
                else some (ddel row2 c0)).bind (fun r => dget r c0) = none := by
              by_cases hd0 : ddel row2 c0 = []
              · rw [if_pos hd0]
                rfl
              · rw [if_neg hd0]
                exact dget_ddel_self _ _ hndrow2
            rw [hrowC]
            refine ⟨fun v hv => absurd hv (by simp), fun _ => ?_⟩
            rw [F1]
            exact hT0
          · have hrowO : (if ddel row2 currency = []
                then (none : Option (List (String × Rat)))
                else some (ddel row2 currency)).bind (fun r => dget r c0)
                = dget row2 c0 := by
              by_cases hd0 : ddel row2 currency = []
              · rw [if_pos hd0]
                exact (ddel_eq_nil_dget row2 currency c0 hd0 hc0).symm
              · rw [if_neg hd0]
                exact dget_ddel_ne _ _ _ (Ne.symm hc0)
            rw [hrowO, hrow2E c0, F2 c0 hc0]
            constructor
            · intro v hv
              have h0 := (hinv2.exMatch EX c0 hEXt).1 v hv
              rw [hdgb2] at h0
              exact h0
            · intro hv
              have h0 := (hinv2.exMatch EX c0 hEXt).2 hv
              rw [hdgb2] at h0
              exact h0
      have h4t : dget s4.totals "in_transit" = dget s2.totals "in_transit" :=
        htO "in_transit" (Ne.symm hEXt)
      refine ⟨?_, ?_⟩
      · rw [hs']
        exact final s4 hmid h4t h4c h4i
      · rw [hs']
        show s4.currency = s.currency
        rw [h4c]
        exact hcur2
    · -- total - amount ≠ 0: entry rewritten in place
      obtain ⟨row2, hrow2⟩ : ∃ r, dget s2.totals EX = some r := by
        cases hg : dget s2.totals EX with
        | none =>
          exfalso
          have hE : totalsEntry s2 EX currency = none := by
            unfold totalsEntry; rw [hg]; rfl
          rw [hE] at hentC2
          by_cases htf : T - fee = 0
          · have : amount = fee := le_antisymm (by linarith) hfa
            rw [this] at hT0
            exact hT0 htf
          · rw [if_neg htf] at hentC2
            exact Option.noConfusion hentC2
        | some r => exact ⟨r, rfl⟩
      have hndrow2 : NDK row2 := hinv2.ndRows EX row2 hrow2
      have hdg2t : dgetD s2.totals EX ([] : List (String × Rat)) = row2 := by
        unfold dgetD; rw [hrow2]; rfl
      have hrow2E : ∀ c0, dget row2 c0 = totalsEntry s2 EX c0 := by
        intro c0
        unfold totalsEntry
        rw [hrow2]
        rfl
      have hb1 : mv.1 ≠ [] :=
        rowSum_ne_nil mv.1 currency (by rw [F1]; exact hT0)
      have h4b : s4.bags = dset s2.bags EX mv.1 := by
        rw [hs4]
        exact h3b
      have h4tot : s4.totals
          = dset s2.totals EX (dset row2 currency (T - amount)) := by
        rw [hs4]
        show dset s3.totals EX
            (dset (dgetD s3.totals EX []) currency (T - amount)) = _
        rw [h3t, hdg2t]
      have h4c : s4.currency = s2.currency := by rw [hs4]; exact h3c
      have h4i : s4.in_transit = dset s2.in_transit currency
          (dgetD s2.in_transit currency [] ++ mv.2.1) := by
        rw [hs4]
        exact h3i
      have hbEx : dget s4.bags EX = some mv.1 := by
        rw [h4b]
        exact dget_dset_self _ _ _
      have hbO : ∀ ex0, ex0 ≠ EX → dget s4.bags ex0 = dget s2.bags ex0 := by
        intro ex0 hne
        rw [h4b]
        exact dget_dset_ne _ _ _ _ (Ne.symm hne)
      have htEx : dget s4.totals EX = some (dset row2 currency (T - amount)) := by
        rw [h4tot]
        exact dget_dset_self _ _ _
      have htO : ∀ ex0, ex0 ≠ EX → dget s4.totals ex0 = dget s2.totals ex0 := by
        intro ex0 hne
        rw [h4tot]
        exact dget_dset_ne _ _ _ _ (Ne.symm hne)
      have hmid : EngineInv { s4 with in_transit := s2.in_transit } := by
        refine EngineInv.updateEx s2 _ hinv2 EX hEXt
          (some mv.1) (some (dset row2 currency (T - amount)))
          h4c rfl hbEx hbO htEx htO ?_ ?_ hinv2.ndTrans ?_ ?_ ?_ ?_ ?_
        · show NDK s4.bags
          rw [h4b]
          exact NDK_dset _ _ _ hinv2.ndBags
        · show NDK s4.totals
          rw [h4tot]
          exact NDK_dset _ _ _ hinv2.ndTot
        · intro r hr
          rw [← Option.some.inj hr]
          exact NDK_dset _ _ _ hndrow2
        · intro r hr
          rw [← Option.some.inj hr]
          exact dset_ne_nil _ _ _
        · intro bs hbs
          rw [← Option.some.inj hbs]
          exact hb1
        · intro bs hbs
          rw [← Option.some.inj hbs]
          exact F4
        · intro c0
          by_cases hc0 : c0 = currency
          · subst hc0
            rw [show ((some (dset row2 c0 (T - amount))).bind
                  (fun r => dget r c0))
                = dget (dset row2 c0 (T - amount)) c0 from rfl,
              dget_dset_self]
            refine ⟨fun v hv => ?_, fun hv => absurd hv (by simp)⟩
            rw [← Option.some.inj hv]
            show T - amount = rowSum ((some mv.1).getD []) c0 ∧ T - amount ≠ 0
            exact ⟨F1.symm, hT0⟩
          · rw [show ((some (dset row2 currency (T - amount))).bind
                  (fun r => dget r c0))
                = dget (dset row2 currency (T - amount)) c0 from rfl,
              dget_dset_ne _ _ _ _ (Ne.symm hc0), hrow2E c0]
            show (∀ v, totalsEntry s2 EX c0 = some v →
                v = rowSum ((some mv.1).getD []) c0 ∧ v ≠ 0) ∧
              (totalsEntry s2 EX c0 = none →
                rowSum ((some mv.1).getD []) c0 = 0)
            rw [show (((some mv.1).getD []) : List Bag) = mv.1 from rfl,
              F2 c0 hc0]
            constructor
            · intro v hv
              have h0 := (hinv2.exMatch EX c0 hEXt).1 v hv
              rw [hdgb2] at h0
              exact h0
            · intro hv
              have h0 := (hinv2.exMatch EX c0 hEXt).2 hv
              rw [hdgb2] at h0
              exact h0
      have h4t : dget s4.totals "in_transit" = dget s2.totals "in_transit" :=
        htO "in_transit" (Ne.symm hEXt)
      refine ⟨?_, ?_⟩
      · rw [hs']
        exact final s4 hmid h4t h4c h4i
      · rw [hs']
        show s4.currency = s.currency
        rw [h4c]
        exact hcur2

/-- Inverting one monadic bind of a successful `Except` computation. -/
theorem except_bind_ok {α β : Type} (x : Except String α)
    (f : α → Except String β) (b : β) (h : x >>= f = .ok b) :
    ∃ a, x = .ok a ∧ f a = .ok b := by
  cases x with
  | error e =>
    exact absurd h (by simp [Bind.bind, Except.bind])
  | ok a =>
    refine ⟨a, rfl, ?_⟩
    simpa [Bind.bind, Except.bind] using h

/-- Inversion of `_check_order`. -/
theorem checkOrder_ok_inv (s : BagFIFO) (dtime : DT) (x : BagFIFO)
    (h : checkOrder s dtime = .ok x) :
    dtime.aware = true ∧ ¬ dtime.utc < s.last_date.utc ∧
    x = { s with last_date := dtime.toUTC } := by
  unfold checkOrder at h
  by_cases haware : dtime.aware
  · rw [if_neg (by simp [haware])] at h
    by_cases horder : dtime.utc < s.last_date.utc
    · rw [if_pos horder] at h
      exact absurd h (by simp)
    · rw [if_neg horder] at h
      exact ⟨haware, horder, (Except.ok.inj h).symm⟩
  · rw [if_pos (by simp [haware])] at h
    exact absurd h (by simp)

/-- Inversion of a successful `deposit`: the moved/sorted bag state, the
remainder buy, the in-transit totals cleanup and the fee payment, step
by step. -/
theorem deposit_ok_shape (rel : RateRel) (dtime : DT) (currency : String)
    (amount fee : Rat) (exchange : String) (s s' : BagFIFO)
    (h : deposit rel dtime currency amount fee exchange s = .ok s') :
    (dtime.aware = true ∧ ¬ dtime.utc < s.last_date.utc) ∧
    ((amount ≤ 0 ∧ s' = { s with last_date := dtime.toUTC }) ∨
     (0 < amount ∧ currency ≠ s.currency ∧
      ∃ sA,
        ((dmem s.bags (pyCapitalize exchange) = true ∧
            sA = { s with last_date := dtime.toUTC }) ∨
         (¬ dmem s.bags (pyCapitalize exchange) = true ∧
            sA = { s with
                     last_date := dtime.toUTC,
                     bags := dset s.bags (pyCapitalize exchange) [] })) ∧
      ∃ sB remv,
        ((∃ tl, dget s.in_transit currency = some tl ∧
            ¬ (tl = [] ∧ amount > 0) ∧
            remv = (moveBags currency tl amount s.num_created_bags).2.2.1 ∧
            sB = { sA with
                     in_transit := dset s.in_transit currency
                                     (moveBags currency tl amount
                                       s.num_created_bags).1,
                     bags := dset sA.bags (pyCapitalize exchange)
                               (List.mergeSort
                                 (dgetD sA.bags (pyCapitalize exchange) []
                                   ++ (moveBags currency tl amount
                                         s.num_created_bags).2.1)
                                 (fun a b =>
                                   decide (a.dtime.utc ≤ b.dtime.utc))),
                     num_created_bags := (moveBags currency tl amount
                                           s.num_created_bags).2.2.2 }) ∨
         (dget s.in_transit currency = none ∧ remv = amount ∧ sB = sA)) ∧
      ∃ sC,
        ((remv ≠ 0 ∧
            buyWithBaseCurrency dtime remv currency 0 (pyCapitalize exchange)
              sB = .ok sC) ∨
         (¬ remv ≠ 0 ∧ sC = sB)) ∧
      ∃ sD sE,
        sD = (if dmem sC.totals "in_transit" = true then
                (if dmem sC.in_transit currency = true ∧
                     dgetD sC.in_transit currency [] = [] then
                   { sC with
                       totals := if (if dmem (dgetD sC.totals "in_transit" [])
                                         currency = true then
                                       (if dgetD (dgetD sC.totals "in_transit" [])
                                             currency 0 - amount ≤ 0 then
                                          ddel (dgetD sC.totals "in_transit" [])
                                            currency
                                        else
                                          dset (dgetD sC.totals "in_transit" [])
                                            currency
                                            (dgetD (dgetD sC.totals
                                                "in_transit" []) currency 0
                                              - amount))
                                     else dgetD sC.totals "in_transit" []) = []
                                 then ddel sC.totals "in_transit"
                                 else dset sC.totals "in_transit"
                                        (if dmem (dgetD sC.totals
                                              "in_transit" []) currency
                                              = true then
                                           (if dgetD (dgetD sC.totals
                                                 "in_transit" []) currency 0
                                                 - amount ≤ 0 then
                                              ddel (dgetD sC.totals
                                                  "in_transit" []) currency
                                            else
                                              dset (dgetD sC.totals
                                                  "in_transit" []) currency
                                                (dgetD (dgetD sC.totals
                                                    "in_transit" [])
                                                  currency 0 - amount))
                                         else dgetD sC.totals "in_transit" []),
                       in_transit := ddel sC.in_transit currency }
                 else
                   { sC with
                       totals := if (if dmem (dgetD sC.totals "in_transit" [])
                                         currency = true then
                                       (if dgetD (dgetD sC.totals "in_transit" [])
                                             currency 0 - amount ≤ 0 then
                                          ddel (dgetD sC.totals "in_transit" [])
                                            currency
                                        else
                                          dset (dgetD sC.totals "in_transit" [])
                                            currency
                                            (dgetD (dgetD sC.totals
                                                "in_transit" []) currency 0
                                              - amount))
                                     else dgetD sC.totals "in_transit" []) = []
                                 then ddel sC.totals "in_transit"
                                 else dset sC.totals "in_transit"
                                        (if dmem (dgetD sC.totals
                                              "in_transit" []) currency
                                              = true then
                                           (if dgetD (dgetD sC.totals
                                                 "in_transit" []) currency 0
                                                 - amount ≤ 0 then
                                              ddel (dgetD sC.totals
                                                  "in_transit" []) currency
                                            else
                                              dset (dgetD sC.totals
                                                  "in_transit" []) currency
                                                (dgetD (dgetD sC.totals
                                                    "in_transit" [])
                                                  currency 0 - amount))
                                         else dgetD sC.totals
                                                "in_transit" []) })
              else sC) ∧
        sE = { sD with
                 totals := dset sD.totals (pyCapitalize exchange)
                             (dset (dgetD sD.totals (pyCapitalize exchange) [])
                               currency
                               (dgetD (dgetD sD.totals
                                   (pyCapitalize exchange) []) currency 0
                                 + amount - remv)) } ∧
        ((fee > 0 ∧ ∃ res2 pr,
            pay rel dtime currency fee (pyCapitalize exchange) 1 none
              "deposit fee" "" 0 sE = .ok (some pr, res2) ∧
            s' = addProfit res2 dtime pr.1) ∨
         (¬ fee > 0 ∧ s' = sE)))) := by
  unfold deposit at h
  obtain ⟨s1v, hco, h⟩ := except_bind_ok _ _ _ h
  obtain ⟨haware, horder, hs1⟩ := checkOrder_ok_inv s dtime s1v hco
  subst hs1
  try simp only [] at h
  refine ⟨⟨haware, horder⟩, ?_⟩
  by_cases hamt : amount ≤ 0
  · rw [if_pos hamt] at h
    simp only [pure, Except.pure, Except.ok.injEq] at h
    exact Or.inl ⟨hamt, h.symm⟩
  · rw [if_neg hamt] at h
    by_cases hcur : currency = s.currency
    · rw [if_pos hcur] at h
      exact absurd h (by simp [throw, throwThe, MonadExceptOf.throw])
    · rw [if_neg hcur] at h
      refine Or.inr ⟨not_le.mp hamt, hcur, ?_⟩
      by_cases hdm0 : dmem s.bags (pyCapitalize exchange) = true
      · rw [if_pos hdm0] at h
        try simp only [] at h
        cases htl : dget s.in_transit currency with
        | some tl =>
          simp only [htl] at h
          by_cases hg : tl = [] ∧ amount > 0
          · rw [if_pos hg] at h
            exact absurd h
              (by simp [throw, throwThe, MonadExceptOf.throw, Bind.bind, Except.bind])
          · rw [if_neg hg] at h
            obtain ⟨stepv, hpure, h⟩ := except_bind_ok _ _ _ h
            obtain ⟨sBv, remv⟩ := stepv
            simp only [pure, Except.pure, Except.ok.injEq, Prod.mk.injEq] at hpure
            try simp only [] at h
            refine ⟨{ s with last_date := dtime.toUTC },
              Or.inl ⟨hdm0, rfl⟩, sBv, remv,
              Or.inl ⟨tl, rfl, hg, hpure.2.symm, hpure.1.symm⟩, ?_⟩
            by_cases hrem0 : remv ≠ 0
            · rw [if_pos hrem0] at h
              obtain ⟨sCv, hbuy, h⟩ := except_bind_ok _ _ _ h
              try simp only [] at h
              refine ⟨sCv, Or.inl ⟨hrem0, hbuy⟩, ?_⟩
              by_cases hfp : fee > 0
              · rw [if_pos hfp] at h
                obtain ⟨rv, hpay, h⟩ := except_bind_ok _ _ _ h
                obtain ⟨r1v, res2v⟩ := rv
                try simp only [] at h
                cases r1v with
                | none =>
                  exact absurd h
                    (by simp [throw, throwThe, MonadExceptOf.throw])
                | some pr =>
                  simp only [pure, Except.pure, Except.ok.injEq] at h
                  exact ⟨_, _, rfl, rfl, Or.inl ⟨hfp, res2v, pr, hpay, h.symm⟩⟩
              · rw [if_neg hfp] at h
                simp only [pure, Except.pure, Except.ok.injEq] at h
                exact ⟨_, _, rfl, rfl, Or.inr ⟨hfp, h.symm⟩⟩
            · rw [if_neg hrem0] at h
              obtain ⟨sCv, hbuy, h⟩ := except_bind_ok _ _ _ h
              try simp only [] at h
              refine ⟨sCv, Or.inr ⟨hrem0, (Except.ok.inj hbuy).symm⟩, ?_⟩
              by_cases hfp : fee > 0
              · rw [if_pos hfp] at h
                obtain ⟨rv, hpay, h⟩ := except_bind_ok _ _ _ h
                obtain ⟨r1v, res2v⟩ := rv
                try simp only [] at h
                cases r1v with
                | none =>
                  exact absurd h
                    (by simp [throw, throwThe, MonadExceptOf.throw])
                | some pr =>
                  simp only [pure, Except.pure, Except.ok.injEq] at h
                  exact ⟨_, _, rfl, rfl, Or.inl ⟨hfp, res2v, pr, hpay, h.symm⟩⟩
              · rw [if_neg hfp] at h
                simp only [pure, Except.pure, Except.ok.injEq] at h
                exact ⟨_, _, rfl, rfl, Or.inr ⟨hfp, h.symm⟩⟩
        | none =>
          simp only [htl] at h
          obtain ⟨stepv, hpure, h⟩ := except_bind_ok _ _ _ h
          obtain ⟨sBv, remv⟩ := stepv
          simp only [pure, Except.pure, Except.ok.injEq, Prod.mk.injEq] at hpure
          try simp only [] at h
          refine ⟨{ s with last_date := dtime.toUTC },
            Or.inl ⟨hdm0, rfl⟩, sBv, remv,
            Or.inr ⟨rfl, hpure.2.symm, hpure.1.symm⟩, ?_⟩
          by_cases hrem0 : remv ≠ 0
          · rw [if_pos hrem0] at h
            obtain ⟨sCv, hbuy, h⟩ := except_bind_ok _ _ _ h
            try simp only [] at h
            refine ⟨sCv, Or.inl ⟨hrem0, hbuy⟩, ?_⟩
            by_cases hfp : fee > 0
            · rw [if_pos hfp] at h
              obtain ⟨rv, hpay, h⟩ := except_bind_ok _ _ _ h
              obtain ⟨r1v, res2v⟩ := rv
              try simp only [] at h
              cases r1v with
              | none =>
                exact absurd h
                  (by simp [throw, throwThe, MonadExceptOf.throw])
              | some pr =>
                simp only [pure, Except.pure, Except.ok.injEq] at h
                exact ⟨_, _, rfl, rfl, Or.inl ⟨hfp, res2v, pr, hpay, h.symm⟩⟩
            · rw [if_neg hfp] at h
              simp only [pure, Except.pure, Except.ok.injEq] at h
              exact ⟨_, _, rfl, rfl, Or.inr ⟨hfp, h.symm⟩⟩
          · rw [if_neg hrem0] at h
            obtain ⟨sCv, hbuy, h⟩ := except_bind_ok _ _ _ h
            try simp only [] at h
            refine ⟨sCv, Or.inr ⟨hrem0, (Except.ok.inj hbuy).symm⟩, ?_⟩
            by_cases hfp : fee > 0
            · rw [if_pos hfp] at h
              obtain ⟨rv, hpay, h⟩ := except_bind_ok _ _ _ h
              obtain ⟨r1v, res2v⟩ := rv
              try simp only [] at h
              cases r1v with
              | none =>
                exact absurd h
                  (by simp [throw, throwThe, MonadExceptOf.throw])
              | some pr =>
                simp only [pure, Except.pure, Except.ok.injEq] at h
                exact ⟨_, _, rfl, rfl, Or.inl ⟨hfp, res2v, pr, hpay, h.symm⟩⟩
            · rw [if_neg hfp] at h
              simp only [pure, Except.pure, Except.ok.injEq] at h
              exact ⟨_, _, rfl, rfl, Or.inr ⟨hfp, h.symm⟩⟩
      · rw [if_neg hdm0] at h
        try simp only [] at h
        cases htl : dget s.in_transit currency with
        | some tl =>
          simp only [htl] at h
          by_cases hg : tl = [] ∧ amount > 0
          · rw [if_pos hg] at h
            exact absurd h
              (by simp [throw, throwThe, MonadExceptOf.throw, Bind.bind, Except.bind])
          · rw [if_neg hg] at h
            obtain ⟨stepv, hpure, h⟩ := except_bind_ok _ _ _ h
            obtain ⟨sBv, remv⟩ := stepv
            simp only [pure, Except.pure, Except.ok.injEq, Prod.mk.injEq] at hpure
            try simp only [] at h
            refine ⟨{ s with last_date := dtime.toUTC, bags := dset s.bags (pyCapitalize exchange) [] },
              Or.inr ⟨hdm0, rfl⟩, sBv, remv,
              Or.inl ⟨tl, rfl, hg, hpure.2.symm, hpure.1.symm⟩, ?_⟩
            by_cases hrem0 : remv ≠ 0
            · rw [if_pos hrem0] at h
              obtain ⟨sCv, hbuy, h⟩ := except_bind_ok _ _ _ h
              try simp only [] at h
              refine ⟨sCv, Or.inl ⟨hrem0, hbuy⟩, ?_⟩
              by_cases hfp : fee > 0
              · rw [if_pos hfp] at h
                obtain ⟨rv, hpay, h⟩ := except_bind_ok _ _ _ h
                obtain ⟨r1v, res2v⟩ := rv
                try simp only [] at h
                cases r1v with
                | none =>
                  exact absurd h
                    (by simp [throw, throwThe, MonadExceptOf.throw])
                | some pr =>
                  simp only [pure, Except.pure, Except.ok.injEq] at h
                  exact ⟨_, _, rfl, rfl, Or.inl ⟨hfp, res2v, pr, hpay, h.symm⟩⟩
              · rw [if_neg hfp] at h
                simp only [pure, Except.pure, Except.ok.injEq] at h
                exact ⟨_, _, rfl, rfl, Or.inr ⟨hfp, h.symm⟩⟩
            · rw [if_neg hrem0] at h
              obtain ⟨sCv, hbuy, h⟩ := except_bind_ok _ _ _ h
              try simp only [] at h
              refine ⟨sCv, Or.inr ⟨hrem0, (Except.ok.inj hbuy).symm⟩, ?_⟩
              by_cases hfp : fee > 0
              · rw [if_pos hfp] at h
                obtain ⟨rv, hpay, h⟩ := except_bind_ok _ _ _ h
                obtain ⟨r1v, res2v⟩ := rv
                try simp only [] at h
                cases r1v with
                | none =>
                  exact absurd h
                    (by simp [throw, throwThe, MonadExceptOf.throw])
                | some pr =>
                  simp only [pure, Except.pure, Except.ok.injEq] at h
                  exact ⟨_, _, rfl, rfl, Or.inl ⟨hfp, res2v, pr, hpay, h.symm⟩⟩
              · rw [if_neg hfp] at h
                simp only [pure, Except.pure, Except.ok.injEq] at h
                exact ⟨_, _, rfl, rfl, Or.inr ⟨hfp, h.symm⟩⟩
        | none =>
          simp only [htl] at h
          obtain ⟨stepv, hpure, h⟩ := except_bind_ok _ _ _ h
          obtain ⟨sBv, remv⟩ := stepv
          simp only [pure, Except.pure, Except.ok.injEq, Prod.mk.injEq] at hpure
          try simp only [] at h
          refine ⟨{ s with last_date := dtime.toUTC, bags := dset s.bags (pyCapitalize exchange) [] },
            Or.inr ⟨hdm0, rfl⟩, sBv, remv,
            Or.inr ⟨rfl, hpure.2.symm, hpure.1.symm⟩, ?_⟩
          by_cases hrem0 : remv ≠ 0
          · rw [if_pos hrem0] at h
            obtain ⟨sCv, hbuy, h⟩ := except_bind_ok _ _ _ h
            try simp only [] at h
            refine ⟨sCv, Or.inl ⟨hrem0, hbuy⟩, ?_⟩
            by_cases hfp : fee > 0
            · rw [if_pos hfp] at h
              obtain ⟨rv, hpay, h⟩ := except_bind_ok _ _ _ h
              obtain ⟨r1v, res2v⟩ := rv
              try simp only [] at h
              cases r1v with
              | none =>
                exact absurd h
                  (by simp [throw, throwThe, MonadExceptOf.throw])
              | some pr =>
                simp only [pure, Except.pure, Except.ok.injEq] at h
                exact ⟨_, _, rfl, rfl, Or.inl ⟨hfp, res2v, pr, hpay, h.symm⟩⟩
            · rw [if_neg hfp] at h
              simp only [pure, Except.pure, Except.ok.injEq] at h
              exact ⟨_, _, rfl, rfl, Or.inr ⟨hfp, h.symm⟩⟩
          · rw [if_neg hrem0] at h
            obtain ⟨sCv, hbuy, h⟩ := except_bind_ok _ _ _ h
            try simp only [] at h
            refine ⟨sCv, Or.inr ⟨hrem0, (Except.ok.inj hbuy).symm⟩, ?_⟩
            by_cases hfp : fee > 0
            · rw [if_pos hfp] at h
              obtain ⟨rv, hpay, h⟩ := except_bind_ok _ _ _ h
              obtain ⟨r1v, res2v⟩ := rv
              try simp only [] at h
              cases r1v with
              | none =>
                exact absurd h
                  (by simp [throw, throwThe, MonadExceptOf.throw])
              | some pr =>
                simp only [pure, Except.pure, Except.ok.injEq] at h
                exact ⟨_, _, rfl, rfl, Or.inl ⟨hfp, res2v, pr, hpay, h.symm⟩⟩
            · rw [if_neg hfp] at h
              simp only [pure, Except.pure, Except.ok.injEq] at h
              exact ⟨_, _, rfl, rfl, Or.inr ⟨hfp, h.symm⟩⟩


/-- Re-establishing the engine invariant after a simultaneous local
change at one exchange key `EX` (bags and totals row, both present) and
one in-transit currency `c` (bag list binding and totals entry);
everything else is untouched. -/
theorem EngineInv.updateBoth (s s' : BagFIFO) (h : EngineInv s) (EX c : String)
    (hEX : EX ≠ "in_transit")
    (nb : List Bag) (nr : List (String × Rat))
    (ntb : Option (List Bag)) (ntE : Option Rat)
    (hcur : s'.currency = s.currency)
    (hbEx : dget s'.bags EX = some nb)
    (hbO : ∀ ex0, ex0 ≠ EX → dget s'.bags ex0 = dget s.bags ex0)
    (htEx : dget s'.totals EX = some nr)
    (htO : ∀ ex0, ex0 ≠ EX → ex0 ≠ "in_transit" →
      dget s'.totals ex0 = dget s.totals ex0)
    (htrC : dget s'.in_transit c = ntb)
    (htrO : ∀ c0, c0 ≠ c → dget s'.in_transit c0 = dget s.in_transit c0)
    (hentTC : totalsEntry s' "in_transit" c = ntE)
    (hentTO : ∀ c0, c0 ≠ c →
      totalsEntry s' "in_transit" c0 = totalsEntry s "in_transit" c0)
    (htrRows : ∀ rowx, dget s'.totals "in_transit" = some rowx →
      NDK rowx ∧ rowx ≠ [])
    (hndB : NDK s'.bags) (hndT : NDK s'.totals) (hndTr : NDK s'.in_transit)
    (hnrND : NDK nr) (hnrNE : nr ≠ []) (hnbNE : nb ≠ [])
    (hnbGood : ∀ b ∈ nb, 0 < b.amount ∧ b.cost_currency = s.currency ∧
      pyUpper b.currency = b.currency)
    (hmatchEx : ∀ c0, (∀ v, dget nr c0 = some v →
        v = rowSum nb c0 ∧ v ≠ 0) ∧
      (dget nr c0 = none → rowSum nb c0 = 0))
    (hntbGood : ∀ bs, ntb = some bs → ∀ b ∈ bs,
      0 < b.amount ∧ b.cost_currency = s.currency ∧ b.currency = c)
    (hm1 : ∀ v, ntE = some v → v = rowSum (ntb.getD []) c)
    (hm2 : ntE = none → ntb.getD [] = ([] : List Bag)) :
    EngineInv s' := by
  constructor
  · rw [hcur]; exact h.baseFix
  · exact hndB
  · exact hndTr
  · exact hndT
  · intro ex row hrow
    by_cases hx : ex = EX
    · subst hx
      rw [htEx] at hrow
      rw [← Option.some.inj hrow]
      exact hnrND
    · by_cases hx2 : ex = "in_transit"
      · subst hx2
        exact (htrRows row hrow).1
      · rw [htO ex hx hx2] at hrow
        exact h.ndRows ex row hrow
  · intro ex bs hbs
    rw [hcur]
    by_cases hx : ex = EX
    · subst hx
      rw [hbEx] at hbs
      rw [← Option.some.inj hbs]
      exact hnbGood
    · rw [hbO ex hx] at hbs
      exact h.bagsGood ex bs hbs
  · intro c0 bs hbs
    rw [hcur]
    by_cases hx : c0 = c
    · subst hx
      rw [htrC] at hbs
      exact hntbGood bs hbs
    · rw [htrO c0 hx] at hbs
      exact h.transGood c0 bs hbs
  · intro ex bs hbs
    by_cases hx : ex = EX
    · subst hx
      rw [hbEx] at hbs
      rw [← Option.some.inj hbs]
      exact hnbNE
    · rw [hbO ex hx] at hbs
      exact h.bagsNE ex bs hbs
  · intro ex row hrow
    by_cases hx : ex = EX
    · subst hx
      rw [htEx] at hrow
      rw [← Option.some.inj hrow]
      exact hnrNE
    · by_cases hx2 : ex = "in_transit"
      · subst hx2
        exact (htrRows row hrow).2
      · rw [htO ex hx hx2] at hrow
        exact h.rowsNE ex row hrow
  · rw [hbO "in_transit" (Ne.symm hEX)]
    exact h.noTransitBags
  · intro ex c0 hex
    by_cases hx : ex = EX
    · subst hx
      have e1 : totalsEntry s' ex c0 = dget nr c0 := by
        unfold totalsEntry
        rw [htEx]
        rfl
      have e2 : dgetD s'.bags ex ([] : List Bag) = nb := by
        unfold dgetD
        rw [hbEx]
        rfl
      rw [e1, e2]
      exact hmatchEx c0
    · have e1 : totalsEntry s' ex c0 = totalsEntry s ex c0 := by
        unfold totalsEntry
        rw [htO ex hx hex]
      have e2 : dgetD s'.bags ex ([] : List Bag) = dgetD s.bags ex [] := by
        unfold dgetD
        rw [hbO ex hx]
      rw [e1, e2]
      exact h.exMatch ex c0 hex
  · intro c0
    by_cases hx : c0 = c
    · subst hx
      have e2 : dgetD s'.in_transit c0 ([] : List Bag) = ntb.getD [] := by
        unfold dgetD
        rw [htrC]
      rw [hentTC, e2]
      exact ⟨hm1, hm2⟩
    · have e2 : dgetD s'.in_transit c0 ([] : List Bag)
          = dgetD s.in_transit c0 [] := by
        unfold dgetD
        rw [htrO c0 hx]
      rw [hentTO c0 hx, e2]
      exact h.trMatch c0

/-- Under the invariant, the recorded in-transit total of a currency
(read with defaults) equals the summed amount of its in-transit bags. -/
theorem transit_entry_sum (s : BagFIFO) (h : EngineInv s) (c : String) :
    dgetD (dgetD s.totals "in_transit" []) c 0
      = rowSum (dgetD s.in_transit c []) c := by
  cases hg : dget (dgetD s.totals "in_transit"
      ([] : List (String × Rat))) c with
  | none =>
    have hgE : totalsEntry s "in_transit" c = none := by
      unfold totalsEntry; rw [← dget_dgetD_nil]; exact hg
    have h0 := (h.trMatch c).2 hgE
    rw [show dgetD (dgetD s.totals "in_transit" ([] : List (String × Rat))) c 0
        = (dget (dgetD s.totals "in_transit" []) c).getD 0 from rfl, hg, h0,
      rowSum_nil]
    rfl
  | some v =>
    have hgE : totalsEntry s "in_transit" c = some v := by
      unfold totalsEntry; rw [← dget_dgetD_nil]; exact hg
    have h0 := (h.trMatch c).1 v hgE
    rw [show dgetD (dgetD s.totals "in_transit" ([] : List (String × Rat))) c 0
        = (dget (dgetD s.totals "in_transit" []) c).getD 0 from rfl, hg]
    exact h0

/-- Under the invariant, the recorded per-exchange total of a currency
(read with defaults) equals the summed amount of its bags there. -/
theorem exchange_entry_sum (s : BagFIFO) (h : EngineInv s) (ex c : String)
    (hex : ex ≠ "in_transit") :
    dgetD (dgetD s.totals ex []) c 0 = rowSum (dgetD s.bags ex []) c := by
  cases hg : dget (dgetD s.totals ex ([] : List (String × Rat))) c with
  | none =>
    have hgE : totalsEntry s ex c = none := by
      unfold totalsEntry; rw [← dget_dgetD_nil]; exact hg
    have h0 := (h.exMatch ex c hex).2 hgE
    rw [show dgetD (dgetD s.totals ex ([] : List (String × Rat))) c 0
        = (dget (dgetD s.totals ex []) c).getD 0 from rfl, hg, h0]
    rfl
  | some v =>
    have h0 := (h.exMatch ex c hex).1 v
      (by unfold totalsEntry; rw [← dget_dgetD_nil]; exact hg)
    rw [show dgetD (dgetD s.totals ex ([] : List (String × Rat))) c 0
        = (dget (dgetD s.totals ex []) c).getD 0 from rfl, hg]
    exact h0.1

/-- When every source bag carries the moved currency, a nonzero
remainder means the source was completely drained. -/
theorem moveBags_exhaust (currency : String) :
    ∀ (src : List Bag) (t : Rat) (n : Int),
    0 < t → (∀ b ∈ src, b.currency = currency ∧ 0 < b.amount) →
    (moveBags currency src t n).2.2.1 ≠ 0 → (moveBags currency src t n).1 = [] := by
  intro src
  induction src with
  | nil =>
    intro t n ht hall hrem
    rw [moveBags, if_neg (not_le.mpr ht)]
  | cons b rest ih =>
    intro t n ht hall hrem
    rw [moveBags, if_neg (not_le.mpr ht)] at hrem ⊢
    have hbc := (hall b (List.mem_cons_self _ _)).1
    have hba' := (hall b (List.mem_cons_self _ _)).2
    rw [if_neg (by simp [hbc])] at hrem ⊢
    by_cases hba : b.amount ≤ t
    · rw [if_pos hba] at hrem ⊢
      simp only [] at hrem ⊢
      by_cases ht' : 0 < t - b.amount
      · exact ih (t - b.amount) n ht'
          (fun x hx => hall x (List.mem_cons_of_mem _ hx)) hrem
      · exfalso
        push_neg at ht'
        rw [moveBags_nonpos _ _ _ _ ht'] at hrem
        simp only [] at hrem
        exact hrem (le_antisymm ht' (by linarith))
    · rw [if_neg hba] at hrem
      simp only [Bag.spend] at hrem
      exact absurd rfl hrem

/-- A list of positive bags of one currency with zero total is empty. -/
theorem rowSum_zero_of_matchall (bs : List Bag) (c : String)
    (hall : ∀ b ∈ bs, b.currency = c ∧ 0 < b.amount) (h0 : rowSum bs c = 0) :
    bs = [] := by
  cases bs with
  | nil => rfl
  | cons b t =>
    exfalso
    have hp := rowSum_pos_of_match (b :: t) c (fun x hx => (hall x hx).2)
      ⟨b, List.mem_cons_self _ _, (hall b (List.mem_cons_self _ _)).1⟩
    rw [h0] at hp
    exact lt_irrefl 0 hp

/-- A key whose membership test fails reads as `none`. -/
theorem dget_of_not_dmem {κ α : Type} [DecidableEq κ] (d : List (κ × α)) (k : κ)
    (h : ¬ dmem d k = true) : dget d k = none := by
  unfold dmem at h
  cases hg : dget d k with
  | none => rfl
  | some v => rw [hg] at h; exact absurd rfl h

/-- A key whose membership test succeeds reads as its default-read. -/
theorem dget_of_dmem {κ α : Type} [DecidableEq κ] (d : List (κ × α)) (k : κ)
    (dflt : α) (h : dmem d k = true) : dget d k = some (dgetD d k dflt) := by
  unfold dmem at h
  cases hg : dget d k with
  | none => rw [hg] at h; exact absurd h (by simp)
  | some v => unfold dgetD; rw [hg]; rfl

/-- `dgetD` after `dset` at the same key. -/
theorem dgetD_dset_self {κ α : Type} [DecidableEq κ] (d : List (κ × α))
    (k : κ) (v dflt : α) : dgetD (dset d k v) k dflt = v := by
  unfold dgetD
  rw [dget_dset_self]
  rfl

/-- `dgetD` after `dset` at a different key. -/
theorem dgetD_dset_ne {κ α : Type} [DecidableEq κ] (d : List (κ × α))
    (k k' : κ) (v dflt : α) (h : k ≠ k') :
    dgetD (dset d k v) k' dflt = dgetD d k' dflt := by
  unfold dgetD
  rw [dget_dset_ne _ _ _ _ h]

/-- `dgetD` after `ddel` at a different key. -/
theorem dgetD_ddel_ne {κ α : Type} [DecidableEq κ] (d : List (κ × α))
    (k k' : κ) (dflt : α) (h : k ≠ k') :
    dgetD (ddel d k) k' dflt = dgetD d k' dflt := by
  unfold dgetD
  rw [dget_ddel_ne _ _ _ h]

/-- A successful `deposit` with an upper-case currency code and a
nonnegative fee preserves the engine invariant. -/
theorem deposit_inv (rel : RateRel) (dtime : DT) (currency : String)
    (amount fee : Rat) (exchange : String) (s s' : BagFIFO)
    (hinv : EngineInv s) (hwfc : pyUpper currency = currency) (hfee0 : 0 ≤ fee)
    (h : deposit rel dtime currency amount fee exchange s = .ok s') :
    EngineInv s' ∧ s'.currency = s.currency := by
  obtain ⟨⟨haware, horder⟩, hsplit⟩ :=
    deposit_ok_shape rel dtime currency amount fee exchange s s' h
  rcases hsplit with ⟨hamt0, hs'⟩ |
    ⟨hamt, hcur, sA, hsAdisj, sB, remv, hstep, sC, hbuy, sD, sE, hsD, hsE,
     hfeeD⟩
  · subst hs'
    exact ⟨EngineInv.congr s _ hinv rfl rfl rfl rfl, rfl⟩
  · set EX := pyCapitalize exchange with hEXdef
    have hEXt : EX ≠ "in_transit" := pyCapitalize_ne_transit exchange
    have hOLDgood : ∀ b ∈ dgetD s.bags EX ([] : List Bag),
        0 < b.amount ∧ b.cost_currency = s.currency ∧
        pyUpper b.currency = b.currency := by
      cases hg : dget s.bags EX with
      | none =>
        rw [show dgetD s.bags EX ([] : List Bag) = [] from by
          unfold dgetD; rw [hg]; rfl]
        intro b hb
        exact absurd hb (by simp)
      | some bs =>
        rw [show dgetD s.bags EX ([] : List Bag) = bs from by
          unfold dgetD; rw [hg]; rfl]
        exact hinv.bagsGood EX bs hg
    have hndOldRow : NDK (dgetD s.totals EX ([] : List (String × Rat))) := by
      cases hg : dget s.totals EX with
      | none =>
        rw [show dgetD s.totals EX ([] : List (String × Rat)) = [] from by
          unfold dgetD; rw [hg]; rfl]
        exact NDK_nil
      | some r =>
        rw [show dgetD s.totals EX ([] : List (String × Rat)) = r from by
          unfold dgetD; rw [hg]; rfl]
        exact hinv.ndRows EX r hg
    have hAfacts : NDK sA.bags ∧ sA.currency = s.currency ∧
        sA.totals = s.totals ∧ sA.in_transit = s.in_transit ∧
        dget sA.bags EX = some (dgetD s.bags EX []) ∧
        (∀ ex0, ex0 ≠ EX → dget sA.bags ex0 = dget s.bags ex0) ∧
        dgetD sA.bags EX ([] : List Bag) = dgetD s.bags EX [] := by
      rcases hsAdisj with ⟨hdm, hsA⟩ | ⟨hdm, hsA⟩
      · subst hsA
        exact ⟨hinv.ndBags, rfl, rfl, rfl, dget_of_dmem s.bags EX [] hdm,
          fun ex0 _ => rfl, rfl⟩
      · subst hsA
        have hnone : dget s.bags EX = none := dget_of_not_dmem s.bags EX hdm
        refine ⟨NDK_dset _ _ _ hinv.ndBags, rfl, rfl, rfl, ?_, ?_, ?_⟩
        · show dget (dset s.bags EX []) EX = some (dgetD s.bags EX [])
          rw [dget_dset_self, show dgetD s.bags EX ([] : List Bag) = [] from by
            unfold dgetD; rw [hnone]; rfl]
        · intro ex0 hne
          show dget (dset s.bags EX []) ex0 = dget s.bags ex0
          exact dget_dset_ne _ _ _ _ (Ne.symm hne)
        · show dgetD (dset s.bags EX []) EX ([] : List Bag) = dgetD s.bags EX []
          unfold dgetD
          rw [dget_dset_self, hnone]
          rfl
    obtain ⟨hAnd, hAcur, hAtot, hAtr, hAgetEX, hAgetO, hAdg⟩ := hAfacts
    have hUfacts : ∃ MS,
        dget sB.bags EX = some MS ∧
        (∀ ex0, ex0 ≠ EX → dget sB.bags ex0 = dget s.bags ex0) ∧
        NDK sB.bags ∧ sB.currency = s.currency ∧ sB.totals = s.totals ∧
        rowSum MS currency
          = rowSum (dgetD s.bags EX []) currency + (amount - remv) ∧
        (∀ c0, c0 ≠ currency →
          rowSum MS c0 = rowSum (dgetD s.bags EX []) c0) ∧
        (∀ b ∈ MS, 0 < b.amount ∧ b.cost_currency = s.currency ∧
          pyUpper b.currency = b.currency) ∧
        (remv = 0 → MS ≠ []) ∧
        0 ≤ remv ∧ remv ≤ amount ∧
        (remv ≠ 0 → dgetD sB.in_transit currency ([] : List Bag) = []) ∧
        (∀ b ∈ dgetD sB.in_transit currency ([] : List Bag),
          0 < b.amount ∧ b.cost_currency = s.currency ∧
          b.currency = currency) ∧
        NDK sB.in_transit ∧
        (∀ c0, c0 ≠ currency →
          dget sB.in_transit c0 = dget s.in_transit c0) ∧
        rowSum (dgetD sB.in_transit currency []) currency
          = rowSum (dgetD s.in_transit currency []) currency
            - (amount - remv) ∧
        (amount ≤ rowSum (dgetD s.in_transit currency []) currency →
          remv = 0) := by
      rcases hstep with ⟨tl, htl, hg, hremv, hsB⟩ | ⟨htl, hremv, hsB⟩
      · have htlG := hinv.transGood currency tl htl
        have htlG' : ∀ b ∈ tl, 0 < b.amount ∧ b.cost_currency = s.currency ∧
            pyUpper b.currency = b.currency := by
          intro b hb
          obtain ⟨g1, g2, g3⟩ := htlG b hb
          exact ⟨g1, g2, by rw [g3]; exact hwfc⟩
        have htlG'' : ∀ b ∈ tl, b.currency = currency ∧ 0 < b.amount :=
          fun b hb => ⟨(htlG b hb).2.2, (htlG b hb).1⟩
        obtain ⟨e1, e2, e3, e4, e5, e6, e7⟩ :=
          moveBags_effects currency s.currency tl amount s.num_created_bags
            (le_of_lt hamt) htlG' hinv.baseFix
        rw [← hremv] at e1 e2 e3 e5
        have hdgtl : dgetD s.in_transit currency ([] : List Bag) = tl := by
          unfold dgetD; rw [htl]; rfl
        have hsBtr : dget sB.in_transit currency
            = some (moveBags currency tl amount s.num_created_bags).1 := by
          rw [hsB]
          exact dget_dset_self _ _ _
        have hsBtrD : dgetD sB.in_transit currency ([] : List Bag)
            = (moveBags currency tl amount s.num_created_bags).1 := by
          unfold dgetD; rw [hsBtr]; rfl
        refine ⟨List.mergeSort (dgetD s.bags EX []
            ++ (moveBags currency tl amount s.num_created_bags).2.1)
            (fun a b => decide (a.dtime.utc ≤ b.dtime.utc)),
          ?_, ?_, ?_, ?_, ?_, ?_, ?_, ?_, ?_, e1, ?_, ?_, ?_, ?_, ?_, ?_, ?_⟩
        · rw [hsB]
          show dget (dset sA.bags EX _) EX = _
          rw [dget_dset_self, hAdg]
        · intro ex0 hne
          rw [hsB]
          show dget (dset sA.bags EX _) ex0 = _
          rw [dget_dset_ne _ _ _ _ (Ne.symm hne)]
          exact hAgetO ex0 hne
        · rw [hsB]
          show NDK (dset sA.bags EX _)
          exact NDK_dset _ _ _ hAnd
        · rw [hsB]
          exact hAcur
        · rw [hsB]
          exact hAtot
        · rw [rowSum_perm _ _ _ (List.mergeSort_perm _ _), rowSum_append, e5]
        · intro c0 hc0
          rw [rowSum_perm _ _ _ (List.mergeSort_perm _ _), rowSum_append]
          have hz : rowSum (moveBags currency tl amount
              s.num_created_bags).2.1 c0 = 0 := by
            apply rowSum_eq_zero_of_no_match
            intro b hb
            rw [(e6 b hb).2.2]
            exact Ne.symm hc0
          rw [hz]
          ring
        · intro b hb
          rw [List.mem_mergeSort] at hb
          rcases List.mem_append.mp hb with h1 | h1
          · exact hOLDgood b h1
          · obtain ⟨g1, g2, g3⟩ := e6 b h1
            exact ⟨g1, g2, by rw [g3]; exact hwfc⟩
        · intro hrz hnil
          have : rowSum (List.mergeSort (dgetD s.bags EX []
              ++ (moveBags currency tl amount s.num_created_bags).2.1)
              (fun a b => decide (a.dtime.utc ≤ b.dtime.utc))) currency
              = 0 := by
            rw [hnil, rowSum_nil]
          rw [rowSum_perm _ _ _ (List.mergeSort_perm _ _), rowSum_append,
            e5, hrz] at this
          have hnn := rowSum_nonneg (dgetD s.bags EX []) currency
            (fun b hb => (hOLDgood b hb).1)
          linarith
        · have hnn := rowSum_nonneg
            ((moveBags currency tl amount s.num_created_bags).2.1) currency
            (fun b hb => (e6 b hb).1)
          rw [e5] at hnn
          linarith
        · intro hrz
          rw [hsBtrD]
          exact moveBags_exhaust currency tl amount s.num_created_bags hamt
            htlG'' (by rw [← hremv]; exact hrz)
        · rw [hsBtrD]
          intro b hb
          obtain ⟨g1, g2, g3⟩ := e7 b hb
          obtain ⟨x, hx, hxc⟩ :=
            moveBags_src_sub currency tl amount s.num_created_bags b hb
          exact ⟨g1, g2, by rw [hxc]; exact (htlG x hx).2.2⟩
        · rw [hsB]
          show NDK (dset s.in_transit currency _)
          exact NDK_dset _ _ _ hinv.ndTrans
        · intro c0 hc0
          rw [hsB]
          show dget (dset s.in_transit currency _) c0 = _
          exact dget_dset_ne _ _ _ _ (Ne.symm hc0)
        · rw [hsBtrD, e3, hdgtl]
        · intro hle
          rw [hdgtl] at hle
          exact e2 hle
      · -- no in-transit bags of this currency: nothing is moved
        have hdgtl : dgetD s.in_transit currency ([] : List Bag) = [] := by
          unfold dgetD; rw [htl]; rfl
        subst hsB
        refine ⟨dgetD s.bags EX [], hAgetEX, hAgetO, hAnd, hAcur, hAtot,
          ?_, fun c0 _ => rfl, hOLDgood, ?_, ?_, ?_, ?_, ?_, ?_, ?_, ?_, ?_⟩
        · rw [hremv]
          ring
        · intro hrz
          rw [hremv] at hrz
          exact absurd hrz (ne_of_gt hamt)
        · rw [hremv]
          exact le_of_lt hamt
        · rw [hremv]
        · intro _
          rw [show dgetD sB.in_transit currency ([] : List Bag) = [] from by
            rw [hAtr]; exact hdgtl]
        · rw [show dgetD sB.in_transit currency ([] : List Bag) = [] from by
            rw [hAtr]; exact hdgtl]
          intro b hb
          exact absurd hb (by simp)
        · rw [hAtr]
          exact hinv.ndTrans
        · intro c0 _
          rw [hAtr]
        · rw [show dgetD sB.in_transit currency ([] : List Bag) = [] from by
            rw [hAtr]; exact hdgtl, hdgtl, rowSum_nil, hremv]
          ring
        · intro hle
          rw [hdgtl, rowSum_nil] at hle
          linarith
    obtain ⟨MS, hU1, hU2, hU3ndk, hU4cur, hU5tot, hU6sumc, hU7sumo, hU8good,
      hU9ne, hU10nonneg, hU12le, hU11exh, hT1tr, hT2ndtr, hT3tro, hT4sum,
      hU13⟩ := hUfacts
    have hPE : pyCapitalize EX = EX := by
      rw [hEXdef, pyCapitalize_idem]
    have hVfacts : ∃ FB,
        dget sC.bags EX = some FB ∧
        (∀ ex0, ex0 ≠ EX → dget sC.bags ex0 = dget s.bags ex0) ∧
        NDK sC.bags ∧ NDK sC.totals ∧
        sC.currency = s.currency ∧
        sC.in_transit = sB.in_transit ∧
        (∀ b ∈ FB, 0 < b.amount ∧ b.cost_currency = s.currency ∧
          pyUpper b.currency = b.currency) ∧
        FB ≠ [] ∧
        rowSum FB currency = rowSum (dgetD s.bags EX []) currency + amount ∧
        (∀ c0, c0 ≠ currency →
          rowSum FB c0 = rowSum (dgetD s.bags EX []) c0) ∧
        dgetD (dgetD sC.totals EX []) currency 0
          = dgetD (dgetD s.totals EX []) currency 0 + remv ∧
        (∀ c0, c0 ≠ currency →
          dget (dgetD sC.totals EX []) c0 = dget (dgetD s.totals EX []) c0) ∧
        NDK (dgetD sC.totals EX []) ∧
        (∀ ex0, ex0 ≠ EX → dget sC.totals ex0 = dget s.totals ex0) := by
      rcases hbuy with ⟨hrne, hbuyEq⟩ | ⟨hrne, hsC⟩
      · obtain ⟨-, hsh⟩ := buy_ok_shape dtime remv currency 0 EX sB sC hbuyEq
        rcases hsh with ⟨hle, -⟩ | ⟨hrpos, hcurB, hsC⟩
        · exact absurd (le_antisymm hle hU10nonneg) hrne
        · rw [hPE] at hsC
          have hMSD : dgetD sB.bags EX ([] : List Bag) = MS := by
            unfold dgetD; rw [hU1]; rfl
          have hsCb : sC.bags = dset sB.bags EX
              (dgetD sB.bags EX []
                ++ [mkBag (sB.num_created_bags + 1) dtime currency remv
                      sB.currency 0]) := by
            rw [hsC]
          have hsCt : sC.totals = dset sB.totals EX
              (dset (dgetD sB.totals EX []) currency
                (dgetD (dgetD sB.totals EX []) currency 0 + remv)) := by
            rw [hsC]
          have hsCc : sC.currency = sB.currency := by
            rw [hsC]
          have hsCi : sC.in_transit = sB.in_transit := by
            rw [hsC]
          have hmk : rowSum [mkBag (sB.num_created_bags + 1) dtime currency
              remv sB.currency 0] currency = remv := by
            rw [rowSum_cons, rowSum_nil,
              if_pos (show (mkBag (sB.num_created_bags + 1) dtime currency
                remv sB.currency 0).currency = currency from hwfc)]
            show remv + 0 = remv
            ring
          have hmk0 : ∀ c0, c0 ≠ currency →
              rowSum [mkBag (sB.num_created_bags + 1) dtime currency remv
                sB.currency 0] c0 = 0 := by
            intro c0 hc0
            rw [rowSum_cons, rowSum_nil,
              if_neg (show ¬ (mkBag (sB.num_created_bags + 1) dtime currency
                  remv sB.currency 0).currency = c0 from by
                show ¬ pyUpper currency = c0
                rw [hwfc]
                exact Ne.symm hc0)]
            ring
          refine ⟨MS ++ [mkBag (sB.num_created_bags + 1) dtime currency remv
              sB.currency 0], ?_, ?_, ?_, ?_, ?_, hsCi, ?_, ?_, ?_, ?_, ?_,
            ?_, ?_, ?_⟩
          · rw [hsCb, dget_dset_self, hMSD]
          · intro ex0 hne
            rw [hsCb, dget_dset_ne _ _ _ _ (Ne.symm hne)]
            exact hU2 ex0 hne
          · rw [hsCb]
            exact NDK_dset _ _ _ hU3ndk
          · rw [hsCt, hU5tot]
            exact NDK_dset _ _ _ hinv.ndTot
          · rw [hsCc]
            exact hU4cur
          · intro b hb
            rcases List.mem_append.mp hb with h1 | h1
            · exact hU8good b h1
            · rw [List.mem_singleton] at h1
              subst h1
              refine ⟨hrpos, ?_, ?_⟩
              · show pyUpper sB.currency = s.currency
                rw [hU4cur]
                exact hinv.baseFix
              · show pyUpper (pyUpper currency) = pyUpper currency
                rw [hwfc]
                exact hwfc
          · simp
          · rw [rowSum_append, hmk, hU6sumc]
            ring
          · intro c0 hc0
            rw [rowSum_append, hmk0 c0 hc0, hU7sumo c0 hc0]
            ring
          · rw [hsCt, hU5tot, dgetD_dset_self, dgetD_dset_self]
          · intro c0 hc0
            rw [hsCt, hU5tot, dgetD_dset_self,
              dget_dset_ne _ _ _ _ (Ne.symm hc0)]
          · rw [hsCt, hU5tot, dgetD_dset_self]
            exact NDK_dset _ _ _ hndOldRow
          · intro ex0 hne
            rw [hsCt, hU5tot, dget_dset_ne _ _ _ _ (Ne.symm hne)]
      · have hr0 : remv = 0 := not_not.mp hrne
        refine ⟨MS, ?_, ?_, ?_, ?_, ?_, ?_, hU8good, hU9ne hr0, ?_, hU7sumo,
          ?_, ?_, ?_, ?_⟩
        · rw [hsC]
          exact hU1
        · intro ex0 hne
          rw [hsC]
          exact hU2 ex0 hne
        · rw [hsC]
          exact hU3ndk
        · rw [hsC, hU5tot]
          exact hinv.ndTot
        · rw [hsC]
          exact hU4cur
        · rw [hsC]
        · rw [hU6sumc, hr0]
          ring
        · rw [hsC, hU5tot, hr0]
          ring
        · intro c0 _
          rw [hsC, hU5tot]
        · rw [hsC, hU5tot]
          exact hndOldRow
        · intro ex0 _
          rw [hsC, hU5tot]
    obtain ⟨FB, hV1, hV1o, hVndB, hVndT, hV6, hV5, hVgood, hVne, hVsumc,
      hVsumo, hV3a, hV3b, hV3c, hV4⟩ := hVfacts
    have hCnd : NDK sC.in_transit := by
      rw [hV5]
      exact hT2ndtr
    have hrowC : dget sC.totals "in_transit" = dget s.totals "in_transit" :=
      hV4 "in_transit" (Ne.symm hEXt)
    have hrowD : dgetD sC.totals "in_transit" ([] : List (String × Rat))
        = dgetD s.totals "in_transit" [] := by
      unfold dgetD
      rw [hrowC]
    have hCtr : dgetD sC.in_transit currency ([] : List Bag)
        = dgetD sB.in_transit currency [] := by
      rw [hV5]
    have hSW : dgetD (dgetD s.totals "in_transit" []) currency 0
        = rowSum (dgetD s.in_transit currency []) currency :=
      transit_entry_sum s hinv currency
    have hTLnn : 0 ≤ rowSum (dgetD sB.in_transit currency []) currency :=
      rowSum_nonneg _ _ (fun b hb => (hT1tr b hb).1)
    have hTLzero : rowSum (dgetD sB.in_transit currency []) currency = 0 →
        dgetD sB.in_transit currency ([] : List Bag) = [] :=
      fun h0 => rowSum_zero_of_matchall _ _
        (fun b hb => ⟨(hT1tr b hb).2.2, (hT1tr b hb).1⟩) h0
    set row := dgetD sC.totals "in_transit" ([] : List (String × Rat))
      with hrow_def
    set ROWP := (if dmem row currency = true then
        (if dgetD row currency 0 - amount ≤ 0 then ddel row currency
         else dset row currency (dgetD row currency 0 - amount))
      else row) with hROWP_def
    set TOT := (if ROWP = [] then ddel sC.totals "in_transit"
      else dset sC.totals "in_transit" ROWP) with hTOT_def
    have hDsplit :
        (dget sC.totals "in_transit" = none ∧ sD = sC) ∨
        (dget sC.totals "in_transit" = some row ∧
         sD.totals = TOT ∧ sD.bags = sC.bags ∧ sD.currency = sC.currency ∧
         ((sD.in_transit = ddel sC.in_transit currency ∧
             dgetD sC.in_transit currency ([] : List Bag) = []) ∨
          sD.in_transit = sC.in_transit)) := by
      by_cases hOT : dmem sC.totals "in_transit" = true
      · rw [if_pos hOT] at hsD
        refine Or.inr ⟨by rw [hrow_def]; exact dget_of_dmem _ _ [] hOT, ?_⟩
        by_cases hC1 : dmem sC.in_transit currency = true ∧
            dgetD sC.in_transit currency [] = []
        · rw [if_pos hC1] at hsD
          exact ⟨by rw [hsD], by rw [hsD], by rw [hsD],
            Or.inl ⟨by rw [hsD], hC1.2⟩⟩
        · rw [if_neg hC1] at hsD
          exact ⟨by rw [hsD], by rw [hsD], by rw [hsD], Or.inr (by rw [hsD])⟩
      · rw [if_neg hOT] at hsD
        exact Or.inl ⟨dget_of_not_dmem _ _ hOT, hsD⟩
    have hMain :
        sD.bags = sC.bags ∧ sD.currency = sC.currency ∧
        NDK sD.totals ∧ NDK sD.in_transit ∧
        (∀ ex0, ex0 ≠ "in_transit" →
          dget sD.totals ex0 = dget sC.totals ex0) ∧
        (∀ c0, c0 ≠ currency →
          dget sD.in_transit c0 = dget sC.in_transit c0) ∧
        (∀ v, totalsEntry sD "in_transit" currency = some v →
          v = rowSum ((dget sD.in_transit currency).getD []) currency) ∧
        (totalsEntry sD "in_transit" currency = none →
          (dget sD.in_transit currency).getD [] = ([] : List Bag)) ∧
        (∀ c0, c0 ≠ currency → totalsEntry sD "in_transit" c0
          = totalsEntry s "in_transit" c0) ∧
        (∀ rowx, dget sD.totals "in_transit" = some rowx →
          NDK rowx ∧ rowx ≠ []) ∧
        (∀ bs, dget sD.in_transit currency = some bs → ∀ b ∈ bs,
          0 < b.amount ∧ b.cost_currency = s.currency ∧
          b.currency = currency) := by
      rcases hDsplit with ⟨hnone, hsDC⟩ | ⟨htotget, hsDt, hDb, hDc, hitr⟩
      · have hsnone : dget s.totals "in_transit" = none := by
          rw [← hrowC]
          exact hnone
        have hTEs : totalsEntry s "in_transit" currency = none := by
          unfold totalsEntry
          rw [hsnone]
          rfl
        have hSnil : dgetD s.in_transit currency ([] : List Bag) = [] :=
          (hinv.trMatch currency).2 hTEs
        have h4 := hT4sum
        rw [hSnil, rowSum_nil] at h4
        have hTLBnil : dgetD sB.in_transit currency ([] : List Bag) = [] :=
          hTLzero (by linarith)
        refine ⟨by rw [hsDC], by rw [hsDC], ?_, ?_, ?_, ?_, ?_, ?_, ?_, ?_,
          ?_⟩
        · rw [hsDC]
          exact hVndT
        · rw [hsDC]
          exact hCnd
        · intro ex0 _
          rw [hsDC]
        · intro c0 _
          rw [hsDC]
        · intro v hv
          unfold totalsEntry at hv
          rw [hsDC, hnone] at hv
          simp at hv
        · intro _
          rw [hsDC]
          show dgetD sC.in_transit currency ([] : List Bag) = []
          rw [hCtr]
          exact hTLBnil
        · intro c0 _
          unfold totalsEntry
          rw [hsDC, hnone, hsnone]
        · intro rowx hrowx
          rw [hsDC, hnone] at hrowx
          simp at hrowx
        · intro bs hbs b hb
          rw [hsDC] at hbs
          have h1 : dgetD sB.in_transit currency ([] : List Bag) = bs := by
            rw [← hCtr]
            unfold dgetD
            rw [hbs]
            rfl
          rw [hTLBnil] at h1
          exact absurd hb (by rw [← h1]; simp)
      · have hsget : dget s.totals "in_transit" = some row := by
          rw [← hrowC]
          exact htotget
        have hTEs_all : ∀ c0, totalsEntry s "in_transit" c0
            = dget row c0 := by
          intro c0
          unfold totalsEntry
          rw [hsget]
          rfl
        have hrowNE : row ≠ [] := hinv.rowsNE "in_transit" row hsget
        have hndrow : NDK row := hinv.ndRows "in_transit" row hsget
        have hDtrD : ∀ c0, c0 ≠ currency →
            dget sD.in_transit c0 = dget sC.in_transit c0 := by
          intro c0 hc0
          rcases hitr with ⟨hi, _⟩ | hi
          · rw [hi]
            exact dget_ddel_ne _ _ _ (Ne.symm hc0)
          · rw [hi]
        have hDndTr : NDK sD.in_transit := by
          rcases hitr with ⟨hi, _⟩ | hi
          · rw [hi]
            exact NDK_ddel _ _ hCnd
          · rw [hi]
            exact hCnd
        have hgood5 : ∀ bs, dget sD.in_transit currency = some bs →
            ∀ b ∈ bs, 0 < b.amount ∧ b.cost_currency = s.currency ∧
            b.currency = currency := by
          intro bs hbs
          rcases hitr with ⟨hi, _⟩ | hi
          · rw [hi, dget_ddel_self _ _ hCnd] at hbs
            simp at hbs
          · rw [hi] at hbs
            have h1 : dgetD sB.in_transit currency ([] : List Bag) = bs := by
              rw [← hCtr]
              unfold dgetD
              rw [hbs]
              rfl
            rw [← h1]
            exact hT1tr
        by_cases hdm : dmem row currency = true
        · have hent : dget row currency = some (dgetD row currency 0) :=
            dget_of_dmem _ _ 0 hdm
          have hv0 : dgetD row currency 0
              = rowSum (dgetD s.in_transit currency []) currency := by
            rw [hrowD]
            exact hSW
          by_cases hcmp : dgetD row currency 0 - amount ≤ 0
          · have hROWP : ROWP = ddel row currency := by
              rw [hROWP_def, if_pos hdm, if_pos hcmp]
            have hSa : rowSum (dgetD s.in_transit currency []) currency
                - amount ≤ 0 := by
              rw [← hv0]
              exact hcmp
            have hTLBnil : dgetD sB.in_transit currency ([] : List Bag)
                = [] := by
              by_cases hrz : remv = 0
              · refine hTLzero ?_
                have h4 := hT4sum
                rw [hrz] at h4
                linarith
              · exact hU11exh hrz
            have hentP : dget ROWP currency = none := by
              rw [hROWP]
              exact dget_ddel_self _ _ hndrow
            by_cases hPnil : ROWP = []
            · have hDtotT : dget sD.totals "in_transit" = none := by
                rw [hsDt, hTOT_def, if_pos hPnil]
                exact dget_ddel_self _ _ hVndT
              have hrowO : ∀ c0, c0 ≠ currency → dget row c0 = none := by
                intro c0 hc0
                refine ddel_eq_nil_dget row currency c0 ?_ hc0
                rw [← hROWP]
                exact hPnil
              refine ⟨hDb, hDc, ?_, hDndTr, ?_, hDtrD, ?_, ?_, ?_, ?_,
                hgood5⟩
              · rw [hsDt, hTOT_def, if_pos hPnil]
                exact NDK_ddel _ _ hVndT
              · intro ex0 hne
                rw [hsDt, hTOT_def, if_pos hPnil]
                exact dget_ddel_ne _ _ _ (Ne.symm hne)
              · intro v hv
                unfold totalsEntry at hv
                rw [hDtotT] at hv
                simp at hv
              · intro _
                rcases hitr with ⟨hi, _⟩ | hi
                · rw [hi, dget_ddel_self _ _ hCnd]
                  rfl
                · rw [hi]
                  show dgetD sC.in_transit currency ([] : List Bag) = []
                  rw [hCtr]
                  exact hTLBnil
              · intro c0 hc0
                rw [hTEs_all c0, hrowO c0 hc0]
                unfold totalsEntry
                rw [hDtotT]
                rfl
              · intro rowx hrowx
                rw [hDtotT] at hrowx
                simp at hrowx
            · have hDtotT : dget sD.totals "in_transit" = some ROWP := by
                rw [hsDt, hTOT_def, if_neg hPnil]
                exact dget_dset_self _ _ _
              refine ⟨hDb, hDc, ?_, hDndTr, ?_, hDtrD, ?_, ?_, ?_, ?_,
                hgood5⟩
              · rw [hsDt, hTOT_def, if_neg hPnil]
                exact NDK_dset _ _ _ hVndT
              · intro ex0 hne
                rw [hsDt, hTOT_def, if_neg hPnil]
                exact dget_dset_ne _ _ _ _ (Ne.symm hne)
              · intro v hv
                unfold totalsEntry at hv
                rw [hDtotT] at hv
                replace hv : dget ROWP currency = some v := hv
                rw [hentP] at hv
                simp at hv
              · intro _
                rcases hitr with ⟨hi, _⟩ | hi
                · rw [hi, dget_ddel_self _ _ hCnd]
                  rfl
                · rw [hi]
                  show dgetD sC.in_transit currency ([] : List Bag) = []
                  rw [hCtr]
                  exact hTLBnil
              · intro c0 hc0
                rw [hTEs_all c0]
                unfold totalsEntry
                rw [hDtotT]
                show dget ROWP c0 = dget row c0
                rw [hROWP]
                exact dget_ddel_ne _ _ _ (Ne.symm hc0)
              · intro rowx hrowx
                rw [hDtotT] at hrowx
                rw [← Option.some.inj hrowx]
                exact ⟨by rw [hROWP]; exact NDK_ddel _ _ hndrow, hPnil⟩
          · have hROWP : ROWP = dset row currency
                (dgetD row currency 0 - amount) := by
              rw [hROWP_def, if_pos hdm, if_neg hcmp]
            have hSgt : 0 < rowSum (dgetD s.in_transit currency []) currency
                - amount := by
              have h1 := not_le.mp hcmp
              rw [hv0] at h1
              linarith
            have hr0 : remv = 0 := hU13 (by linarith)
            have hTLsum : rowSum (dgetD sB.in_transit currency []) currency
                = rowSum (dgetD s.in_transit currency []) currency
                  - amount := by
              rw [hT4sum, hr0]
              ring
            have hTLne : dgetD sB.in_transit currency ([] : List Bag) ≠ [] :=
              rowSum_ne_nil _ _ (by rw [hTLsum]; exact ne_of_gt hSgt)
            have hi : sD.in_transit = sC.in_transit := by
              rcases hitr with ⟨_, hinil⟩ | hi
              · rw [hCtr] at hinil
                exact absurd hinil hTLne
              · exact hi
            have hPne : ROWP ≠ [] := by
              rw [hROWP]
              exact dset_ne_nil _ _ _
            have hDtotT : dget sD.totals "in_transit" = some ROWP := by
              rw [hsDt, hTOT_def, if_neg hPne]
              exact dget_dset_self _ _ _
            have hentP : dget ROWP currency
                = some (dgetD row currency 0 - amount) := by
              rw [hROWP]
              exact dget_dset_self _ _ _
            have hTLD : (dget sD.in_transit currency).getD []
                = dgetD sB.in_transit currency [] := by
              rw [hi]
              show dgetD sC.in_transit currency ([] : List Bag) = _
              exact hCtr
            refine ⟨hDb, hDc, ?_, hDndTr, ?_, hDtrD, ?_, ?_, ?_, ?_, hgood5⟩
            · rw [hsDt, hTOT_def, if_neg hPne]
              exact NDK_dset _ _ _ hVndT
            · intro ex0 hne
              rw [hsDt, hTOT_def, if_neg hPne]
              exact dget_dset_ne _ _ _ _ (Ne.symm hne)
            · intro v hv
              unfold totalsEntry at hv
              rw [hDtotT] at hv
              replace hv : dget ROWP currency = some v := hv
              rw [hentP] at hv
              rw [hTLD, hTLsum, ← Option.some.inj hv, hv0]
            · intro h0
              unfold totalsEntry at h0
              rw [hDtotT] at h0
              replace h0 : dget ROWP currency = none := h0
              rw [hentP] at h0
              simp at h0
            · intro c0 hc0
              rw [hTEs_all c0]
              unfold totalsEntry
              rw [hDtotT]
              show dget ROWP c0 = dget row c0
              rw [hROWP]
              exact dget_dset_ne _ _ _ _ (Ne.symm hc0)
            · intro rowx hrowx
              rw [hDtotT] at hrowx
              rw [← Option.some.inj hrowx]
              exact ⟨by rw [hROWP]; exact NDK_dset _ _ _ hndrow, hPne⟩
        · have hentnone : dget row currency = none :=
            dget_of_not_dmem _ _ hdm
          have hROWP : ROWP = row := by
            rw [hROWP_def, if_neg hdm]
          have hTEs : totalsEntry s "in_transit" currency = none := by
            rw [hTEs_all currency]
            exact hentnone
          have hSnil : dgetD s.in_transit currency ([] : List Bag) = [] :=
            (hinv.trMatch currency).2 hTEs
          have h4 := hT4sum
          rw [hSnil, rowSum_nil] at h4
          have hTLBnil : dgetD sB.in_transit currency ([] : List Bag) = [] :=
            hTLzero (by linarith)
          have hDtotT : dget sD.totals "in_transit" = some row := by
            rw [hsDt, hTOT_def, hROWP, if_neg hrowNE]
            exact dget_dset_self _ _ _
          refine ⟨hDb, hDc, ?_, hDndTr, ?_, hDtrD, ?_, ?_, ?_, ?_, hgood5⟩
          · rw [hsDt, hTOT_def, hROWP, if_neg hrowNE]
            exact NDK_dset _ _ _ hVndT
          · intro ex0 hne
            rw [hsDt, hTOT_def, hROWP, if_neg hrowNE]
            exact dget_dset_ne _ _ _ _ (Ne.symm hne)
          · intro v hv
            unfold totalsEntry at hv
            rw [hDtotT] at hv
            replace hv : dget row currency = some v := hv
            rw [hentnone] at hv
            simp at hv
          · intro _
            rcases hitr with ⟨hi, _⟩ | hi
            · rw [hi, dget_ddel_self _ _ hCnd]
              rfl
            · rw [hi]
              show dgetD sC.in_transit currency ([] : List Bag) = []
              rw [hCtr]
              exact hTLBnil
          · intro c0 _
            rw [hTEs_all c0]
            unfold totalsEntry
            rw [hDtotT]
            rfl
          · intro rowx hrowx
            rw [hDtotT] at hrowx
            rw [← Option.some.inj hrowx]
            exact ⟨hndrow, hrowNE⟩
    obtain ⟨hDbags, hDcur, hDndT, hDndTr, hDtotO, hDtrO, hPm1, hPm2, hPmO,
      hProws, hPgood⟩ := hMain
    have hsEt : sE.totals = dset sD.totals EX
        (dset (dgetD sD.totals EX []) currency
          (dgetD (dgetD sD.totals EX []) currency 0 + amount - remv)) := by
      rw [hsE]
    have hsEb : sE.bags = sD.bags := by
      rw [hsE]
    have hsEi : sE.in_transit = sD.in_transit := by
      rw [hsE]
    have hsEc : sE.currency = sD.currency := by
      rw [hsE]
    have hDrowEX : dgetD sD.totals EX ([] : List (String × Rat))
        = dgetD sC.totals EX [] := by
      unfold dgetD
      rw [hDtotO EX hEXt]
    have hcurE : sE.currency = s.currency := by
      rw [hsEc, hDcur, hV6]
    have hinvE : EngineInv sE := by
      have hval : dgetD (dgetD sD.totals EX []) currency 0 + amount - remv
          = rowSum FB currency := by
        rw [hDrowEX, hV3a, exchange_entry_sum s hinv EX currency hEXt, hVsumc]
        ring
      have hpos : 0 < rowSum FB currency := by
        rw [hVsumc]
        have hnn := rowSum_nonneg (dgetD s.bags EX []) currency
          (fun b hb => (hOLDgood b hb).1)
        linarith
      refine EngineInv.updateBoth s sE hinv EX currency hEXt FB
        (dset (dgetD sD.totals EX []) currency
          (dgetD (dgetD sD.totals EX []) currency 0 + amount - remv))
        (dget sD.in_transit currency)
        (totalsEntry sD "in_transit" currency)
        hcurE ?_ ?_ ?_ ?_ ?_ ?_ ?_ ?_ ?_ ?_ ?_ ?_ ?_ ?_ hVne hVgood ?_
        hPgood hPm1 hPm2
      · rw [hsEb, hDbags]
        exact hV1
      · intro ex0 hne
        rw [hsEb, hDbags]
        exact hV1o ex0 hne
      · rw [hsEt, dget_dset_self]
      · intro ex0 h1 h2
        rw [hsEt, dget_dset_ne _ _ _ _ (Ne.symm h1), hDtotO ex0 h2,
          hV4 ex0 h1]
      · rw [hsEi]
      · intro c0 hc0
        rw [hsEi, hDtrO c0 hc0, hV5, hT3tro c0 hc0]
      · unfold totalsEntry
        rw [hsEt, dget_dset_ne _ _ _ _ hEXt]
      · intro c0 hc0
        have h1 : totalsEntry sE "in_transit" c0
            = totalsEntry sD "in_transit" c0 := by
          unfold totalsEntry
          rw [hsEt, dget_dset_ne _ _ _ _ hEXt]
        rw [h1, hPmO c0 hc0]
      · intro rowx hrowx
        rw [hsEt, dget_dset_ne _ _ _ _ hEXt] at hrowx
        exact hProws rowx hrowx
      · rw [hsEb, hDbags]
        exact hVndB
      · rw [hsEt]
        exact NDK_dset _ _ _ hDndT
      · rw [hsEi]
        exact hDndTr
      · refine NDK_dset _ _ _ ?_
        rw [hDrowEX]
        exact hV3c
      · exact dset_ne_nil _ _ _
      · intro c0
        by_cases hc0 : c0 = currency
        · subst hc0
          constructor
          · intro v hv
            rw [dget_dset_self] at hv
            rw [← Option.some.inj hv, hval]
            exact ⟨rfl, ne_of_gt hpos⟩
          · intro hnone
            rw [dget_dset_self] at hnone
            simp at hnone
        · have hch : dget (dset (dgetD sD.totals EX []) currency
              (dgetD (dgetD sD.totals EX []) currency 0 + amount - remv)) c0
              = totalsEntry s EX c0 := by
            rw [dget_dset_ne _ _ _ _ (Ne.symm hc0), hDrowEX, hV3b c0 hc0,
              dget_dgetD_nil]
            rfl
          constructor
          · intro v hv
            rw [hch] at hv
            obtain ⟨h1, h2⟩ := (hinv.exMatch EX c0 hEXt).1 v hv
            exact ⟨by rw [hVsumo c0 hc0]; exact h1, h2⟩
          · intro hnone
            rw [hch] at hnone
            rw [hVsumo c0 hc0]
            exact (hinv.exMatch EX c0 hEXt).2 hnone
    rcases hfeeD with ⟨hfpos, res2, pr, hpay, hs'⟩ | ⟨hfneg, hs'⟩
    · obtain ⟨hinv2, hcur2, -⟩ := pay_inv_effect rel dtime currency fee EX 1
        none "deposit fee" "" 0 sE (some pr) res2 hinvE hpay
      subst hs'
      constructor
      · exact EngineInv.congr res2 _ hinv2 rfl rfl rfl rfl
      · show res2.currency = s.currency
        rw [hcur2, hcurE]
    · subst hs'
      exact ⟨hinvE, hcurE⟩

/-- A successful `process_trade` preserves the engine invariant when
the trade's buy-currency code is upper-case. -/
theorem processTrade_inv (rel : RateRel) (t : Trade) (s s' : BagFIFO)
    (hinv : EngineInv s) (hwf : pyUpper t.buycur = t.buycur)
    (h : processTrade rel t s = .ok s') :
    EngineInv s' ∧ s'.currency = s.currency := by
  unfold processTrade at h
  obtain ⟨s1v, hco, h⟩ := except_bind_ok _ _ _ h
  obtain ⟨haware, horder, hs1⟩ := checkOrder_ok_inv s t.dtime s1v hco
  subst hs1
  by_cases hneg : t.buyval < 0 ∨ t.sellval < 0 ∨ t.feeval < 0
  · rw [if_pos hneg] at h
    exact Except.noConfusion h
  · rw [if_neg hneg] at h
    push_neg at hneg
    obtain ⟨hb0, hs0, hf0⟩ := hneg
    try simp only [] at h
    generalize hg : (if dmem { s with last_date := t.dtime.toUTC }.profit
        (toString t.dtime.year) = true then
        ({ s with last_date := t.dtime.toUTC } : BagFIFO)
      else { { s with last_date := t.dtime.toUTC } with
          profit := dset { s with last_date := t.dtime.toUTC }.profit
            (toString t.dtime.year) 0 }) = S2 at h
    have hS2inv : EngineInv S2 := by
      rw [← hg]
      split
      · exact EngineInv.congr s _ hinv rfl rfl rfl rfl
      · exact EngineInv.congr s _ hinv rfl rfl rfl rfl
    have hS2cur : S2.currency = s.currency := by
      rw [← hg]
      split <;> rfl
    rw [← hS2cur]
    clear hg
    by_cases hc1 : (t.sellcur = S2.currency ∧ t.sellval ≠ 0) ∨
        (pyUpper t.kind = "DISTRIBUTION" ∧ t.sellval = 0)
    · rw [if_pos hc1] at h
      obtain ⟨h1, h2, -⟩ := buy_inv t.dtime t.buyval t.buycur t.sellval
        t.exchange S2 s' hS2inv hwf h
      exact ⟨h1, h2⟩
    · rw [if_neg hc1] at h
      by_cases hc2 : (t.buycur = "" ∨ t.buyval = 0) ∧
          (t.sellcur = "" ∨ t.sellval = 0)
      · rw [if_pos hc2] at h
        by_cases hcf : t.feeval > 0 ∧ t.feecur ≠ ""
        · rw [if_pos hcf] at h
          obtain ⟨r, hr, h⟩ := except_bind_ok _ _ _ h
          obtain ⟨hIr, hCr, -⟩ := pay_inv_effect rel t.dtime t.feecur t.feeval
            t.exchange 1 none "exchange fee" "" 0 S2 r.1 r.2 hS2inv hr
          revert h
          cases hm : r.1 with
          | some pr =>
            intro h
            cases h
            exact ⟨EngineInv.congr r.2 _ hIr rfl rfl rfl rfl, hCr⟩
          | none =>
            intro h
            exact Except.noConfusion h
        · rw [if_neg hcf] at h
          cases h
          exact ⟨hS2inv, rfl⟩
      · rw [if_neg hc2] at h
        by_cases hc3 : pyUpper t.kind ≠ "PAYMENT" ∧
            (t.buycur = "" ∨
              (t.buyval = 0 ∧ (t.exchange ≠ "Poloniex" ∨
                t.kind = "Withdrawal")))
        · rw [if_pos hc3] at h
          by_cases hcw : t.feeval > 0 ∧ t.sellcur ≠ t.feecur
          · rw [if_pos hcw] at h
            exact Except.noConfusion h
          · rw [if_neg hcw] at h
            obtain ⟨h1, h2⟩ := withdraw_inv rel t.dtime t.sellcur t.sellval
              t.feeval t.exchange S2 s' hS2inv hf0 h
            exact ⟨h1, h2⟩
        · rw [if_neg hc3] at h
          by_cases hc4 : t.sellcur = "" ∨ t.sellval = 0
          · rw [if_pos hc4] at h
            by_cases hcd : t.feeval > 0 ∧ t.buycur ≠ t.feecur
            · rw [if_pos hcd] at h
              exact Except.noConfusion h
            · rw [if_neg hcd] at h
              obtain ⟨h1, h2⟩ := deposit_inv rel t.dtime t.buycur t.buyval
                t.feeval t.exchange S2 s' hS2inv hwf hf0 h
              exact ⟨h1, h2⟩
          · rw [if_neg hc4] at h
            by_cases hfp : t.feeval > 0
            · rw [if_pos hfp] at h
              by_cases hfs1 : t.feecur = t.sellcur
              · rw [if_pos hfs1] at h
                obtain ⟨y, hy, h⟩ := except_bind_ok _ _ _ h
                cases hy
                obtain ⟨r2, hr2, h⟩ := except_bind_ok _ _ _ h
                obtain ⟨hIr2, hCr2, -⟩ := pay_inv_effect _ _ _ _ _ _ _ _ _ _
                  S2 r2.1 r2.2 hS2inv hr2
                revert h
                cases hm : r2.1 with
                | none =>
                  intro h
                  exact Except.noConfusion h
                | some pr =>
                  intro h
                  replace h : (if t.buycur ≠ (addProfit r2.2 t.dtime pr.1).currency then
                      buyWithBaseCurrency t.dtime t.buyval t.buycur pr.2 t.exchange
                        (addProfit r2.2 t.dtime pr.1)
                    else pure (addProfit r2.2 t.dtime pr.1)) = Except.ok s' := h
                  split at h
                  · obtain ⟨h1, h2, -⟩ := buy_inv t.dtime t.buyval t.buycur
                      pr.2 t.exchange (addProfit r2.2 t.dtime pr.1) s'
                      (EngineInv.congr r2.2 _ hIr2 rfl rfl rfl rfl) hwf h
                    refine ⟨h1, ?_⟩
                    rw [h2]
                    show r2.2.currency = S2.currency
                    rw [hCr2]
                  · cases h
                    refine ⟨EngineInv.congr r2.2 _ hIr2 rfl rfl rfl rfl, ?_⟩
                    show r2.2.currency = S2.currency
                    rw [hCr2]
              · rw [if_neg hfs1] at h
                by_cases hfs2 : t.feecur = t.buycur
                · rw [if_pos hfs2] at h
                  obtain ⟨y, hy, h⟩ := except_bind_ok _ _ _ h
                  cases hy
                  obtain ⟨r2, hr2, h⟩ := except_bind_ok _ _ _ h
                  obtain ⟨hIr2, hCr2, -⟩ := pay_inv_effect _ _ _ _ _ _ _ _ _ _
                    S2 r2.1 r2.2 hS2inv hr2
                  revert h
                  cases hm : r2.1 with
                  | none =>
                    intro h
                    exact Except.noConfusion h
                  | some pr =>
                    intro h
                    replace h : (if t.buycur ≠ (addProfit r2.2 t.dtime pr.1).currency then
                        buyWithBaseCurrency t.dtime t.buyval t.buycur pr.2 t.exchange
                          (addProfit r2.2 t.dtime pr.1)
                      else pure (addProfit r2.2 t.dtime pr.1)) = Except.ok s' := h
                    split at h
                    · obtain ⟨h1, h2, -⟩ := buy_inv t.dtime t.buyval t.buycur
                        pr.2 t.exchange (addProfit r2.2 t.dtime pr.1) s'
                        (EngineInv.congr r2.2 _ hIr2 rfl rfl rfl rfl) hwf h
                      refine ⟨h1, ?_⟩
                      rw [h2]
                      show r2.2.currency = S2.currency
                      rw [hCr2]
                    · cases h
                      refine ⟨EngineInv.congr r2.2 _ hIr2 rfl rfl rfl rfl, ?_⟩
                      show r2.2.currency = S2.currency
                      rw [hCr2]
                · rw [if_neg hfs2] at h
                  by_cases hfs3 : t.feecur = "BNB"
                  · rw [if_pos hfs3] at h
                    revert h
                    cases hrel : rel t.dtime t.feecur t.sellcur with
                    | none =>
                      intro h
                      exact Except.noConfusion h
                    | some fRate =>
                      intro h
                      obtain ⟨rf, hrf, h⟩ := except_bind_ok _ _ _ h
                      obtain ⟨hIrf, hCrf, -⟩ := pay_inv_effect rel t.dtime
                        t.feecur t.feeval t.exchange 1 none "exchange fee"
                        "" 0 S2 rf.1 rf.2 hS2inv hrf
                      obtain ⟨y, hy, h⟩ := except_bind_ok _ _ _ h
                      cases hy
                      obtain ⟨r2, hr2, h⟩ := except_bind_ok _ _ _ h
                      obtain ⟨hIr2, hCr2, -⟩ := pay_inv_effect _ _ _ _ _ _ _ _ _ _
                        rf.2 r2.1 r2.2 hIrf hr2
                      revert h
                      cases hm : r2.1 with
                      | none =>
                        intro h
                        exact Except.noConfusion h
                      | some pr =>
                        intro h
                        replace h : (if t.buycur ≠ (addProfit r2.2 t.dtime pr.1).currency then
                            buyWithBaseCurrency t.dtime t.buyval t.buycur pr.2 t.exchange
                              (addProfit r2.2 t.dtime pr.1)
                          else pure (addProfit r2.2 t.dtime pr.1)) = Except.ok s' := h
                        split at h
                        · obtain ⟨h1, h2, -⟩ := buy_inv t.dtime t.buyval t.buycur
                            pr.2 t.exchange (addProfit r2.2 t.dtime pr.1) s'
                            (EngineInv.congr r2.2 _ hIr2 rfl rfl rfl rfl) hwf h
                          refine ⟨h1, ?_⟩
                          rw [h2]
                          show r2.2.currency = S2.currency
                          rw [hCr2]
                          exact hCrf
                        · cases h
                          refine ⟨EngineInv.congr r2.2 _ hIr2 rfl rfl rfl rfl, ?_⟩
                          show r2.2.currency = S2.currency
                          rw [hCr2]
                          exact hCrf
                  · rw [if_neg hfs3] at h
                    exact Except.noConfusion h
            · rw [if_neg hfp] at h
              obtain ⟨y, hy, h⟩ := except_bind_ok _ _ _ h
              cases hy
              obtain ⟨r2, hr2, h⟩ := except_bind_ok _ _ _ h
              obtain ⟨hIr2, hCr2, -⟩ := pay_inv_effect _ _ _ _ _ _ _ _ _ _
                S2 r2.1 r2.2 hS2inv hr2
              revert h
              cases hm : r2.1 with
              | none =>
                intro h
                exact Except.noConfusion h
              | some pr =>
                intro h
                replace h : (if t.buycur ≠ (addProfit r2.2 t.dtime pr.1).currency then
                    buyWithBaseCurrency t.dtime t.buyval t.buycur pr.2 t.exchange
                      (addProfit r2.2 t.dtime pr.1)
                  else pure (addProfit r2.2 t.dtime pr.1)) = Except.ok s' := h
                split at h
                · obtain ⟨h1, h2, -⟩ := buy_inv t.dtime t.buyval t.buycur
                    pr.2 t.exchange (addProfit r2.2 t.dtime pr.1) s'
                    (EngineInv.congr r2.2 _ hIr2 rfl rfl rfl rfl) hwf h
                  refine ⟨h1, ?_⟩
                  rw [h2]
                  show r2.2.currency = S2.currency
                  rw [hCr2]
                · cases h
                  refine ⟨EngineInv.congr r2.2 _ hIr2 rfl rfl rfl rfl, ?_⟩
                  show r2.2.currency = S2.currency
                  rw [hCr2]

/-- ASCII upper-casing is idempotent on whole strings. -/
theorem pyUpper_idem (s : String) : pyUpper (pyUpper s) = pyUpper s := by
  show String.mk ((s.data.map pyUpperChar).map pyUpperChar)
    = String.mk (s.data.map pyUpperChar)
  rw [List.map_map]
  have hm : s.data.map (pyUpperChar ∘ pyUpperChar) = s.data.map pyUpperChar :=
    List.map_congr_left (fun c _ => pyUpperChar_idem c)
  rw [hm]

/-- The freshly initialised engine state satisfies the invariant. -/
theorem EngineInv_init (base : String) : EngineInv (initBagFIFO base) := by
  constructor
  · show pyUpper (pyUpper base) = pyUpper base
    exact pyUpper_idem base
  · exact NDK_nil
  · exact NDK_nil
  · exact NDK_nil
  · intro ex row hrow
    exact Option.noConfusion hrow
  · intro ex bs hbs
    exact Option.noConfusion hbs
  · intro c bs hbs
    exact Option.noConfusion hbs
  · intro ex bs hbs
    exact Option.noConfusion hbs
  · intro ex row hrow
    exact Option.noConfusion hrow
  · rfl
  · intro ex c _
    exact ⟨fun v hv => Option.noConfusion hv, fun _ => rowSum_nil c⟩
  · intro c
    exact ⟨fun v hv => Option.noConfusion hv, fun _ => rfl⟩

/-- A successful engine operation with well-formed arguments preserves
the invariant and the base currency. -/
theorem runOp_inv (rel : RateRel) (op : EngineOp) (s s' : BagFIFO)
    (hinv : EngineInv s) (hwf : op.wf) (h : runOp rel op s = .ok s') :
    EngineInv s' ∧ s'.currency = s.currency := by
  cases op with
  | buy dt a c cost ex =>
    obtain ⟨h1, h2, -⟩ := buy_inv dt a c cost ex s s' hinv hwf h
    exact ⟨h1, h2⟩
  | wd dt c a f ex => exact withdraw_inv rel dt c a f ex s s' hinv hwf h
  | dep dt c a f ex =>
    exact deposit_inv rel dt c a f ex s s' hinv hwf.1 hwf.2 h
  | payout dt c a ex fr cr k bc br =>
    replace h : Except.map (fun r : Option (Rat × Rat) × BagFIFO => r.2)
        (pay rel dt c a ex fr cr k bc br s) = Except.ok s' := h
    revert h
    cases hp : pay rel dt c a ex fr cr k bc br s with
    | error e =>
      intro h
      exact Except.noConfusion h
    | ok r =>
      intro h
      cases h
      obtain ⟨h1, h2, -⟩ := pay_inv_effect rel dt c a ex fr cr k bc br s
        r.1 r.2 hinv hp
      exact ⟨h1, h2⟩
  | trade t => exact processTrade_inv rel t s s' hinv hwf h

/-- A failed prefix poisons the whole fold. -/
theorem runOps_error (rel : RateRel) (ops : List EngineOp) (e : String) :
    ops.foldl (fun acc op => acc >>= runOp rel op) (.error e) = .error e := by
  induction ops with
  | nil => rfl
  | cons op rest ih =>
    rw [List.foldl_cons]
    exact ih

/-- Invariant preservation along any successful operation sequence. -/
theorem runOps_inv (rel : RateRel) (ops : List EngineOp) :
    ∀ s s', EngineInv s → (∀ op ∈ ops, op.wf) →
    runOps rel ops s = .ok s' →
    EngineInv s' ∧ s'.currency = s.currency := by
  induction ops with
  | nil =>
    intro s s' h _ hrun
    cases hrun
    exact ⟨h, rfl⟩
  | cons op rest ih =>
    intro s s' h hwf hrun
    unfold runOps at hrun
    have hstep : (Except.ok s : Except String BagFIFO) >>= runOp rel op
        = runOp rel op s := rfl
    rw [List.foldl_cons, hstep] at hrun
    cases hop : runOp rel op s with
    | error e =>
      rw [hop, runOps_error] at hrun
      exact Except.noConfusion hrun
    | ok s1 =>
      rw [hop] at hrun
      obtain ⟨h1, hc1⟩ := runOp_inv rel op s s1 h (hwf op (by simp)) hop
      obtain ⟨h2, hc2⟩ := ih s1 s' h1
        (fun o ho => hwf o (by simp [ho])) hrun
      exact ⟨h2, by rw [hc2, hc1]⟩

/-- C2 (amended): after every successful sequence of well-formed engine
operations from a fresh `BagFIFO`, each per-exchange totals entry equals
the summed amount of that currency's bags on that exchange and is
present exactly when that sum is nonzero, while each `in_transit` totals
entry equals the summed amount of the in-transit bags of its currency —
but the in-transit row may retain an explicit zero entry; only an absent
in-transit key forces the in-transit bag list of that currency to be
empty. -/
theorem totals_match_bags (rel : RateRel) (ops : List EngineOp)
    (base : String) (s' : BagFIFO) (hwf : ∀ op ∈ ops, op.wf)
    (h : runOps rel ops (initBagFIFO base) = .ok s') :
    (∀ ex c, ex ≠ "in_transit" →
      (∀ v, totalsEntry s' ex c = some v →
        v = rowSum (dgetD s'.bags ex []) c ∧ v ≠ 0) ∧
      (totalsEntry s' ex c = none → rowSum (dgetD s'.bags ex []) c = 0)) ∧
    (∀ c,
      (∀ v, totalsEntry s' "in_transit" c = some v →
        v = rowSum (dgetD s'.in_transit c []) c) ∧
      (totalsEntry s' "in_transit" c = none →
        dgetD s'.in_transit c [] = [])) := by
  obtain ⟨hi, -⟩ := runOps_inv rel ops (initBagFIFO base) s'
    (EngineInv_init base) hwf h
  exact ⟨fun ex c hx => hi.exMatch ex c hx, fun c => hi.trMatch c⟩

/-- C2 counterexample: buying 2 BTC and then withdrawing 1 BTC with a
1 BTC fee reaches a state whose `in_transit` totals row keeps an
explicit `BTC ↦ 0` entry although the in-transit bag list of BTC is
empty — under the claim a key whose total is zero should be absent. -/
theorem totals_zero_key_counterexample :
    (runOps (fun _ _ _ => some 1)
        [EngineOp.buy ⟨1, 0, true⟩ 2 "BTC" 100 "Ex",
         EngineOp.wd ⟨2, 0, true⟩ "BTC" 1 1 "Ex"]
        (initBagFIFO "EUR")).toOption.map
      (fun sx => (totalsEntry sx "in_transit" "BTC",
        dgetD sx.in_transit "BTC" []))
      = some (some 0, []) := by
  with_unfolding_all decide

/-- C2 witness: the amended correspondence applied to the state reached
by a single purchase of 2 BTC for 100 EUR, read back at its only totals
entry. -/
theorem totals_match_bags_witness :
    (2 : Rat) = rowSum (dgetD
      ({ currency := "EUR", profit := [],
         bags := [("Ex", [⟨1, ⟨1, 0, true⟩, "BTC", 2, "EUR", 100, 50⟩])],
         totals := [("Ex", [("BTC", 2)])], in_transit := [], report := [],
         last_date := ⟨1, 0, true⟩,
         num_created_bags := 1 } : BagFIFO).bags "Ex" []) "BTC" ∧
      (2 : Rat) ≠ 0 :=
  ((totals_match_bags (fun _ _ _ => none)
      [EngineOp.buy ⟨1, 0, true⟩ 2 "BTC" 100 "Ex"] "EUR"
      { currency := "EUR", profit := [],
        bags := [("Ex", [⟨1, ⟨1, 0, true⟩, "BTC", 2, "EUR", 100, 50⟩])],
        totals := [("Ex", [("BTC", 2)])], in_transit := [], report := [],
        last_date := ⟨1, 0, true⟩,
        num_created_bags := 1 }
      (by
        intro op hop
        rw [List.mem_singleton] at hop
        subst hop
        exact (by decide : pyUpper "BTC" = "BTC"))
      (by with_unfolding_all rfl)).1 "Ex" "BTC"
    (by decide)).1 2 (by decide)

/-! ## Claim C8 — load after save.  Helper lemmas first. -/

/-- Bind of an `ok` value reduces. -/
theorem ok_bind {α β : Type} (a : α) (f : α → Except String β) :
    (Except.ok a >>= f) = f a := rfl

/-- In a duplicate-free dict, membership determines the lookup. -/
theorem mem_dget {κ α : Type} [DecidableEq κ] (d : List (κ × α)) (k : κ)
    (v : α) (h : NDK d) (hm : (k, v) ∈ d) : dget d k = some v := by
  induction d with
  | nil => exact absurd hm (by simp)
  | cons p t ih =>
    obtain ⟨a, b⟩ := p
    rcases List.mem_cons.mp hm with he | ht
    · obtain ⟨h1, h2⟩ := Prod.mk.injEq .. ▸ he
      subst h1
      subst h2
      show (if k = k then some v else dget t k) = some v
      rw [if_pos rfl]
    · have hadt : a ≠ k := by
        intro hak
        subst hak
        have : a ∈ t.map Prod.fst := by
          exact List.mem_map.mpr ⟨(a, v), ht, rfl⟩
        exact (List.nodup_cons.mp h).1 this
      show (if a = k then some b else dget t k) = some v
      rw [if_neg hadt]
      exact ih (List.nodup_cons.mp h).2 ht

/-- Key membership after a `dset`. -/
theorem dmem_dset {κ α : Type} [DecidableEq κ] (d : List (κ × α)) (k k' : κ)
    (v : α) : dmem (dset d k v) k' = true ↔ (k' = k ∨ dmem d k' = true) := by
  unfold dmem
  by_cases h : k = k'
  · subst h
    rw [dget_dset_self]
    simp
  · rw [dget_dset_ne _ _ _ _ h]
    constructor
    · intro hh
      exact Or.inr hh
    · intro hh
      rcases hh with hh | hh
      · exact absurd hh.symm h
      · exact hh

/-- Sufficient conditions for Python dict equality of a totals row. -/
theorem rowEqPy_true (a b : List (String × Rat))
    (h1 : ∀ p ∈ a, dget b p.1 = some p.2)
    (h2 : ∀ p ∈ b, dmem a p.1 = true) : rowEqPy a b = true := by
  unfold rowEqPy
  rw [Bool.and_eq_true, List.all_eq_true, List.all_eq_true]
  constructor
  · intro p hp
    simp only [decide_eq_true_eq]
    exact h1 p hp
  · intro p hp
    exact h2 p hp

/-- Sufficient conditions for Python dict equality of the totals dict. -/
theorem totalsEqPy_true (a b : List (String × List (String × Rat)))
    (h1 : ∀ p ∈ a, ∃ row, dget b p.1 = some row ∧ rowEqPy p.2 row = true)
    (h2 : ∀ p ∈ b, dmem a p.1 = true) : totalsEqPy a b = true := by
  unfold totalsEqPy
  rw [Bool.and_eq_true, List.all_eq_true, List.all_eq_true]
  refine ⟨?_, h2⟩
  intro p hp
  obtain ⟨row, hr, he⟩ := h1 p hp
  rw [hr]
  exact he

/-- `load`'s zero-pruning pass is the identity on a totals dict whose
rows are nonempty with only nonzero values. -/
theorem pruneZeroTotals_id (T : List (String × List (String × Rat)))
    (h : ∀ p ∈ T, (∀ q ∈ p.2, q.2 ≠ 0) ∧ p.2 ≠ []) :
    pruneZeroTotals T = .ok T := by
  unfold pruneZeroTotals
  have hmap : T.map (fun p => (p.1, p.2.filter (fun q => q.2 ≠ 0))) = T := by
    have : ∀ p ∈ T, (p.1, p.2.filter (fun q => decide (q.2 ≠ 0))) = p := by
      intro p hp
      have hf : p.2.filter (fun q => decide (q.2 ≠ 0)) = p.2 :=
        List.filter_eq_self.mpr
          (fun q hq => decide_eq_true ((h p hp).1 q hq))
      rw [hf]
    rw [List.map_congr_left this]
    exact List.map_id' T
  rw [hmap]
  rw [if_neg]
  intro hany
  rw [List.any_eq_true] at hany
  obtain ⟨p, hp, he⟩ := hany
  rw [decide_eq_true_eq] at he
  exact (h p hp).2 he

/-- `check_totals`' per-exchange accumulation: sums the positive bags
(whose cost currency is the base) on top of the accumulator row. -/
theorem checkRowOf_spec (base : String) :
    ∀ (bs : List Bag) (row : List (String × Rat)),
    (∀ b ∈ bs, 0 < b.amount ∧ b.cost_currency = base) → NDK row →
    ∃ R, checkRowOf base bs row = .ok R ∧ NDK R ∧
      (∀ c, dgetD R c 0 = dgetD row c 0 + rowSum bs c) ∧
      (∀ c, dmem R c = true ↔
        (dmem row c = true ∨ ∃ b ∈ bs, b.currency = c)) := by
  intro bs
  induction bs with
  | nil =>
    intro row hg hnd
    refine ⟨row, rfl, hnd, ?_, ?_⟩
    · intro c
      rw [rowSum_nil]
      ring
    · intro c
      simp
  | cons b rest ih =>
    intro row hg hnd
    have hb := hg b (by simp)
    obtain ⟨R, hR, hnd2, hsum, hkeys⟩ := ih
      (dset row b.currency (dgetD row b.currency 0 + b.amount))
      (fun x hx => hg x (by simp [hx]))
      (NDK_dset _ _ _ hnd)
    refine ⟨R, ?_, hnd2, ?_, ?_⟩
    · rw [checkRowOf,
        if_pos (show b.amount ≠ 0 from ne_of_gt hb.1),
        if_neg (show ¬ b.cost_currency ≠ base from by rw [hb.2]; simp)]
      exact hR
    · intro c
      rw [hsum c, rowSum_cons]
      by_cases hc : b.currency = c
      · subst hc
        rw [dgetD_dset_self, if_pos rfl]
        ring
      · rw [dgetD_dset_ne _ _ _ _ _ hc, if_neg hc]
        ring
    · intro c
      rw [hkeys c, dmem_dset]
      constructor
      · intro hh
        rcases hh with hh | hh
        · rcases hh with hh | hh
          · exact Or.inr ⟨b, by simp, hh.symm⟩
          · exact Or.inl hh
        · obtain ⟨x, hx, hxc⟩ := hh
          exact Or.inr ⟨x, by simp [hx], hxc⟩
      · intro hh
        rcases hh with hh | hh
        · exact Or.inl (Or.inr hh)
        · obtain ⟨x, hx, hxc⟩ := hh
          rcases List.mem_cons.mp hx with he | ht
          · subst he
            exact Or.inl (Or.inl hxc.symm)
          · exact Or.inr ⟨x, ht, hxc⟩

/-- `check_totals`' outer loop over the bag inventories. -/
theorem checkTotalsOf_spec (base : String) :
    ∀ (L : List (String × List Bag))
      (acc : List (String × List (String × Rat))),
    (∀ p ∈ L, ∀ b ∈ p.2, 0 < b.amount ∧ b.cost_currency = base) →
    NDK L → NDK acc →
    ∃ T, checkTotalsOf base L acc = .ok T ∧ NDK T ∧
      (∀ ex, dget L ex = none → dget T ex = dget acc ex) ∧
      (∀ ex bs, dget L ex = some bs →
        ∃ R, dget T ex = some R ∧ NDK R ∧
          (∀ c, dgetD R c 0 = rowSum bs c) ∧
          (∀ c, dmem R c = true ↔ ∃ b ∈ bs, b.currency = c)) := by
  intro L
  induction L with
  | nil =>
    intro acc _ _ hnda
    exact ⟨acc, rfl, hnda, fun ex _ => rfl,
      fun ex bs hbs => Option.noConfusion hbs⟩
  | cons p rest ih =>
    obtain ⟨ex0, bs0⟩ := p
    intro acc hg hndL hnda
    obtain ⟨R0, hR0, hndR0, hsum0, hkeys0⟩ :=
      checkRowOf_spec base bs0 [] (hg (ex0, bs0) (by simp)) NDK_nil
    obtain ⟨T, hT, hndT, hoff, hon⟩ := ih (dset acc ex0 R0)
      (fun q hq => hg q (by simp [hq]))
      (List.nodup_cons.mp hndL).2
      (NDK_dset _ _ _ hnda)
    have hex0rest : dget rest ex0 = none :=
      dget_eq_none_of_not_memKeys _ _ (List.nodup_cons.mp hndL).1
    refine ⟨T, ?_, hndT, ?_, ?_⟩
    · show (checkRowOf base bs0 [] >>= fun row =>
        checkTotalsOf base rest (dset acc ex0 row)) = .ok T
      rw [hR0, ok_bind]
      exact hT
    · intro ex hnone
      have hd : dget ((ex0, bs0) :: rest) ex
          = if ex0 = ex then some bs0 else dget rest ex := rfl
      rw [hd] at hnone
      by_cases he : ex0 = ex
      · rw [if_pos he] at hnone
        exact Option.noConfusion hnone
      · rw [if_neg he] at hnone
        rw [hoff ex hnone, dget_dset_ne _ _ _ _ he]
    · intro ex bs hbs
      have hd : dget ((ex0, bs0) :: rest) ex
          = if ex0 = ex then some bs0 else dget rest ex := rfl
      rw [hd] at hbs
      by_cases he : ex0 = ex
      · subst he
        rw [if_pos rfl] at hbs
        obtain rfl : bs0 = bs := Option.some.inj hbs
        refine ⟨R0, ?_, hndR0, ?_, ?_⟩
        · rw [hoff ex0 hex0rest, dget_dset_self]
        · intro c
          rw [hsum0 c]
          show (0 : Rat) + rowSum bs0 c = rowSum bs0 c
          ring
        · intro c
          rw [hkeys0 c]
          simp [dmem, dget]
      · rw [if_neg he] at hbs
        exact hon ex bs hbs

/-- The inner fold of `check_transit` over one currency's bag list. -/
theorem checkTransit_fold_spec (cur : String) :
    ∀ (bs : List Bag) (a : List (String × Rat)),
    (∀ b ∈ bs, b.currency = cur ∧ 0 < b.amount) → NDK a →
    NDK (bs.foldl (fun a b => if b.amount ≠ 0 then
        dset a cur (dgetD a cur 0 + b.amount) else a) a) ∧
    dgetD (bs.foldl (fun a b => if b.amount ≠ 0 then
        dset a cur (dgetD a cur 0 + b.amount) else a) a) cur 0
      = dgetD a cur 0 + rowSum bs cur ∧
    (∀ c, c ≠ cur → dget (bs.foldl (fun a b => if b.amount ≠ 0 then
        dset a cur (dgetD a cur 0 + b.amount) else a) a) c = dget a c) ∧
    (dmem (bs.foldl (fun a b => if b.amount ≠ 0 then
        dset a cur (dgetD a cur 0 + b.amount) else a) a) cur = true ↔
      (dmem a cur = true ∨ bs ≠ [])) := by
  intro bs
  induction bs with
  | nil =>
    intro a _ hnd
    refine ⟨hnd, ?_, fun c _ => rfl, ?_⟩
    · rw [rowSum_nil]
      show dgetD a cur 0 = dgetD a cur 0 + 0
      ring
    · simp
  | cons b rest ih =>
    intro a hg hnd
    have hb := hg b (by simp)
    have hstep : (b :: rest).foldl (fun a b => if b.amount ≠ 0 then
        dset a cur (dgetD a cur 0 + b.amount) else a) a
        = rest.foldl (fun a b => if b.amount ≠ 0 then
        dset a cur (dgetD a cur 0 + b.amount) else a)
          (dset a cur (dgetD a cur 0 + b.amount)) := by
      rw [List.foldl_cons, if_pos (ne_of_gt hb.2)]
    obtain ⟨ih1, ih2, ih3, ih4⟩ := ih (dset a cur (dgetD a cur 0 + b.amount))
      (fun x hx => hg x (by simp [hx]))
      (NDK_dset _ _ _ hnd)
    rw [hstep]
    refine ⟨ih1, ?_, ?_, ?_⟩
    · rw [ih2, dgetD_dset_self, rowSum_cons, if_pos hb.1]
      ring
    · intro c hc
      rw [ih3 c hc, dget_dset_ne _ _ _ _ (Ne.symm hc)]
    · rw [ih4]
      constructor
      · intro _
        exact Or.inr (by simp)
      · intro _
        left
        rw [dmem_dset]
        exact Or.inl rfl

/-- `check_transit` over the in-transit inventories. -/
theorem checkTransitOf_spec :
    ∀ (L : List (String × List Bag)) (acc : List (String × Rat)),
    (∀ p ∈ L, ∀ b ∈ p.2, b.currency = p.1 ∧ 0 < b.amount) →
    NDK L → NDK acc →
    NDK (checkTransitOf L acc) ∧
    (∀ c, dget L c = none → dget (checkTransitOf L acc) c = dget acc c) ∧
    (∀ c bs, dget L c = some bs →
      dgetD (checkTransitOf L acc) c 0 = dgetD acc c 0 + rowSum bs c ∧
      (dmem (checkTransitOf L acc) c = true ↔
        (dmem acc c = true ∨ bs ≠ []))) := by
  intro L
  induction L with
  | nil =>
    intro acc _ _ hnda
    exact ⟨hnda, fun c _ => rfl, fun c bs hbs => Option.noConfusion hbs⟩
  | cons p rest ih =>
    obtain ⟨cur, bs0⟩ := p
    intro acc hg hndL hnda
    have hfold := checkTransit_fold_spec cur bs0 acc
      (hg (cur, bs0) (by simp)) hnda
    obtain ⟨hf1, hf2, hf3, hf4⟩ := hfold
    obtain ⟨ih1, ih2, ih3⟩ := ih
      (bs0.foldl (fun a (b : Bag) => if b.amount ≠ 0 then
        dset a cur (dgetD a cur 0 + b.amount) else a) acc)
      (fun q hq => hg q (by simp [hq]))
      (List.nodup_cons.mp hndL).2 hf1
    have hcurrest : dget rest cur = none :=
      dget_eq_none_of_not_memKeys _ _ (List.nodup_cons.mp hndL).1
    have hstep : checkTransitOf ((cur, bs0) :: rest) acc
        = checkTransitOf rest
            (bs0.foldl (fun a (b : Bag) => if b.amount ≠ 0 then
              dset a cur (dgetD a cur 0 + b.amount) else a) acc) := rfl
    rw [hstep]
    refine ⟨ih1, ?_, ?_⟩
    · intro c hnone
      have hd : dget ((cur, bs0) :: rest) c
          = if cur = c then some bs0 else dget rest c := rfl
      rw [hd] at hnone
      by_cases he : cur = c
      · rw [if_pos he] at hnone
        exact Option.noConfusion hnone
      · rw [if_neg he] at hnone
        rw [ih2 c hnone, hf3 c (Ne.symm he)]
    · intro c bs hbs
      have hd : dget ((cur, bs0) :: rest) c
          = if cur = c then some bs0 else dget rest c := rfl
      rw [hd] at hbs
      by_cases he : cur = c
      · subst he
        rw [if_pos rfl] at hbs
        obtain rfl : bs0 = bs := Option.some.inj hbs
        constructor
        · rw [show dgetD (checkTransitOf rest
              (bs0.foldl (fun a (b : Bag) => if b.amount ≠ 0 then
                dset a cur (dgetD a cur 0 + b.amount) else a) acc)) cur 0
              = (dget (checkTransitOf rest
              (bs0.foldl (fun a (b : Bag) => if b.amount ≠ 0 then
                dset a cur (dgetD a cur 0 + b.amount) else a) acc)) cur).getD 0
              from rfl,
            ih2 cur hcurrest]
          exact hf2
        · rw [show dmem (checkTransitOf rest
              (bs0.foldl (fun a (b : Bag) => if b.amount ≠ 0 then
                dset a cur (dgetD a cur 0 + b.amount) else a) acc)) cur
              = (dget (checkTransitOf rest
              (bs0.foldl (fun a (b : Bag) => if b.amount ≠ 0 then
                dset a cur (dgetD a cur 0 + b.amount) else a) acc)) cur).isSome
              from rfl,
            ih2 cur hcurrest]
          exact hf4
      · rw [if_neg he] at hbs
        obtain ⟨hi1, hi2⟩ := ih3 c bs hbs
        constructor
        · rw [hi1,
            show dgetD (bs0.foldl (fun a (b : Bag) => if b.amount ≠ 0 then
              dset a cur (dgetD a cur 0 + b.amount) else a) acc) c 0
              = (dget (bs0.foldl (fun a (b : Bag) => if b.amount ≠ 0 then
              dset a cur (dgetD a cur 0 + b.amount) else a) acc) c).getD 0
              from rfl,
            hf3 c (Ne.symm he)]
          rfl
        · rw [hi2,
            show dmem (bs0.foldl (fun a (b : Bag) => if b.amount ≠ 0 then
              dset a cur (dgetD a cur 0 + b.amount) else a) acc) c
              = (dget (bs0.foldl (fun a (b : Bag) => if b.amount ≠ 0 then
              dset a cur (dgetD a cur 0 + b.amount) else a) acc) c).isSome
              from rfl,
            hf3 c (Ne.symm he)]
          rfl
